import Mathlib

/-!
# concurrent_charpool: a shallow embedding of src/src/concurrent_charpool.h

Pointers are natural numbers, `0` is `NULL`.  The pool is a record of the
fields of `concurrent_charpool_t`; the block chain is a list whose first
element is the head block (the `next` link of a block is the tail of the
list).  Everything the code obtains from outside the pool during one call
(the outcome of each `spinlock_trylock`, of each small stack push, the
pointers returned by the system allocator) is an explicit argument, so one
call is a function of the pool and of that environment.  The embedding is
sequential: between two steps of one call no other thread changes the pool.

Arrays are lists.  An index outside an array, which is undefined behaviour
in C and which `pool_valid` below excludes for every size under
`block_size`, reads the default entry (an empty stack, the null free list)
and writes nothing; the calls are given a second time with every array
access checked, where such an index makes the call fail.  Pointer
arithmetic `data + index` is not reduced modulo the word size; the fill
index of a block is.
-/

namespace ConcurrentCharpool

/-! ## Machine words -/

/-- The number of values of a `size_t` (64-bit target). -/
def SIZE_T_RANGE : Nat := 2 ^ 64

/-- The number of values of a `uint8_t`. -/
def UINT8_RANGE : Nat := 256

/-- The spin budget of the grow loop (the literal 1000 of line 330). -/
def SPIN_LIMIT : Nat := 1000

/-! ## Bit utilities (bit_utils/bit_utils.h, not part of the sources) -/

/-- Modelled from the spec: `floor_log2` of bit_utils.h, the position of the
highest set bit, computed by halving; the first argument bounds the recursion. -/
def floor_log2_fuel : Nat → Nat → Nat
  | 0, _ => 0
  | fuel + 1, x => if x < 2 then 0 else floor_log2_fuel fuel (x / 2) + 1

/-- Modelled from the spec: `floor_log2` of bit_utils.h on an unsigned word. -/
def floor_log2 (x : Nat) : Nat := floor_log2_fuel 64 x

/-- Modelled from the spec: `ceil_log2` of bit_utils.h, the least `k` with
`x ≤ 2 ^ k`. -/
def ceil_log2 (x : Nat) : Nat := if x ≤ 1 then 0 else floor_log2 (x - 1) + 1

/-- Modelled from the spec: `is_power_of_two` of bit_utils.h. -/
def is_power_of_two (x : Nat) : Bool := decide (x = 2 ^ floor_log2 x)

/-! ## Data model -/

/-- The struct `concurrent_charpool_block_t` (lines 48-53): the fill index
`block_index` and the buffer `data`; `next` is the rest of the chain. -/
structure concurrent_charpool_block_t where
  block_index : Nat
  data : Nat
  deriving DecidableEq, Repr

/-- The struct `concurrent_charpool_free_list_t` (lines 64-67): the head of a
large free list, a version counter and the first free string (0 when empty). -/
structure concurrent_charpool_free_list_t where
  version : Nat
  item : Nat
  deriving DecidableEq, Repr

/-- The constant `CONCURRENT_CHARPOOL_NULL_FREE_LIST` (line 69). -/
def CONCURRENT_CHARPOOL_NULL_FREE_LIST : concurrent_charpool_free_list_t :=
  { version := 0, item := 0 }

/-- The struct `concurrent_charpool_t` (lines 71-82).  `small_string_free_lists`
is the array of small stacks (top of a stack first), `free_lists` the array of
large free-list heads, `block` the chain of blocks (head first).
`free_string_next` is the memory holding the `next` field that a free large
string stores in its own first bytes: the pairs `(string, next)` in the order
written, latest first.  Each free string has a `next` cell of its own here.
That is what the code has when the pointer-sized store of line 230 stays
inside the string, that is for strings of at least 8 bytes, as every string
on a large free list is when `small_string_max_size` is at least 8; for
shorter strings the store runs into the bytes behind the string, which this
memory does not show. -/
structure concurrent_charpool_t where
  small_string_min_size : Nat
  small_string_max_size : Nat
  small_string_level_threshold : Nat
  num_free_lists : Nat
  block_size : Nat
  small_string_free_lists : List (List Nat)
  free_lists : List concurrent_charpool_free_list_t
  free_string_next : List (Nat × Nat)
  block : List concurrent_charpool_block_t
  deriving DecidableEq, Repr

/-- The options `charpool_options_t` of charpool/charpool.h, the three fields
that `concurrent_charpool_init_options` reads. -/
structure charpool_options_t where
  small_string_min_size : Nat
  small_string_max_size : Nat
  block_size : Nat
  deriving DecidableEq, Repr

/-- Reading `item->next` of the free string at address `p`: the value last
stored for `p`, `NULL` when none was.  Stores for other strings do not
change it, see `free_string_next` for when that is exact. -/
def read_next (mem : List (Nat × Nat)) (p : Nat) : Nat :=
  match mem with
  | [] => 0
  | (q, n) :: rest => if q = p then n else read_next rest p

/-- What one call gets from outside the pool.  `trylock k` is the outcome of
`spinlock_trylock` in iteration `k` of the grow loop, `push_ok k` whether the
small stack push of iteration `k` finds a node in the arena, `new_block` the
`data` pointer of the block that `concurrent_charpool_block_new` returns
(0 when it fails), `aligned_malloc` the pointer returned by
`CHARPOOL_ALIGNED_MALLOC` for an oversize request. -/
structure call_env where
  trylock : Nat → Bool
  push_ok : Nat → Bool
  new_block : Nat
  aligned_malloc : Nat

/-- The result of `concurrent_charpool_release_size`: the returned flag, the
pool afterwards and the pointers handed to `CHARPOOL_ALIGNED_FREE`. -/
structure release_out where
  ok : Bool
  pool : concurrent_charpool_t
  freed : List Nat
  deriving DecidableEq, Repr

/-- The result of `concurrent_charpool_alloc`: `result` is `some p` when the
call returned `p` (`some 0` is `NULL`) and `none` when the grow loop was still
running after the given number of iterations; `pool` is the pool at that
point and `freed` the pointers handed to `CHARPOOL_ALIGNED_FREE`. -/
structure alloc_out where
  result : Option Nat
  pool : concurrent_charpool_t
  freed : List Nat
  deriving DecidableEq, Repr

/-! ## Small stacks (stack/stack.h, not part of the sources) -/

/-- Modelled from the spec: `concurrent_small_string_stack_push` of the generic
lock-free stack, LIFO; it fails, leaving the stack as it is, when the node
arena is exhausted (`ok = false`). -/
def concurrent_small_string_stack_push (stack : List Nat) (value : Nat) (ok : Bool) :
    Bool × List Nat :=
  if ok then (true, value :: stack) else (false, stack)

/-- Modelled from the spec: `concurrent_small_string_stack_pop` of the generic
lock-free stack: the top element and the rest, or nothing on an empty stack. -/
def concurrent_small_string_stack_pop (stack : List Nat) : Option (Nat × List Nat) :=
  match stack with
  | [] => none
  | value :: rest => some (value, rest)

/-! ## Initialisation (lines 85-171) -/

/-- The function `concurrent_charpool_block_new` (lines 85-98) when both
allocations succeed, `data` being the buffer returned by the aligned allocator. -/
def concurrent_charpool_block_new (data : Nat) : concurrent_charpool_block_t :=
  { block_index := 0, data := data }

/-- The function `concurrent_charpool_init_options` (lines 108-171) on a
non-null pool when every allocation succeeds; `block_data` is the buffer of
the first block (0: the block allocation failed). -/
def concurrent_charpool_init_options (options : charpool_options_t) (block_data : Nat) :
    Option concurrent_charpool_t :=
  if options.small_string_min_size < 1
      ∨ options.small_string_min_size > options.small_string_max_size
      ∨ is_power_of_two options.block_size = false
      ∨ is_power_of_two options.small_string_max_size = false then none
  else
    let small_min := options.small_string_min_size % UINT8_RANGE
    let small_max := options.small_string_max_size % UINT8_RANGE
    let block_size := options.block_size % SIZE_T_RANGE
    let threshold := floor_log2 small_max % UINT8_RANGE
    let levels := (floor_log2 block_size + SIZE_T_RANGE - threshold) % SIZE_T_RANGE % UINT8_RANGE
    let num_free_lists := if levels = 0 then 1 else levels
    if block_data = 0 then none
    else some
      { small_string_min_size := small_min
        small_string_max_size := small_max
        small_string_level_threshold := threshold
        num_free_lists := num_free_lists
        block_size := block_size
        small_string_free_lists := List.replicate (small_max - small_min) []
        free_lists := List.replicate num_free_lists CONCURRENT_CHARPOOL_NULL_FREE_LIST
        free_string_next := []
        block := [concurrent_charpool_block_new block_data] }

/-! ## Release (lines 200-233) -/

/-- The level of line 218: `(uint8_t)floor_log2(size) - threshold`, stored in a
`uint8_t`. -/
def release_level (pool : concurrent_charpool_t) (size : Nat) : Nat :=
  (floor_log2 size % UINT8_RANGE + UINT8_RANGE - pool.small_string_level_threshold % UINT8_RANGE)
    % UINT8_RANGE

/-- The function `concurrent_charpool_release_size` (lines 200-233) on a
non-null pool.  Run by one thread the compare-and-swap of line 231 succeeds at
its first attempt. -/
def concurrent_charpool_release_size (pool : concurrent_charpool_t) (str size : Nat)
    (push_ok : Bool) : release_out :=
  if str = 0 ∨ size < pool.small_string_min_size then
    { ok := false, pool := pool, freed := [] }
  else if size < pool.small_string_max_size then
    let i := size - pool.small_string_min_size
    let r := concurrent_small_string_stack_push (pool.small_string_free_lists.getD i []) str push_ok
    if r.1 then
      { ok := true
        pool := { pool with small_string_free_lists := pool.small_string_free_lists.set i r.2 }
        freed := [] }
    else { ok := false, pool := pool, freed := [] }
  else if size ≥ pool.block_size then
    { ok := true, pool := pool, freed := [str] }
  else
    let level := release_level pool size
    let head := pool.free_lists.getD level CONCURRENT_CHARPOOL_NULL_FREE_LIST
    let new_head : concurrent_charpool_free_list_t :=
      { version := (head.version + 1) % SIZE_T_RANGE, item := str }
    { ok := true
      pool := { pool with
        free_lists := pool.free_lists.set level new_head
        free_string_next := (str, head.item) :: pool.free_string_next }
      freed := [] }

/-! ## Allocation (lines 235-340) -/

/-- The loop of lines 246-250 from index `i`, `count` iterations left: pop the
first non-empty small stack. -/
def small_string_pop_loop (pool : concurrent_charpool_t) :
    Nat → Nat → Option (Nat × concurrent_charpool_t)
  | 0, _ => none
  | count + 1, i =>
    match concurrent_small_string_stack_pop (pool.small_string_free_lists.getD i []) with
    | some (value, rest) =>
      some (value,
        { pool with small_string_free_lists := pool.small_string_free_lists.set i rest })
    | none => small_string_pop_loop pool count (i + 1)

/-- The level of line 253: `(uint8_t)ceil_log2(size) - threshold`, stored in a
`uint8_t`. -/
def alloc_level (pool : concurrent_charpool_t) (size : Nat) : Nat :=
  (ceil_log2 size % UINT8_RANGE + UINT8_RANGE - pool.small_string_level_threshold % UINT8_RANGE)
    % UINT8_RANGE

/-- The loop of lines 255-271 from level `j`, `count` iterations left: pop the
first large free list whose head item is not `NULL`; the version is carried
over, the new head item is the `next` stored in the popped string.  Run by
one thread the compare-and-swap of line 265 succeeds at its first attempt.
The returned `head.item->value` is the address of the free string itself
(`charpool_free_string_t` of charpool/charpool.h overlays `next` and `value`). -/
def free_list_pop_loop (pool : concurrent_charpool_t) :
    Nat → Nat → Option (Nat × concurrent_charpool_t)
  | 0, _ => none
  | count + 1, j =>
    let head := pool.free_lists.getD j CONCURRENT_CHARPOOL_NULL_FREE_LIST
    if head.item = 0 then free_list_pop_loop pool count (j + 1)
    else
      let new_head : concurrent_charpool_free_list_t :=
        { version := head.version, item := read_next pool.free_string_next head.item }
      some (head.item, { pool with free_lists := pool.free_lists.set j new_head })

/-- The identity of the head block as `atomic_load(&pool->block)` returns it:
blocks are only ever added in front of the chain, so the length of the chain
names its head; 0 stands for `NULL`. -/
def head_block_id (pool : concurrent_charpool_t) : Nat := pool.block.length

/-- Lines 281-286 of the grow loop on the head block `b` (the rest of the
chain is `rest`): when the head is not `last_block` the fill index is fetched
and advanced by `size` (`atomic_fetch_add`, a `size_t`) and `in_block` is
recomputed; the result is the index, `in_block` and the pool. -/
def fetch_block_index (pool : concurrent_charpool_t) (b : concurrent_charpool_block_t)
    (rest : List concurrent_charpool_block_t) (last_block index size : Nat) :
    Nat × Bool × concurrent_charpool_t :=
  if head_block_id pool ≠ last_block then
    (b.block_index,
      decide ((b.block_index + size) % SIZE_T_RANGE ≤ pool.block_size),
      { pool with
        block := { b with block_index := (b.block_index + size) % SIZE_T_RANGE } :: rest })
  else (index, false, pool)

/-- Lines 301-303 of the grow loop: the rest of the block behind `index` is
released when it is at least `small_string_min_size` long. -/
def release_remainder (pool : concurrent_charpool_t) (data index : Nat) (push_ok : Bool) :
    release_out :=
  if index < pool.block_size ∧ pool.block_size - index ≥ pool.small_string_min_size then
    concurrent_charpool_release_size pool (data + index) (pool.block_size - index) push_ok
  else { ok := false, pool := pool, freed := [] }

/-- What one iteration of the grow loop ends with: the call returns, or the
loop runs again with these values of the pool and of the local variables
`last_block`, `index` and `spin_count`. -/
inductive grow_step where
  | done (out : alloc_out)
  | again (pool : concurrent_charpool_t) (freed : List Nat)
      (last_block index spin_count : Nat)

/-- One iteration, number `k`, of the loop `while (!in_block)` of lines
280-338.  `freed` collects the pointers handed to the system free so far.
On an empty chain, which no initialised pool has and on which the code
dereferences `NULL`, the call ends with `NULL`. -/
def grow_iter (env : call_env) (size k : Nat) (pool : concurrent_charpool_t)
    (freed : List Nat) (last_block index spin_count : Nat) : grow_step :=
  match pool.block with
  | [] => grow_step.done { result := some 0, pool := pool, freed := freed }
  | b :: rest =>
    let f := fetch_block_index pool b rest last_block index size
    if f.2.1 then
      grow_step.done { result := some (b.data + f.1), pool := f.2.2, freed := freed }
    else
      let rel := release_remainder f.2.2 b.data f.1 (env.push_ok k)
      if env.trylock k then
        if head_block_id rel.pool ≠ last_block then
          grow_step.again rel.pool (freed ++ rel.freed) last_block f.1 spin_count
        else if env.new_block = 0 then
          grow_step.done { result := some 0, pool := rel.pool, freed := freed ++ rel.freed }
        else
          grow_step.done
            { result := some env.new_block
              pool := { rel.pool with
                block := { block_index := size, data := env.new_block } :: rel.pool.block }
              freed := freed ++ rel.freed }
      else if spin_count < SPIN_LIMIT then
        grow_step.again rel.pool (freed ++ rel.freed) (head_block_id pool) f.1 (spin_count + 1)
      else
        grow_step.done { result := some 0, pool := rel.pool, freed := freed ++ rel.freed }

/-- The loop `while (!in_block)` of lines 280-338, at most `fuel` iterations;
`k` counts the iterations done, `last_block`, `index` and `spin_count` are the
local variables of the same names.  Out of fuel the result is `none`. -/
def grow_loop (env : call_env) (size : Nat) :
    Nat → Nat → concurrent_charpool_t → List Nat → Nat → Nat → Nat → alloc_out
  | 0, _, pool, freed, _, _, _ => { result := none, pool := pool, freed := freed }
  | fuel + 1, k, pool, freed, last_block, index, spin_count =>
    match grow_iter env size k pool freed last_block index spin_count with
    | grow_step.done out => out
    | grow_step.again pool1 freed1 last_block1 index1 spin_count1 =>
      grow_loop env size fuel (k + 1) pool1 freed1 last_block1 index1 spin_count1

/-- The function `concurrent_charpool_alloc` (lines 235-340) on a non-null
pool; `fuel` bounds the iterations of the grow loop. -/
def concurrent_charpool_alloc (env : call_env) (fuel : Nat) (pool : concurrent_charpool_t)
    (size : Nat) : alloc_out :=
  if size < pool.small_string_min_size then { result := some 0, pool := pool, freed := [] }
  else if size ≥ pool.block_size then
    { result := some env.aligned_malloc, pool := pool, freed := [] }
  else
    match small_string_pop_loop pool
        ((pool.small_string_max_size - pool.small_string_min_size)
          - (size - pool.small_string_min_size))
        (size - pool.small_string_min_size) with
    | some (result, pool1) => { result := some result, pool := pool1, freed := [] }
    | none =>
      match free_list_pop_loop pool (pool.num_free_lists - alloc_level pool size)
          (alloc_level pool size) with
      | some (result, pool1) => { result := some result, pool := pool1, freed := [] }
      | none => grow_loop env size fuel 0 pool [] 0 0 0

/-! ## Pools as initialisation leaves them, repeated calls -/

/-- The relations between the fields of a pool that
`concurrent_charpool_init_options` establishes and that no later call changes
(lines 109-158), together with the constraint `small_max ≤ block_size` of the
data model: the option checks of line 109, the threshold of line 140, the
number of large free lists of lines 141-144 and the lengths of the two arrays
(lines 117 and 147). -/
def pool_valid (pool : concurrent_charpool_t) : Prop :=
  1 ≤ pool.small_string_min_size
  ∧ pool.small_string_min_size ≤ pool.small_string_max_size
  ∧ pool.small_string_max_size < UINT8_RANGE
  ∧ is_power_of_two pool.small_string_max_size = true
  ∧ is_power_of_two pool.block_size = true
  ∧ pool.block_size < SIZE_T_RANGE
  ∧ pool.small_string_max_size ≤ pool.block_size
  ∧ pool.small_string_level_threshold = floor_log2 pool.small_string_max_size
  ∧ pool.num_free_lists
      = (if floor_log2 pool.block_size - pool.small_string_level_threshold = 0 then 1
         else floor_log2 pool.block_size - pool.small_string_level_threshold)
  ∧ pool.small_string_free_lists.length
      = pool.small_string_max_size - pool.small_string_min_size
  ∧ pool.free_lists.length = pool.num_free_lists

instance (pool : concurrent_charpool_t) : Decidable (pool_valid pool) := by
  unfold pool_valid; infer_instance

/-- The call `concurrent_charpool_alloc(pool, size)` made `count` times in a
row on one pool: the returned pointers in call order and the pool afterwards. -/
def alloc_repeat (env : call_env) (fuel : Nat) (size : Nat) :
    Nat → concurrent_charpool_t → List (Option Nat) × concurrent_charpool_t
  | 0, pool => ([], pool)
  | count + 1, pool =>
    let out := concurrent_charpool_alloc env fuel pool size
    let tail := alloc_repeat env fuel size count out.pool
    (out.result :: tail.1, tail.2)

/-- The pool that `concurrent_charpool_init_options` builds for the options
`small_min = 1`, `small_max = 8`, `block_size = 64` with the block buffer at
address 4096, its head block filled up to `fill`. -/
def scenario_pool (fill : Nat) : concurrent_charpool_t :=
  { small_string_min_size := 1, small_string_max_size := 8,
    small_string_level_threshold := 3, num_free_lists := 3, block_size := 64,
    small_string_free_lists := List.replicate 7 [],
    free_lists := List.replicate 3 CONCURRENT_CHARPOOL_NULL_FREE_LIST,
    free_string_next := [], block := [{ block_index := fill, data := 4096 }] }

/-- A single-threaded environment: the block-change lock is free at every
attempt, the node arena never runs out, a new block would get the buffer
`new_block` and an oversize request the buffer `aligned_malloc`. -/
def single_thread_env (new_block aligned_malloc : Nat) : call_env :=
  { trylock := fun _ => true, push_ok := fun _ => true,
    new_block := new_block, aligned_malloc := aligned_malloc }

/-- An environment in which the first try-lock of the call fails (another
thread holds the lock) and every later one succeeds. -/
def contended_once_env (new_block aligned_malloc : Nat) : call_env :=
  { trylock := fun k => decide (k ≠ 0), push_ok := fun _ => true,
    new_block := new_block, aligned_malloc := aligned_malloc }

/-- The pool that `concurrent_charpool_init_options` builds for the options
`small_min = 1`, `small_max = 8`, `block_size = 1024` with the block buffer at
address 4096, its head block filled up to `fill`. -/
def scenario_pool_1024 (fill : Nat) : concurrent_charpool_t :=
  { small_string_min_size := 1, small_string_max_size := 8,
    small_string_level_threshold := 3, num_free_lists := 7, block_size := 1024,
    small_string_free_lists := List.replicate 7 [],
    free_lists := List.replicate 7 CONCURRENT_CHARPOOL_NULL_FREE_LIST,
    free_string_next := [], block := [{ block_index := fill, data := 4096 }] }

/-- The pool `cur` has the options and array lengths of `pool`. -/
def same_options (pool cur : concurrent_charpool_t) : Prop :=
  cur.block_size = pool.block_size
  ∧ cur.small_string_min_size = pool.small_string_min_size
  ∧ cur.small_string_max_size = pool.small_string_max_size
  ∧ cur.small_string_level_threshold = pool.small_string_level_threshold
  ∧ cur.num_free_lists = pool.num_free_lists
  ∧ cur.small_string_free_lists.length = pool.small_string_free_lists.length
  ∧ cur.free_lists.length = pool.free_lists.length

/-- What the free lists of `cur` look like once the remainder `[q, q + r)` of
the head block of `pool` has been released: for `small_min ≤ r < small_max`
the run `q` is the top of the small stack for size `r`, for `small_max ≤ r` it
is the head item of large list `floor_log2 r - threshold`, and for
`r < small_min` the free lists are those of `pool`. -/
def remainder_reclaimed (pool : concurrent_charpool_t) (q r : Nat)
    (cur : concurrent_charpool_t) : Prop :=
  same_options pool cur
  ∧ (pool.small_string_min_size ≤ r → r < pool.small_string_max_size →
      ∃ t, cur.small_string_free_lists.getD (r - pool.small_string_min_size) [] = q :: t)
  ∧ (pool.small_string_max_size ≤ r →
      (cur.free_lists.getD (floor_log2 r - pool.small_string_level_threshold)
        CONCURRENT_CHARPOOL_NULL_FREE_LIST).item = q)
  ∧ (r < pool.small_string_min_size →
      cur.small_string_free_lists = pool.small_string_free_lists
      ∧ cur.free_lists = pool.free_lists
      ∧ cur.free_string_next = pool.free_string_next)

/-! ## A client of one pool, single-threaded -/

/-- The byte ranges `[x.1, x.1 + x.2)` and `[y.1, y.1 + y.2)` do not overlap. -/
def runs_disjoint (x y : Nat × Nat) : Prop := x.1 + x.2 ≤ y.1 ∨ y.1 + y.2 ≤ x.1

instance (x y : Nat × Nat) : Decidable (runs_disjoint x y) := by
  unfold runs_disjoint; infer_instance

/-- One call of a client: `alloc(size)`, where `new_block` and `aligned_malloc`
are the buffers the system allocator would hand out during the call, or
`release_size(str, size)`, where `push_ok` tells whether the node arena of the
small stacks still has a node. -/
inductive pool_call where
  | alloc (size new_block aligned_malloc : Nat)
  | release (str size : Nat) (push_ok : Bool)

/-- The pool together with the runs the client holds: the pairs
`(pointer, requested size)` returned by `alloc` and not yet released. -/
structure client_state where
  pool : concurrent_charpool_t
  live : List (Nat × Nat)
  deriving DecidableEq, Repr

/-- The contract of the system allocator for an oversize request: the buffer
`[ptr, ptr + size)` it returns overlaps neither a block of the pool nor a run
the client holds. -/
def system_buffer_fresh (s : client_state) (size ptr : Nat) : Prop :=
  (∀ b ∈ s.pool.block, runs_disjoint (ptr, size) (b.data, s.pool.block_size))
  ∧ ∀ r ∈ s.live, runs_disjoint (ptr, size) r

instance (s : client_state) (size ptr : Nat) : Decidable (system_buffer_fresh s size ptr) := by
  unfold system_buffer_fresh; infer_instance

/-- The list of live runs without the first occurrence of `r`. -/
def remove_run (r : Nat × Nat) : List (Nat × Nat) → List (Nat × Nat)
  | [] => []
  | x :: l => if x = r then l else x :: remove_run r l

/-- One call of a single-threaded client (every try-lock succeeds), the grow
loop running for at most `fuel` iterations.  The result is `none` when the
call is not one the client may make (a release of a run it does not hold with
that size, a system buffer that breaks the allocator contract) or when
`alloc` has not returned within `fuel` iterations.  A run returned by `alloc`
becomes live; a run is no longer live once `release_size` returned true. -/
def client_step (fuel : Nat) (s : client_state) : pool_call → Option client_state
  | pool_call.alloc size new_block aligned_malloc =>
    if size ≥ s.pool.block_size ∧ aligned_malloc ≠ 0
        ∧ ¬ system_buffer_fresh s size aligned_malloc then none
    else
      match (concurrent_charpool_alloc (single_thread_env new_block aligned_malloc) fuel
          s.pool size).result with
      | none => none
      | some p =>
        some
          { pool := (concurrent_charpool_alloc (single_thread_env new_block aligned_malloc) fuel
              s.pool size).pool
            live := if p = 0 then s.live else (p, size) :: s.live }
  | pool_call.release str size push_ok =>
    if (str, size) ∈ s.live then
      some
        { pool := (concurrent_charpool_release_size s.pool str size push_ok).pool
          live :=
            if (concurrent_charpool_release_size s.pool str size push_ok).ok then
              remove_run (str, size) s.live
            else s.live }
    else none

/-- A sequence of calls of a single-threaded client, in order; `none` as soon
as one call gives `none`. -/
def client_run (fuel : Nat) : client_state → List pool_call → Option client_state
  | s, [] => some s
  | s, call :: rest =>
    match client_step fuel s call with
    | none => none
    | some s1 => client_run fuel s1 rest

/-- The runs held by an array of free lists, list `i` holding runs of the
size `class_size i`; `i0` is the index of the first list of `lists`. -/
def class_runs (class_size : Nat → Nat) : Nat → List (List Nat) → List (Nat × Nat)
  | _, [] => []
  | i0, l :: rest =>
    l.map (fun a => (a, class_size i0)) ++ class_runs class_size (i0 + 1) rest

/-- The free strings linked from `head` through the `next` fields in `mem`
are exactly `chain`, in order, and end with `NULL`. -/
def is_chain (mem : List (Nat × Nat)) : Nat → List Nat → Prop
  | head, [] => head = 0
  | head, a :: chain => head = a ∧ a ≠ 0 ∧ is_chain mem (read_next mem a) chain

/-- The runs on the free lists of a pool, each with the least size its list
stands for: `i + small_min` for small stack `i`, `2 ^ (j + threshold)` for
large list `j` whose linked strings are `chains[j]`. -/
def free_runs (pool : concurrent_charpool_t) (chains : List (List Nat)) : List (Nat × Nat) :=
  class_runs (fun i => i + pool.small_string_min_size) 0 pool.small_string_free_lists
  ++ class_runs (fun j => 2 ^ (j + pool.small_string_level_threshold)) 0 chains

/-- The live runs and the free runs of a pool whose one block of `bs` bytes
at `d` is filled up to `fill`: they are pairwise disjoint, the free runs lie
in the filled part of the block, a live run is not empty and lies in the
filled part of the block when it is shorter than a block and outside the
block otherwise. -/
def runs_ok (bs d fill : Nat) (live free : List (Nat × Nat)) : Prop :=
  (live ++ free).Pairwise runs_disjoint
  ∧ (∀ r ∈ free, d ≤ r.1 ∧ r.1 + r.2 ≤ d + fill)
  ∧ (∀ r ∈ live, 0 < r.2
      ∧ ((r.2 < bs ∧ d ≤ r.1 ∧ r.1 + r.2 ≤ d + fill)
        ∨ (bs ≤ r.2 ∧ runs_disjoint r (d, bs))))

/-- The invariant of a single-threaded client of the pool created as `pool0`
with its block buffer at `d`: the options never change; the chain is the one
block, filled up to `fill ≤ block_size`; every large list is a proper linked
chain; the live runs and the runs on the free lists are as `runs_ok` says. -/
def client_inv (pool0 : concurrent_charpool_t) (d : Nat) (s : client_state) : Prop :=
  same_options pool0 s.pool
  ∧ ∃ (fill : Nat) (chains : List (List Nat)),
    s.pool.block = [{ block_index := fill, data := d }]
    ∧ fill ≤ pool0.block_size
    ∧ chains.length = s.pool.free_lists.length
    ∧ (∀ j, is_chain s.pool.free_string_next
        (s.pool.free_lists.getD j CONCURRENT_CHARPOOL_NULL_FREE_LIST).item (chains.getD j []))
    ∧ runs_ok pool0.block_size d fill s.live (free_runs s.pool chains)

/-! ## Copies (lines 342-356) -/

/-- The result of `concurrent_charpool_copy_size` and of
`concurrent_charpool_copy`: as for `alloc`, with the byte memory afterwards. -/
structure copy_out where
  result : Option Nat
  pool : concurrent_charpool_t
  memory : Nat → Nat
  freed : List Nat

/-- The memory after the bytes `bytes` were stored from address `dst` on. -/
def write_bytes (memory : Nat → Nat) (dst : Nat) (bytes : List Nat) : Nat → Nat :=
  fun a => if dst ≤ a ∧ a < dst + bytes.length then bytes.getD (a - dst) 0 else memory a

/-- The function `concurrent_charpool_copy_size` (lines 342-350) on a non-null
pool.  `str` is `none` for a `NULL` source and otherwise the bytes found at
the source address (at least `n` of them); `n + 1` is computed in `size_t`.
`memcpy` stores the first `n` source bytes at `result`, then a zero byte is
stored at `result + n`. -/
def concurrent_charpool_copy_size (env : call_env) (fuel : Nat) (pool : concurrent_charpool_t)
    (memory : Nat → Nat) (str : Option (List Nat)) (n : Nat) : copy_out :=
  match str with
  | none => { result := some 0, pool := pool, memory := memory, freed := [] }
  | some bytes =>
    if n = 0 then { result := some 0, pool := pool, memory := memory, freed := [] }
    else
      let out := concurrent_charpool_alloc env fuel pool ((n + 1) % SIZE_T_RANGE)
      match out.result with
      | none => { result := none, pool := out.pool, memory := memory, freed := out.freed }
      | some result =>
        if result = 0 then
          { result := some 0, pool := out.pool, memory := memory, freed := out.freed }
        else
          { result := some result
            pool := out.pool
            memory := write_bytes (write_bytes memory result (bytes.take n)) (result + n) [0]
            freed := out.freed }

/-- The C library function `strlen`: the number of bytes before the first
zero byte. -/
def strlen (bytes : List Nat) : Nat := (bytes.takeWhile (fun c => decide (c ≠ 0))).length

/-- The function `concurrent_charpool_copy` (lines 352-356) on a non-null
pool; `str` as for `concurrent_charpool_copy_size`. -/
def concurrent_charpool_copy (env : call_env) (fuel : Nat) (pool : concurrent_charpool_t)
    (memory : Nat → Nat) (str : Option (List Nat)) : copy_out :=
  match str with
  | none => { result := some 0, pool := pool, memory := memory, freed := [] }
  | some bytes => concurrent_charpool_copy_size env fuel pool memory (some bytes) (strlen bytes)

/-! ## One large free list -/

/-- The push of lines 220-232 on one large free list with head `head`: the
version goes up by one (a `size_t`), `str` becomes the head item and the old
head item is stored as `str->next`. -/
def free_list_push (head : concurrent_charpool_free_list_t) (mem : List (Nat × Nat))
    (str : Nat) : concurrent_charpool_free_list_t × List (Nat × Nat) :=
  ({ version := (head.version + 1) % SIZE_T_RANGE, item := str }, (str, head.item) :: mem)

/-- The pop of lines 257-270 on one large free list: nothing on an empty
list, otherwise the head item and the new head, which keeps the version and
takes the `next` of the popped string as its item. -/
def free_list_pop (head : concurrent_charpool_free_list_t) (mem : List (Nat × Nat)) :
    Option (Nat × concurrent_charpool_free_list_t) :=
  if head.item = 0 then none
  else some (head.item, { version := head.version, item := read_next mem head.item })

/-- A push of a string or a pop on one large free list. -/
inductive free_list_op where
  | push (str : Nat)
  | pop
  deriving DecidableEq, Repr

/-- The head of one large free list and the `next` memory after a sequence of
pushes and pops, in order; a pop on an empty list changes nothing. -/
def free_list_run (head : concurrent_charpool_free_list_t) (mem : List (Nat × Nat)) :
    List free_list_op → concurrent_charpool_free_list_t × List (Nat × Nat)
  | [] => (head, mem)
  | free_list_op.push str :: ops =>
    free_list_run (free_list_push head mem str).1 (free_list_push head mem str).2 ops
  | free_list_op.pop :: ops =>
    match free_list_pop head mem with
    | none => free_list_run head mem ops
    | some (_, new_head) => free_list_run new_head mem ops

/-- The number of pushes in a sequence of operations on one free list. -/
def count_pushes : List free_list_op → Nat
  | [] => 0
  | free_list_op.push _ :: ops => count_pushes ops + 1
  | free_list_op.pop :: ops => count_pushes ops

/-! ## A lock that is never free -/

/-- An environment in which every try-lock of the call fails: another thread
holds the block-change lock throughout. -/
def always_contended_env (new_block aligned_malloc : Nat) : call_env :=
  { trylock := fun _ => false, push_ok := fun _ => true,
    new_block := new_block, aligned_malloc := aligned_malloc }

/-! ## Pointer size, further scenario pools -/

/-- The size of a pointer on the 64-bit target: the `next` field that line
230 stores in the first bytes of a free string takes this many bytes. -/
def POINTER_SIZE : Nat := 8

instance (pool cur : concurrent_charpool_t) : Decidable (same_options pool cur) := by
  unfold same_options; infer_instance

/-- The pool that `concurrent_charpool_init_options` builds for the options
`small_min = 1`, `small_max = 8`, `block_size = 2 ^ 32` with the block buffer
at address `2 ^ 32`, its head block filled up to `fill`. -/
def scenario_pool_4g (fill : Nat) : concurrent_charpool_t :=
  { small_string_min_size := 1, small_string_max_size := 8,
    small_string_level_threshold := 3, num_free_lists := 29, block_size := 2 ^ 32,
    small_string_free_lists := List.replicate 7 [],
    free_lists := List.replicate 29 CONCURRENT_CHARPOOL_NULL_FREE_LIST,
    free_string_next := [], block := [{ block_index := fill, data := 2 ^ 32 }] }

/-! ## Scripted runs -/

/-- A call in a scripted run of one client: `alloc` with the environment the
call meets, or `release_size`. -/
inductive traced_call where
  | alloc (env : call_env) (size : Nat)
  | release (str size : Nat)

/-- What a call of a scripted run returned: the pointer of an `alloc`
(`none`: the call had not returned within the fuel) or the flag of a
`release_size`. -/
inductive traced_result where
  | pointer (p : Option Nat)
  | released (ok : Bool)
  deriving DecidableEq, Repr

/-- The calls made one after the other on one pool, every small stack push
finding a node: what each call returned, in call order, and the pool
afterwards.  `fuel` bounds the grow loop of each `alloc`. -/
def run_calls (fuel : Nat) :
    concurrent_charpool_t → List traced_call → List traced_result × concurrent_charpool_t
  | pool, [] => ([], pool)
  | pool, traced_call.alloc env size :: calls =>
    let out := concurrent_charpool_alloc env fuel pool size
    let tail := run_calls fuel out.pool calls
    (traced_result.pointer out.result :: tail.1, tail.2)
  | pool, traced_call.release str size :: calls =>
    let out := concurrent_charpool_release_size pool str size true
    let tail := run_calls fuel out.pool calls
    (traced_result.released out.ok :: tail.1, tail.2)

/-- The pool that `concurrent_charpool_init_options` builds for the options
`small_min = 1`, `small_max = 8`, `block_size = 256` with the block buffer at
address 4096. -/
def scenario_pool_256 : concurrent_charpool_t :=
  { small_string_min_size := 1, small_string_max_size := 8,
    small_string_level_threshold := 3, num_free_lists := 5, block_size := 256,
    small_string_free_lists := List.replicate 7 [],
    free_lists := List.replicate 5 CONCURRENT_CHARPOOL_NULL_FREE_LIST,
    free_string_next := [], block := [{ block_index := 0, data := 4096 }] }

/-! ## Calls with checked array indices

The calls once more, from the same source lines, with every access to
`small_string_free_lists` and `free_lists` checked against the length of the
array: the result is `none` as soon as an index is outside its array
(undefined behaviour in C). -/

/-- The function `concurrent_charpool_release_size` (lines 200-233) with the
array accesses of lines 203 and 222 checked. -/
def concurrent_charpool_release_size_checked (pool : concurrent_charpool_t) (str size : Nat)
    (push_ok : Bool) : Option release_out :=
  if str = 0 ∨ size < pool.small_string_min_size then
    some { ok := false, pool := pool, freed := [] }
  else if size < pool.small_string_max_size then
    match pool.small_string_free_lists[size - pool.small_string_min_size]? with
    | none => none
    | some stack =>
      let r := concurrent_small_string_stack_push stack str push_ok
      if r.1 then
        some
          { ok := true
            pool := { pool with
              small_string_free_lists :=
                pool.small_string_free_lists.set (size - pool.small_string_min_size) r.2 }
            freed := [] }
      else some { ok := false, pool := pool, freed := [] }
  else if size ≥ pool.block_size then
    some { ok := true, pool := pool, freed := [str] }
  else
    match pool.free_lists[release_level pool size]? with
    | none => none
    | some head =>
      some
        { ok := true
          pool := { pool with
            free_lists := pool.free_lists.set (release_level pool size)
              { version := (head.version + 1) % SIZE_T_RANGE, item := str }
            free_string_next := (str, head.item) :: pool.free_string_next }
          freed := [] }

/-- The loop of lines 246-250 with the array access of line 247 checked; the
inner option is the outcome of the loop. -/
def small_string_pop_loop_checked (pool : concurrent_charpool_t) :
    Nat → Nat → Option (Option (Nat × concurrent_charpool_t))
  | 0, _ => some none
  | count + 1, i =>
    match pool.small_string_free_lists[i]? with
    | none => none
    | some stack =>
      match concurrent_small_string_stack_pop stack with
      | some (value, rest) =>
        some (some (value,
          { pool with small_string_free_lists := pool.small_string_free_lists.set i rest }))
      | none => small_string_pop_loop_checked pool count (i + 1)

/-- The loop of lines 255-271 with the array access of line 258 checked; the
inner option is the outcome of the loop. -/
def free_list_pop_loop_checked (pool : concurrent_charpool_t) :
    Nat → Nat → Option (Option (Nat × concurrent_charpool_t))
  | 0, _ => some none
  | count + 1, j =>
    match pool.free_lists[j]? with
    | none => none
    | some head =>
      if head.item = 0 then free_list_pop_loop_checked pool count (j + 1)
      else
        some (some (head.item,
          { pool with
            free_lists := pool.free_lists.set j
              { version := head.version
                item := read_next pool.free_string_next head.item } }))

/-- Lines 301-303 of the grow loop with the release checked. -/
def release_remainder_checked (pool : concurrent_charpool_t) (data index : Nat)
    (push_ok : Bool) : Option release_out :=
  if index < pool.block_size ∧ pool.block_size - index ≥ pool.small_string_min_size then
    concurrent_charpool_release_size_checked pool (data + index) (pool.block_size - index)
      push_ok
  else some { ok := false, pool := pool, freed := [] }

/-- One iteration of the loop of lines 280-338 with the release of the
remainder checked. -/
def grow_iter_checked (env : call_env) (size k : Nat) (pool : concurrent_charpool_t)
    (freed : List Nat) (last_block index spin_count : Nat) : Option grow_step :=
  match pool.block with
  | [] => some (grow_step.done { result := some 0, pool := pool, freed := freed })
  | b :: rest =>
    let f := fetch_block_index pool b rest last_block index size
    if f.2.1 then
      some (grow_step.done { result := some (b.data + f.1), pool := f.2.2, freed := freed })
    else
      match release_remainder_checked f.2.2 b.data f.1 (env.push_ok k) with
      | none => none
      | some rel =>
        if env.trylock k then
          if head_block_id rel.pool ≠ last_block then
            some (grow_step.again rel.pool (freed ++ rel.freed) last_block f.1 spin_count)
          else if env.new_block = 0 then
            some (grow_step.done
              { result := some 0, pool := rel.pool, freed := freed ++ rel.freed })
          else
            some (grow_step.done
              { result := some env.new_block
                pool := { rel.pool with
                  block := { block_index := size, data := env.new_block } :: rel.pool.block }
                freed := freed ++ rel.freed })
        else if spin_count < SPIN_LIMIT then
          some (grow_step.again rel.pool (freed ++ rel.freed) (head_block_id pool) f.1
            (spin_count + 1))
        else
          some (grow_step.done
            { result := some 0, pool := rel.pool, freed := freed ++ rel.freed })

/-- The loop of lines 280-338 with checked array accesses, at most `fuel`
iterations. -/
def grow_loop_checked (env : call_env) (size : Nat) :
    Nat → Nat → concurrent_charpool_t → List Nat → Nat → Nat → Nat → Option alloc_out
  | 0, _, pool, freed, _, _, _ => some { result := none, pool := pool, freed := freed }
  | fuel + 1, k, pool, freed, last_block, index, spin_count =>
    match grow_iter_checked env size k pool freed last_block index spin_count with
    | none => none
    | some (grow_step.done out) => some out
    | some (grow_step.again pool1 freed1 last_block1 index1 spin_count1) =>
      grow_loop_checked env size fuel (k + 1) pool1 freed1 last_block1 index1 spin_count1

/-- The function `concurrent_charpool_alloc` (lines 235-340) with checked
array accesses: `none` when the call indexes an array outside its bounds. -/
def concurrent_charpool_alloc_checked (env : call_env) (fuel : Nat)
    (pool : concurrent_charpool_t) (size : Nat) : Option alloc_out :=
  if size < pool.small_string_min_size then
    some { result := some 0, pool := pool, freed := [] }
  else if size ≥ pool.block_size then
    some { result := some env.aligned_malloc, pool := pool, freed := [] }
  else
    match small_string_pop_loop_checked pool
        ((pool.small_string_max_size - pool.small_string_min_size)
          - (size - pool.small_string_min_size))
        (size - pool.small_string_min_size) with
    | none => none
    | some (some (result, pool1)) => some { result := some result, pool := pool1, freed := [] }
    | some none =>
      match free_list_pop_loop_checked pool (pool.num_free_lists - alloc_level pool size)
          (alloc_level pool size) with
      | none => none
      | some (some (result, pool1)) =>
        some { result := some result, pool := pool1, freed := [] }
      | some none => grow_loop_checked env size fuel 0 pool [] 0 0 0

/-! ## Facts about the bit utilities -/

theorem floor_log2_fuel_spec (fuel : Nat) : ∀ x, 1 ≤ x → x < 2 ^ fuel →
    2 ^ floor_log2_fuel fuel x ≤ x ∧ x < 2 ^ (floor_log2_fuel fuel x + 1) := by
  induction fuel with
  | zero => intro x h1 h2; simp at h2; omega
  | succ f ih =>
    intro x h1 h2
    unfold floor_log2_fuel
    by_cases hx : x < 2
    · simp [hx]; omega
    · simp only [hx, if_false]
      have h3 : x / 2 < 2 ^ f := by
        rw [pow_succ] at h2; omega
      have := ih (x / 2) (by omega) h3
      rw [pow_succ, pow_succ]
      omega

theorem floor_log2_spec (x : Nat) (h1 : 1 ≤ x) (h2 : x < SIZE_T_RANGE) :
    2 ^ floor_log2 x ≤ x ∧ x < 2 ^ (floor_log2 x + 1) :=
  floor_log2_fuel_spec 64 x h1 h2

theorem floor_log2_unique (x k : Nat) (h2 : x < SIZE_T_RANGE) (hk : 2 ^ k ≤ x) (hk2 : x < 2 ^ (k + 1)) :
    floor_log2 x = k := by
  have h1 : 1 ≤ x := le_trans Nat.one_le_two_pow hk
  obtain ⟨ha, hb⟩ := floor_log2_spec x h1 h2
  have hlt1 : 2 ^ k < 2 ^ (floor_log2 x + 1) := lt_of_le_of_lt hk hb
  have hlt2 : 2 ^ floor_log2 x < 2 ^ (k + 1) := lt_of_le_of_lt ha hk2
  have e1 := (Nat.pow_lt_pow_iff_right (by norm_num : 1 < 2)).1 hlt1
  have e2 := (Nat.pow_lt_pow_iff_right (by norm_num : 1 < 2)).1 hlt2
  omega

theorem floor_log2_pow (k : Nat) (hk : k < 64) : floor_log2 (2 ^ k) = k := by
  apply floor_log2_unique
  · exact Nat.pow_lt_pow_right (by norm_num) hk
  · exact le_refl _
  · exact Nat.pow_lt_pow_right (by norm_num) (by omega)

theorem floor_log2_mono (x y : Nat) (h1 : 1 ≤ x) (hxy : x ≤ y) (hy : y < SIZE_T_RANGE) :
    floor_log2 x ≤ floor_log2 y := by
  obtain ⟨ha, _⟩ := floor_log2_spec x h1 (by omega)
  obtain ⟨_, hd⟩ := floor_log2_spec y (by omega) hy
  have hlt : 2 ^ floor_log2 x < 2 ^ (floor_log2 y + 1) := by omega
  have := (Nat.pow_lt_pow_iff_right (by norm_num : 1 < 2)).1 hlt
  omega

theorem floor_log2_lt_64 (x : Nat) (h2 : x < SIZE_T_RANGE) : floor_log2 x < 64 := by
  by_cases h1 : 1 ≤ x
  · obtain ⟨ha, _⟩ := floor_log2_spec x h1 h2
    have hlt : 2 ^ floor_log2 x < 2 ^ 64 := lt_of_le_of_lt ha h2
    exact (Nat.pow_lt_pow_iff_right (by norm_num : 1 < 2)).1 hlt
  · have : x = 0 := by omega
    subst this; decide

theorem le_pow_ceil_log2 (x : Nat) (h2 : x ≤ SIZE_T_RANGE) : x ≤ 2 ^ ceil_log2 x := by
  unfold ceil_log2
  by_cases hx : x ≤ 1
  · simp [hx]
  · simp only [hx, if_false]
    obtain ⟨_, hb⟩ := floor_log2_spec (x - 1) (by omega) (by omega)
    omega

theorem ceil_log2_le (x k : Nat) (h2 : x ≤ SIZE_T_RANGE) (hk : x ≤ 2 ^ k) : ceil_log2 x ≤ k := by
  unfold ceil_log2
  by_cases hx : x ≤ 1
  · simp [hx]
  · simp only [hx, if_false]
    obtain ⟨ha, _⟩ := floor_log2_spec (x - 1) (by omega) (by omega)
    have hlt : 2 ^ floor_log2 (x - 1) < 2 ^ k := by omega
    have := (Nat.pow_lt_pow_iff_right (by norm_num : 1 < 2)).1 hlt
    omega

theorem lt_pow_of_lt_ceil_log2 (x k : Nat) (h2 : x ≤ SIZE_T_RANGE) (hk : k < ceil_log2 x) : 2 ^ k < x := by
  by_contra h
  have := ceil_log2_le x k h2 (by omega)
  omega

/-! ## Invalid sizes, exact-size round trip, bump allocation -/

/-- C10: for every pool and every size below `small_string_min_size`,
`concurrent_charpool_alloc` returns `NULL` and
`concurrent_charpool_release_size` returns false, and `release_size` with a
`NULL` string returns false for every size; in each case the pool is the same
afterwards and nothing is handed to the system free. -/
theorem invalid_size_rejected (env : call_env) (fuel : Nat) (pool : concurrent_charpool_t)
    (n m str : Nat) (push_ok : Bool) (hn : n < pool.small_string_min_size) :
    concurrent_charpool_alloc env fuel pool n = { result := some 0, pool := pool, freed := [] }
    ∧ concurrent_charpool_release_size pool str n push_ok
        = { ok := false, pool := pool, freed := [] }
    ∧ concurrent_charpool_release_size pool 0 m push_ok
        = { ok := false, pool := pool, freed := [] } := by
  refine ⟨?_, ?_, ?_⟩
  · simp [concurrent_charpool_alloc, hn]
  · simp [concurrent_charpool_release_size, hn]
  · simp [concurrent_charpool_release_size]

/-- C10 at a concrete pool: sizes 1 and 2 against `small_string_min_size = 3`. -/
theorem invalid_size_rejected_witness :
    let pool : concurrent_charpool_t :=
      { small_string_min_size := 3, small_string_max_size := 8,
        small_string_level_threshold := 3, num_free_lists := 3, block_size := 64,
        small_string_free_lists := [[], [700], [], [], []],
        free_lists := List.replicate 3 CONCURRENT_CHARPOOL_NULL_FREE_LIST,
        free_string_next := [], block := [{ block_index := 16, data := 4096 }] }
    (2 < pool.small_string_min_size)
    ∧ concurrent_charpool_alloc ⟨fun _ => true, fun _ => true, 8192, 0⟩ 5 pool 2
        = { result := some 0, pool := pool, freed := [] }
    ∧ concurrent_charpool_release_size pool 4100 2 true
        = { ok := false, pool := pool, freed := [] }
    ∧ concurrent_charpool_release_size pool 0 5 true
        = { ok := false, pool := pool, freed := [] } :=
  ⟨by decide, invalid_size_rejected _ 5 _ 2 5 4100 true (by decide)⟩

theorem small_string_pop_loop_hit (pool : concurrent_charpool_t) (count i value : Nat)
    (rest : List Nat) (h : pool.small_string_free_lists.getD i [] = value :: rest) :
    small_string_pop_loop pool (count + 1) i
      = some (value,
          { pool with small_string_free_lists := pool.small_string_free_lists.set i rest }) := by
  unfold small_string_pop_loop
  rw [h]
  rfl

/-- C3 as amended: in every state of a pool whose options obey
`small_max ≤ block_size` (the small stack array having the
`small_max - small_min` entries it was allocated with), for every size `n`
with `small_min ≤ n < small_max` and every non-null `p`, when
`release_size(p, n)` succeeds the next `alloc(n)` returns `p`. -/
theorem exact_size_round_trip (env : call_env) (fuel : Nat) (pool : concurrent_charpool_t)
    (p n : Nat) (push_ok : Bool)
    (hlen : pool.small_string_free_lists.length
      = pool.small_string_max_size - pool.small_string_min_size)
    (hbs : pool.small_string_max_size ≤ pool.block_size)
    (hmin : pool.small_string_min_size ≤ n) (hmax : n < pool.small_string_max_size)
    (hp : p ≠ 0)
    (hok : (concurrent_charpool_release_size pool p n push_ok).ok = true) :
    (concurrent_charpool_alloc env fuel
      (concurrent_charpool_release_size pool p n push_ok).pool n).result = some p := by
  have hnb : ¬ n < pool.small_string_min_size := by omega
  have hpush : push_ok = true := by
    cases push_ok
    · simp [concurrent_charpool_release_size, hp, hnb, hmax,
        concurrent_small_string_stack_push] at hok
    · rfl
  subst hpush
  have hrel : (concurrent_charpool_release_size pool p n true).pool
      = { pool with
          small_string_free_lists :=
            pool.small_string_free_lists.set (n - pool.small_string_min_size)
              (p :: pool.small_string_free_lists.getD (n - pool.small_string_min_size) []) } := by
    simp [concurrent_charpool_release_size, hp, hnb, hmax, concurrent_small_string_stack_push]
  rw [hrel]
  have hi : n - pool.small_string_min_size < pool.small_string_free_lists.length := by omega
  have hcount : ∃ c, (pool.small_string_max_size - pool.small_string_min_size)
      - (n - pool.small_string_min_size) = c + 1 :=
    ⟨(pool.small_string_max_size - pool.small_string_min_size)
      - (n - pool.small_string_min_size) - 1, by omega⟩
  obtain ⟨c, hc⟩ := hcount
  have hnbs : ¬ n ≥ pool.block_size := by omega
  simp only [concurrent_charpool_alloc, hnb, hnbs, if_false, hc]
  rw [small_string_pop_loop_hit _ c _ p
    (pool.small_string_free_lists.getD (n - pool.small_string_min_size) [])]
  simp [List.getD_eq_getElem?_getD, hi]

/-- C3 as amended, at the pool of the spec scenario (`small_min = 1`,
`small_max = 8`, `block_size = 64`) after `alloc(4)` returned `data + 0`. -/
theorem exact_size_round_trip_witness :
    let pool : concurrent_charpool_t :=
      { small_string_min_size := 1, small_string_max_size := 8,
        small_string_level_threshold := 3, num_free_lists := 3, block_size := 64,
        small_string_free_lists := List.replicate 7 [],
        free_lists := List.replicate 3 CONCURRENT_CHARPOOL_NULL_FREE_LIST,
        free_string_next := [], block := [{ block_index := 4, data := 4096 }] }
    (concurrent_charpool_release_size pool 4096 4 true).ok = true
    ∧ (concurrent_charpool_alloc ⟨fun _ => true, fun _ => true, 8192, 0⟩ 5
        (concurrent_charpool_release_size pool 4096 4 true).pool 4).result = some 4096 :=
  ⟨by decide, exact_size_round_trip _ 5 _ 4096 4 true (by decide) (by decide) (by decide)
    (by decide) (by decide) (by decide)⟩

/-- C3, counterexample: the options `small_min = 1`, `small_max = 8`,
`block_size = 4` pass the checks of line 109.  In the pool built from them
size 5 is below `small_max`, so `release_size(p, 5)` pushes `p = 20480` on
the small stack for size 5 and succeeds (line 202), but 5 is not below
`block_size`, so the `alloc(5)` that follows returns the buffer 24576 of the
system allocator (line 241) and not `p`, which stays on its stack. -/
theorem round_trip_fails_below_small_max :
    (concurrent_charpool_init_options ⟨1, 8, 4⟩ 4096).map (fun pool =>
      (decide (pool.small_string_min_size ≤ 5 ∧ 5 < pool.small_string_max_size),
        (concurrent_charpool_release_size pool 20480 5 true).ok,
        (concurrent_charpool_alloc (single_thread_env 8192 24576) 1
          (concurrent_charpool_release_size pool 20480 5 true).pool 5).result,
        (concurrent_charpool_alloc (single_thread_env 8192 24576) 1
          (concurrent_charpool_release_size pool 20480 5 true).pool
          5).pool.small_string_free_lists.getD 4 []))
      = some (true, true, some 24576, [20480]) := by
  decide

theorem small_string_pop_loop_none (pool : concurrent_charpool_t) (count : Nat) :
    ∀ i, (∀ k, i ≤ k → k < i + count → pool.small_string_free_lists.getD k [] = []) →
      small_string_pop_loop pool count i = none := by
  induction count with
  | zero => intro i _; rfl
  | succ c ih =>
    intro i h
    unfold small_string_pop_loop
    rw [h i (le_refl _) (by omega)]
    simp only [concurrent_small_string_stack_pop]
    exact ih (i + 1) (fun k h1 h2 => h k (by omega) (by omega))

theorem free_list_pop_loop_none (pool : concurrent_charpool_t) (count : Nat) :
    ∀ j, (∀ k, j ≤ k → k < j + count →
        (pool.free_lists.getD k CONCURRENT_CHARPOOL_NULL_FREE_LIST).item = 0) →
      free_list_pop_loop pool count j = none := by
  induction count with
  | zero => intro j _; rfl
  | succ c ih =>
    intro j h
    unfold free_list_pop_loop
    simp only [h j (le_refl _) (by omega), if_true]
    exact ih (j + 1) (fun k h1 h2 => h k (by omega) (by omega))

theorem grow_iter_in_block (env : call_env) (size k : Nat) (pool : concurrent_charpool_t)
    (freed : List Nat) (last_block index spin_count : Nat) (b : concurrent_charpool_block_t)
    (rest : List concurrent_charpool_block_t) (hblock : pool.block = b :: rest)
    (hne : head_block_id pool ≠ last_block)
    (hfit : (b.block_index + size) % SIZE_T_RANGE ≤ pool.block_size) :
    grow_iter env size k pool freed last_block index spin_count
      = grow_step.done
          { result := some (b.data + b.block_index)
            pool := { pool with
              block := { b with block_index := (b.block_index + size) % SIZE_T_RANGE } :: rest }
            freed := freed } := by
  unfold grow_iter
  rw [hblock]
  simp [fetch_block_index, hne, hfit]

theorem grow_loop_in_block (env : call_env) (size fuel k : Nat) (pool : concurrent_charpool_t)
    (freed : List Nat) (index spin_count : Nat) (b : concurrent_charpool_block_t)
    (rest : List concurrent_charpool_block_t) (hblock : pool.block = b :: rest)
    (hsz : pool.block_size < SIZE_T_RANGE) (hfit : b.block_index + size ≤ pool.block_size) :
    grow_loop env size (fuel + 1) k pool freed 0 index spin_count
      = { result := some (b.data + b.block_index)
          pool := { pool with block := { b with block_index := b.block_index + size } :: rest }
          freed := freed } := by
  have hmod : (b.block_index + size) % SIZE_T_RANGE = b.block_index + size :=
    Nat.mod_eq_of_lt (by omega)
  have hid : head_block_id pool ≠ 0 := by simp [head_block_id, hblock]
  unfold grow_loop
  rw [grow_iter_in_block env size k pool freed 0 index spin_count b rest hblock hid
    (by rw [hmod]; exact hfit), hmod]

/-- The bump step of `concurrent_charpool_alloc`: no probed free list holds a
run and the head block has room. -/
theorem alloc_bump (env : call_env) (fuel : Nat) (pool : concurrent_charpool_t) (n : Nat)
    (b : concurrent_charpool_block_t) (rest : List concurrent_charpool_block_t)
    (hmin : pool.small_string_min_size ≤ n) (hbs : n < pool.block_size)
    (hsz : pool.block_size < SIZE_T_RANGE) (hblock : pool.block = b :: rest)
    (hfit : b.block_index + n ≤ pool.block_size)
    (hsmall : ∀ i, n - pool.small_string_min_size ≤ i →
      i < pool.small_string_max_size - pool.small_string_min_size →
      pool.small_string_free_lists.getD i [] = [])
    (hlarge : ∀ j, alloc_level pool n ≤ j → j < pool.num_free_lists →
      (pool.free_lists.getD j CONCURRENT_CHARPOOL_NULL_FREE_LIST).item = 0) :
    concurrent_charpool_alloc env (fuel + 1) pool n
      = { result := some (b.data + b.block_index)
          pool := { pool with block := { b with block_index := b.block_index + n } :: rest }
          freed := [] } := by
  have h1 : ¬ n < pool.small_string_min_size := by omega
  have h2 : ¬ n ≥ pool.block_size := by omega
  unfold concurrent_charpool_alloc
  simp only [h1, h2, if_false]
  rw [small_string_pop_loop_none pool _ _ (fun k hk1 hk2 => hsmall k hk1 (by omega))]
  simp only []
  rw [free_list_pop_loop_none pool _ _ (fun k hk1 hk2 => hlarge k hk1 (by omega))]
  simp only []
  exact grow_loop_in_block env n fuel 0 pool [] 0 0 b rest hblock hsz hfit

theorem alloc_repeat_bump (env : call_env) (fuel n d : Nat) (count : Nat) :
    ∀ (pool : concurrent_charpool_t) (f : Nat),
      pool.small_string_min_size ≤ n → n < pool.block_size → pool.block_size < SIZE_T_RANGE →
      pool.block = [{ block_index := f, data := d }] →
      f + count * n ≤ pool.block_size →
      (∀ i, pool.small_string_free_lists.getD i [] = []) →
      (∀ j, (pool.free_lists.getD j CONCURRENT_CHARPOOL_NULL_FREE_LIST).item = 0) →
      (alloc_repeat env (fuel + 1) n count pool).1
        = (List.range count).map (fun i => some (d + (f + i * n))) := by
  induction count with
  | zero => intro pool f _ _ _ _ _ _ _; rfl
  | succ c ih =>
    intro pool f hmin hbs hsz hblock hfit hsmall hlarge
    have hfit1 : f + n ≤ pool.block_size := by
      have : (c + 1) * n = c * n + n := by ring
      omega
    have hstep := alloc_bump env fuel pool n { block_index := f, data := d } [] hmin hbs hsz
      hblock hfit1 (fun i _ _ => hsmall i) (fun j _ _ => hlarge j)
    have hih := ih { pool with block := [{ block_index := f + n, data := d }] } (f + n)
      hmin hbs hsz rfl (by
        have : (c + 1) * n = c * n + n := by ring
        simp only []
        omega) hsmall hlarge
    unfold alloc_repeat
    simp only [hstep]
    rw [hih, List.range_succ_eq_map]
    simp only [List.map_cons, List.map_map, zero_mul, add_zero]
    congr 1
    apply List.map_congr_left
    intro i _
    simp only [Function.comp, Nat.succ_eq_add_one]
    congr 1
    ring

theorem getD_replicate_default {α : Type} (x : α) (n : Nat) :
    ∀ i, (List.replicate n x).getD i x = x := by
  induction n with
  | zero => intro i; rfl
  | succ m ih =>
    intro i
    cases i with
    | zero => rfl
    | succ i => exact ih i

theorem init_options_fresh (options : charpool_options_t) (d : Nat)
    (pool : concurrent_charpool_t)
    (h : concurrent_charpool_init_options options d = some pool) :
    pool.block = [{ block_index := 0, data := d }] ∧ pool.block_size < SIZE_T_RANGE
    ∧ (∀ i, pool.small_string_free_lists.getD i [] = [])
    ∧ (∀ j, pool.free_lists.getD j CONCURRENT_CHARPOOL_NULL_FREE_LIST
        = CONCURRENT_CHARPOOL_NULL_FREE_LIST)
    ∧ pool.free_string_next = [] := by
  unfold concurrent_charpool_init_options at h
  split_ifs at h
  have hp := Option.some.inj h
  subst hp
  exact ⟨rfl, Nat.mod_lt _ (by decide), fun i => getD_replicate_default _ _ i,
    fun j => getD_replicate_default _ _ j, rfl⟩

/-- C5: (1) when no free list probed by `alloc(n)` holds a run
(`small_min ≤ n < block_size`) and the fill `f` of the head block has
`f + n ≤ block_size`, `alloc(n)` returns `head.data + f`, sets the fill of the
head to `f + n` and changes nothing else; (2) in a pool fresh from
`init_options`, `count` calls `alloc(n)` with `count * n ≤ block_size` return
`data + 0 * n`, `data + 1 * n`, ..., in this order, so `count` distinct
pointers `n` bytes apart. -/
theorem bump_allocation :
    (∀ (env : call_env) (fuel : Nat) (pool : concurrent_charpool_t) (n : Nat)
      (b : concurrent_charpool_block_t) (rest : List concurrent_charpool_block_t),
      pool.small_string_min_size ≤ n → n < pool.block_size →
      pool.block_size < SIZE_T_RANGE → pool.block = b :: rest →
      b.block_index + n ≤ pool.block_size →
      (∀ i, n - pool.small_string_min_size ≤ i →
        i < pool.small_string_max_size - pool.small_string_min_size →
        pool.small_string_free_lists.getD i [] = []) →
      (∀ j, alloc_level pool n ≤ j → j < pool.num_free_lists →
        (pool.free_lists.getD j CONCURRENT_CHARPOOL_NULL_FREE_LIST).item = 0) →
      concurrent_charpool_alloc env (fuel + 1) pool n
        = { result := some (b.data + b.block_index)
            pool := { pool with block := { b with block_index := b.block_index + n } :: rest }
            freed := [] })
    ∧ (∀ (env : call_env) (fuel : Nat) (options : charpool_options_t) (d : Nat)
      (pool : concurrent_charpool_t) (n count : Nat),
      concurrent_charpool_init_options options d = some pool →
      pool.small_string_min_size ≤ n → n < pool.block_size →
      count * n ≤ pool.block_size →
      (alloc_repeat env (fuel + 1) n count pool).1
        = (List.range count).map (fun i => some (d + i * n))) := by
  constructor
  · intro env fuel pool n b rest hmin hbs hsz hblock hfit hsmall hlarge
    exact alloc_bump env fuel pool n b rest hmin hbs hsz hblock hfit hsmall hlarge
  · intro env fuel options d pool n count hinit hmin hbs hcount
    obtain ⟨hblock, hsz, hsmall, hlarge, _⟩ := init_options_fresh options d pool hinit
    have := alloc_repeat_bump env fuel n d count pool 0 hmin hbs hsz hblock (by omega) hsmall
      (fun j => by rw [hlarge j]; rfl)
    simpa using this

/-- C5 at the spec scenario: `small_min = 1`, `small_max = 8`,
`block_size = 64`, eight calls `alloc(8)` on the fresh pool with buffer 4096. -/
theorem bump_allocation_witness :
    concurrent_charpool_init_options ⟨1, 8, 64⟩ 4096
      = some { small_string_min_size := 1, small_string_max_size := 8,
               small_string_level_threshold := 3, num_free_lists := 3, block_size := 64,
               small_string_free_lists := List.replicate 7 [],
               free_lists := List.replicate 3 CONCURRENT_CHARPOOL_NULL_FREE_LIST,
               free_string_next := [], block := [{ block_index := 0, data := 4096 }] }
    ∧ (alloc_repeat ⟨fun _ => true, fun _ => true, 8192, 0⟩ 1 8 8
        { small_string_min_size := 1, small_string_max_size := 8,
          small_string_level_threshold := 3, num_free_lists := 3, block_size := 64,
          small_string_free_lists := List.replicate 7 [],
          free_lists := List.replicate 3 CONCURRENT_CHARPOOL_NULL_FREE_LIST,
          free_string_next := [], block := [{ block_index := 0, data := 4096 }] }).1
      = [some 4096, some 4104, some 4112, some 4120, some 4128, some 4136, some 4144,
          some 4152] :=
  ⟨by decide, bump_allocation.2 ⟨fun _ => true, fun _ => true, 8192, 0⟩ 0 ⟨1, 8, 64⟩ 4096 _ 8 8
    (by decide) (by decide) (by decide) (by decide)⟩

/-- A pool built by `concurrent_charpool_init_options` from options within
the ranges of their types (`uint8_t` sizes, a `size_t` block size) and with
`small_max ≤ block_size` is valid. -/
theorem init_options_valid (options : charpool_options_t) (d : Nat)
    (pool : concurrent_charpool_t)
    (hinit : concurrent_charpool_init_options options d = some pool)
    (hmax : options.small_string_max_size < UINT8_RANGE)
    (hbs : options.block_size < SIZE_T_RANGE)
    (hle : options.small_string_max_size ≤ options.block_size) :
    pool_valid pool := by
  unfold concurrent_charpool_init_options at hinit
  split_ifs at hinit with hbad hd
  have hp := Option.some.inj hinit
  subst hp
  simp only [not_or, not_lt, Bool.not_eq_false] at hbad
  obtain ⟨b1, b2, b3, b4⟩ := hbad
  have e1 : options.small_string_min_size % UINT8_RANGE = options.small_string_min_size :=
    Nat.mod_eq_of_lt (by omega)
  have e2 : options.small_string_max_size % UINT8_RANGE = options.small_string_max_size :=
    Nat.mod_eq_of_lt hmax
  have e3 : options.block_size % SIZE_T_RANGE = options.block_size := Nat.mod_eq_of_lt hbs
  have hmax2 : options.small_string_max_size < SIZE_T_RANGE := by
    unfold UINT8_RANGE at hmax; unfold SIZE_T_RANGE; omega
  have f1 : floor_log2 options.small_string_max_size < 64 := floor_log2_lt_64 _ hmax2
  have f2 : floor_log2 options.block_size < 64 := floor_log2_lt_64 _ hbs
  have f3 : floor_log2 options.small_string_max_size ≤ floor_log2 options.block_size :=
    floor_log2_mono _ _ (by omega) hle hbs
  have e4 : floor_log2 options.small_string_max_size % UINT8_RANGE
      = floor_log2 options.small_string_max_size :=
    Nat.mod_eq_of_lt (by unfold UINT8_RANGE; omega)
  have e5 : (floor_log2 options.block_size + SIZE_T_RANGE
      - floor_log2 options.small_string_max_size) % SIZE_T_RANGE % UINT8_RANGE
      = floor_log2 options.block_size - floor_log2 options.small_string_max_size := by
    unfold SIZE_T_RANGE UINT8_RANGE
    omega
  unfold pool_valid
  simp only [e1, e2, e3, e4, e5, List.length_replicate]
  refine ⟨by omega, by omega, hmax, b4, b3, hbs, hle, ?_⟩
  simp

/-! ## The grow loop when every try-lock succeeds -/

theorem release_size_frame (pool : concurrent_charpool_t) (str size : Nat) (push_ok : Bool) :
    (concurrent_charpool_release_size pool str size push_ok).pool.block = pool.block
    ∧ (concurrent_charpool_release_size pool str size push_ok).pool.block_size = pool.block_size
    ∧ (concurrent_charpool_release_size pool str size push_ok).pool.small_string_min_size
        = pool.small_string_min_size
    ∧ (concurrent_charpool_release_size pool str size push_ok).pool.small_string_max_size
        = pool.small_string_max_size
    ∧ (concurrent_charpool_release_size pool str size push_ok).pool.small_string_level_threshold
        = pool.small_string_level_threshold
    ∧ (concurrent_charpool_release_size pool str size push_ok).pool.num_free_lists
        = pool.num_free_lists := by
  unfold concurrent_charpool_release_size concurrent_small_string_stack_push
  cases push_ok <;> simp only [] <;> split_ifs <;> simp

theorem release_remainder_frame (pool : concurrent_charpool_t) (data index : Nat)
    (push_ok : Bool) :
    (release_remainder pool data index push_ok).pool.block = pool.block
    ∧ (release_remainder pool data index push_ok).pool.block_size = pool.block_size
    ∧ (release_remainder pool data index push_ok).pool.small_string_min_size
        = pool.small_string_min_size
    ∧ (release_remainder pool data index push_ok).pool.small_string_max_size
        = pool.small_string_max_size
    ∧ (release_remainder pool data index push_ok).pool.small_string_level_threshold
        = pool.small_string_level_threshold
    ∧ (release_remainder pool data index push_ok).pool.num_free_lists
        = pool.num_free_lists := by
  unfold release_remainder
  split_ifs
  · exact release_size_frame _ _ _ _
  · simp

/-- One iteration of the grow loop on a head block that cannot hold `size`
bytes, before any try-lock has failed (`last_block` is still `NULL`) and with
the try-lock succeeding: the loop runs again, `last_block` still `NULL`, the
fill index advanced once more and no block installed. -/
theorem grow_iter_trylock_first (env : call_env) (size k : Nat) (pool : concurrent_charpool_t)
    (freed : List Nat) (index spin_count : Nat) (b : concurrent_charpool_block_t)
    (rest : List concurrent_charpool_block_t) (hblock : pool.block = b :: rest)
    (htry : env.trylock k = true)
    (hover : pool.block_size < b.block_index + size)
    (hwrap : b.block_index + size < SIZE_T_RANGE) :
    ∃ pool1 freed1,
      grow_iter env size k pool freed 0 index spin_count
        = grow_step.again pool1 freed1 0 b.block_index spin_count
      ∧ pool1.block = { b with block_index := b.block_index + size } :: rest
      ∧ pool1.block_size = pool.block_size := by
  have hmod : (b.block_index + size) % SIZE_T_RANGE = b.block_index + size :=
    Nat.mod_eq_of_lt hwrap
  have hid : head_block_id pool ≠ 0 := by simp [head_block_id, hblock]
  have hnot : ¬ (b.block_index + size ≤ pool.block_size) := by omega
  obtain ⟨rel, hrel⟩ : ∃ rel, rel = release_remainder
      { pool with block := { b with block_index := b.block_index + size } :: rest }
      b.data b.block_index (env.push_ok k) := ⟨_, rfl⟩
  obtain ⟨hf1, hf2, _⟩ := release_remainder_frame
    { pool with block := { b with block_index := b.block_index + size } :: rest }
    b.data b.block_index (env.push_ok k)
  rw [← hrel] at hf1 hf2
  have hid2 : head_block_id rel.pool ≠ 0 := by
    simp [head_block_id, hf1]
  refine ⟨rel.pool, freed ++ rel.freed, ?_, hf1, hf2⟩
  unfold grow_iter
  rw [hblock]
  simp only [fetch_block_index, hid, ne_eq, not_false_eq_true, if_true, hmod, hnot,
    decide_False, Bool.false_eq_true, if_false, htry]
  rw [← hrel, if_pos hid2]

/-- With every try-lock succeeding the grow loop on an exhausted head block
is still running after any number of iterations that does not wrap the fill
index around, and the chain has not grown. -/
theorem grow_loop_spins (env : call_env) (size : Nat) (htry : ∀ k, env.trylock k = true)
    (fuel : Nat) :
    ∀ (k : Nat) (pool : concurrent_charpool_t) (freed : List Nat) (index spin_count : Nat)
      (b : concurrent_charpool_block_t) (rest : List concurrent_charpool_block_t),
      pool.block = b :: rest → pool.block_size < b.block_index + size →
      b.block_index + fuel * size < SIZE_T_RANGE →
      (grow_loop env size fuel k pool freed 0 index spin_count).result = none
      ∧ (grow_loop env size fuel k pool freed 0 index spin_count).pool.block
          = { b with block_index := b.block_index + fuel * size } :: rest := by
  induction fuel with
  | zero =>
    intro k pool freed index spin_count b rest hblock _ _
    simp [grow_loop, hblock]
  | succ f ih =>
    intro k pool freed index spin_count b rest hblock hover hwrap
    have hw1 : b.block_index + size < SIZE_T_RANGE := by
      have : (f + 1) * size = f * size + size := by ring
      omega
    obtain ⟨pool1, freed1, hiter, hb1, hbs1⟩ :=
      grow_iter_trylock_first env size k pool freed index spin_count b rest hblock (htry k)
        hover hw1
    unfold grow_loop
    rw [hiter]
    simp only []
    have hih := ih (k + 1) pool1 freed1 b.block_index spin_count
      { b with block_index := b.block_index + size } rest hb1
      (by rw [hbs1]; simp only []; omega)
      (by
        have : (f + 1) * size = f * size + size := by ring
        simp only []
        omega)
    refine ⟨hih.1, ?_⟩
    rw [hih.2]
    have : (f + 1) * size = f * size + size := by ring
    simp only [this]
    congr 2
    omega

theorem scenario_pool_empty (fill : Nat) :
    (∀ i, (scenario_pool fill).small_string_free_lists.getD i [] = [])
    ∧ (∀ j, ((scenario_pool fill).free_lists.getD j CONCURRENT_CHARPOOL_NULL_FREE_LIST).item
        = 0) := by
  constructor
  · intro i; exact getD_replicate_default _ _ i
  · intro j
    have h : (scenario_pool fill).free_lists.getD j CONCURRENT_CHARPOOL_NULL_FREE_LIST
        = CONCURRENT_CHARPOOL_NULL_FREE_LIST := getD_replicate_default _ _ j
    rw [h]; rfl

theorem alloc_exhausted_spins (env : call_env) (fuel : Nat) (pool : concurrent_charpool_t)
    (n : Nat) (b : concurrent_charpool_block_t) (rest : List concurrent_charpool_block_t)
    (htry : ∀ k, env.trylock k = true)
    (hmin : pool.small_string_min_size ≤ n) (hbs : n < pool.block_size)
    (hblock : pool.block = b :: rest)
    (hover : pool.block_size < b.block_index + n)
    (hwrap : b.block_index + fuel * n < SIZE_T_RANGE)
    (hsmall : ∀ i, n - pool.small_string_min_size ≤ i →
      i < pool.small_string_max_size - pool.small_string_min_size →
      pool.small_string_free_lists.getD i [] = [])
    (hlarge : ∀ j, alloc_level pool n ≤ j → j < pool.num_free_lists →
      (pool.free_lists.getD j CONCURRENT_CHARPOOL_NULL_FREE_LIST).item = 0) :
    (concurrent_charpool_alloc env fuel pool n).result = none
    ∧ (concurrent_charpool_alloc env fuel pool n).pool.block
        = { b with block_index := b.block_index + fuel * n } :: rest := by
  have h1 : ¬ n < pool.small_string_min_size := by omega
  have h2 : ¬ n ≥ pool.block_size := by omega
  unfold concurrent_charpool_alloc
  simp only [h1, h2, if_false]
  rw [small_string_pop_loop_none pool _ _ (fun k hk1 hk2 => hsmall k hk1 (by omega))]
  simp only []
  rw [free_list_pop_loop_none pool _ _ (fun k hk1 hk2 => hlarge k hk1 (by omega))]
  simp only []
  exact grow_loop_spins env n htry fuel 0 pool [] 0 0 b rest hblock hover hwrap

/-- C6, what the code does: when every try-lock succeeds, no probed free list
holds a run and the head block (fill `f`) cannot hold `n` more bytes, then
after any number `fuel` of iterations of the grow loop (short of wrapping the
fill index) `alloc(n)` has not returned, and the chain is the old one with
the fill of the same head advanced to `f + fuel * n`: no block is installed. -/
theorem exhausted_head_never_grows (env : call_env) (fuel : Nat)
    (pool : concurrent_charpool_t) (n : Nat) (b : concurrent_charpool_block_t)
    (rest : List concurrent_charpool_block_t)
    (htry : ∀ k, env.trylock k = true)
    (hmin : pool.small_string_min_size ≤ n) (hbs : n < pool.block_size)
    (hblock : pool.block = b :: rest)
    (hover : pool.block_size < b.block_index + n)
    (hwrap : b.block_index + fuel * n < SIZE_T_RANGE)
    (hsmall : ∀ i, n - pool.small_string_min_size ≤ i →
      i < pool.small_string_max_size - pool.small_string_min_size →
      pool.small_string_free_lists.getD i [] = [])
    (hlarge : ∀ j, alloc_level pool n ≤ j → j < pool.num_free_lists →
      (pool.free_lists.getD j CONCURRENT_CHARPOOL_NULL_FREE_LIST).item = 0) :
    (concurrent_charpool_alloc env fuel pool n).result = none
    ∧ (concurrent_charpool_alloc env fuel pool n).pool.block
        = { b with block_index := b.block_index + fuel * n } :: rest :=
  alloc_exhausted_spins env fuel pool n b rest htry hmin hbs hblock hover hwrap hsmall hlarge

/-- C6 at the spec scenario: the ninth `alloc(8)` on the 64-byte block, 5000
iterations of the grow loop. -/
theorem exhausted_head_never_grows_witness :
    (concurrent_charpool_alloc (single_thread_env 8192 0) 5000 (scenario_pool 64) 8).result
      = none
    ∧ (concurrent_charpool_alloc (single_thread_env 8192 0) 5000 (scenario_pool 64) 8).pool.block
      = [{ block_index := 64 + 5000 * 8, data := 4096 }] :=
  exhausted_head_never_grows (single_thread_env 8192 0) 5000 (scenario_pool 64) 8
    { block_index := 64, data := 4096 } [] (fun _ => rfl) (by decide) (by decide) rfl
    (by decide) (by decide) (fun i _ _ => (scenario_pool_empty 64).1 i)
    (fun j _ _ => (scenario_pool_empty 64).2 j)

/-- C7, what the code does: on the 64-byte block filled by eight `alloc(8)`
calls, with every try-lock succeeding, the ninth `alloc(8)` has not returned
after `1000 + extra` iterations of the grow loop, whatever the constant
`extra` (as long as the fill index has not wrapped around). -/
theorem alloc_exceeds_spin_budget (extra : Nat)
    (hextra : 64 + (SPIN_LIMIT + extra) * 8 < SIZE_T_RANGE) :
    (concurrent_charpool_alloc (single_thread_env 8192 0) (SPIN_LIMIT + extra)
      (scenario_pool 64) 8).result = none :=
  (alloc_exhausted_spins (single_thread_env 8192 0) (SPIN_LIMIT + extra) (scenario_pool 64) 8
    { block_index := 64, data := 4096 } [] (fun _ => rfl) (by decide) (by decide) rfl
    (by decide) hextra (fun i _ _ => (scenario_pool_empty 64).1 i)
    (fun j _ _ => (scenario_pool_empty 64).2 j)).1

/-- C7 with a million iterations beyond the spin budget. -/
theorem alloc_exceeds_spin_budget_witness :
    64 + (SPIN_LIMIT + 1000000) * 8 < SIZE_T_RANGE
    ∧ (concurrent_charpool_alloc (single_thread_env 8192 0) (SPIN_LIMIT + 1000000)
        (scenario_pool 64) 8).result = none :=
  ⟨by decide, alloc_exceeds_spin_budget 1000000 (by decide)⟩

/-- C9, what the code does: block of 64 bytes filled to 60, `alloc(8)` whose
first try-lock fails and whose second succeeds.  The call returns the new
block, and the 4-byte rest of the old block at `data + 60` is on the small
stack for size 4 twice; the next two `alloc(4)` calls both return it. -/
theorem remainder_pushed_twice :
    (concurrent_charpool_alloc (contended_once_env 8192 0) 3 (scenario_pool 60) 8).result
      = some 8192
    ∧ (concurrent_charpool_alloc (contended_once_env 8192 0) 3
        (scenario_pool 60) 8).pool.small_string_free_lists.getD 3 [] = [4156, 4156]
    ∧ (alloc_repeat (single_thread_env 12288 0) 1 4 2
        (concurrent_charpool_alloc (contended_once_env 8192 0) 3 (scenario_pool 60) 8).pool).1
      = [some 4156, some 4156] := by
  decide

/-! ## The free lists: where a run is pushed and where it is popped -/

theorem small_string_pop_loop_some (pool : concurrent_charpool_t) (count : Nat) :
    ∀ (i a : Nat) (pool1 : concurrent_charpool_t),
      small_string_pop_loop pool count i = some (a, pool1) →
      ∃ k t, i ≤ k ∧ k < i + count ∧ pool.small_string_free_lists.getD k [] = a :: t
        ∧ pool1 = { pool with small_string_free_lists := pool.small_string_free_lists.set k t } := by
  induction count with
  | zero => intro i a pool1 h; simp [small_string_pop_loop] at h
  | succ c ih =>
    intro i a pool1 h
    unfold small_string_pop_loop at h
    cases hst : pool.small_string_free_lists.getD i [] with
    | nil =>
      rw [hst] at h
      simp only [concurrent_small_string_stack_pop] at h
      obtain ⟨k, t, h1, h2, h3, h4⟩ := ih (i + 1) a pool1 h
      exact ⟨k, t, by omega, by omega, h3, h4⟩
    | cons v t =>
      rw [hst] at h
      simp only [concurrent_small_string_stack_pop, Option.some.injEq, Prod.mk.injEq] at h
      refine ⟨i, t, le_refl _, by omega, ?_, h.2.symm⟩
      rw [hst, h.1]

theorem free_list_pop_loop_some (pool : concurrent_charpool_t) (count : Nat) :
    ∀ (j a : Nat) (pool1 : concurrent_charpool_t),
      free_list_pop_loop pool count j = some (a, pool1) →
      ∃ k, j ≤ k ∧ k < j + count ∧ a ≠ 0
        ∧ (pool.free_lists.getD k CONCURRENT_CHARPOOL_NULL_FREE_LIST).item = a
        ∧ (∀ i, j ≤ i → i < k →
            (pool.free_lists.getD i CONCURRENT_CHARPOOL_NULL_FREE_LIST).item = 0)
        ∧ pool1 = { pool with
            free_lists := pool.free_lists.set k
              { version := (pool.free_lists.getD k CONCURRENT_CHARPOOL_NULL_FREE_LIST).version
                item := read_next pool.free_string_next a } } := by
  induction count with
  | zero => intro j a pool1 h; simp [free_list_pop_loop] at h
  | succ c ih =>
    intro j a pool1 h
    unfold free_list_pop_loop at h
    by_cases hz : (pool.free_lists.getD j CONCURRENT_CHARPOOL_NULL_FREE_LIST).item = 0
    · simp only [hz, if_true] at h
      obtain ⟨k, h1, h2, h3, h4, h5, h6⟩ := ih (j + 1) a pool1 h
      refine ⟨k, by omega, by omega, h3, h4, ?_, h6⟩
      intro i hi1 hi2
      by_cases hij : i = j
      · rw [hij]; exact hz
      · exact h5 i (by omega) hi2
    · simp only [hz, if_false, Option.some.injEq, Prod.mk.injEq] at h
      refine ⟨j, le_refl _, by omega, ?_, h.1, ?_, ?_⟩
      · rw [← h.1]; exact hz
      · intro i hi1 hi2; omega
      · rw [← h.2, h.1]

theorem free_list_pop_loop_hit (pool : concurrent_charpool_t) (count : Nat) :
    ∀ (j k : Nat), j ≤ k → k < j + count →
      (∀ i, j ≤ i → i < k →
        (pool.free_lists.getD i CONCURRENT_CHARPOOL_NULL_FREE_LIST).item = 0) →
      (pool.free_lists.getD k CONCURRENT_CHARPOOL_NULL_FREE_LIST).item ≠ 0 →
      free_list_pop_loop pool count j
        = some ((pool.free_lists.getD k CONCURRENT_CHARPOOL_NULL_FREE_LIST).item,
            { pool with
              free_lists := pool.free_lists.set k
                { version := (pool.free_lists.getD k CONCURRENT_CHARPOOL_NULL_FREE_LIST).version
                  item := read_next pool.free_string_next
                    (pool.free_lists.getD k CONCURRENT_CHARPOOL_NULL_FREE_LIST).item } }) := by
  induction count with
  | zero => intro j k h1 h2; omega
  | succ c ih =>
    intro j k h1 h2 hz hk
    unfold free_list_pop_loop
    by_cases hjk : j = k
    · subst hjk
      simp only [hk, if_false]
    · simp only [hz j (le_refl _) (by omega), if_true]
      exact ih (j + 1) k (by omega) (by omega) (fun i hi1 hi2 => hz i (by omega) hi2) hk

/-- The arithmetic that a valid pool gives: `small_max = 2 ^ threshold`,
`block_size = 2 ^ floor_log2 block_size`, and the threshold is at most the
logarithm of the block size, which is below 64. -/
theorem pool_valid_pow (pool : concurrent_charpool_t) (hv : pool_valid pool) :
    pool.small_string_max_size = 2 ^ pool.small_string_level_threshold
    ∧ pool.block_size = 2 ^ floor_log2 pool.block_size
    ∧ pool.small_string_level_threshold ≤ floor_log2 pool.block_size
    ∧ floor_log2 pool.block_size < 64
    ∧ 1 ≤ pool.small_string_max_size := by
  obtain ⟨h1, h2, h3, h4, h5, h6, h7, h8, _⟩ := hv
  have e1 : pool.small_string_max_size = 2 ^ floor_log2 pool.small_string_max_size := by
    simpa [is_power_of_two] using h4
  have e2 : pool.block_size = 2 ^ floor_log2 pool.block_size := by
    simpa [is_power_of_two] using h5
  refine ⟨by rw [h8]; exact e1, e2, ?_, floor_log2_lt_64 _ h6, by omega⟩
  rw [h8]
  exact floor_log2_mono _ _ (by omega) h7 h6

/-- In a valid pool the level of line 218 for a size in
`[small_max, block_size)` is `floor_log2 size - threshold` without wrapping,
it indexes an existing large free list, and that list's class size
`2 ^ (level + threshold)` is at most `size`. -/
theorem release_level_spec (pool : concurrent_charpool_t) (hv : pool_valid pool) (n : Nat)
    (hn1 : pool.small_string_max_size ≤ n) (hn2 : n < pool.block_size) :
    release_level pool n = floor_log2 n - pool.small_string_level_threshold
    ∧ pool.small_string_level_threshold ≤ floor_log2 n
    ∧ release_level pool n < pool.num_free_lists
    ∧ 2 ^ (release_level pool n + pool.small_string_level_threshold) ≤ n := by
  obtain ⟨e1, e2, e3, e4, e5⟩ := pool_valid_pow pool hv
  have hv2 := hv
  obtain ⟨h1, h2, h3, h4, h5, h6, h7, h8, h9, _⟩ := hv2
  have hn3 : n < SIZE_T_RANGE := by omega
  obtain ⟨ha, hb⟩ := floor_log2_spec n (by omega) hn3
  have hthr : pool.small_string_level_threshold ≤ floor_log2 n := by
    rw [h8]
    exact floor_log2_mono _ _ (by omega) hn1 hn3
  have hlt : floor_log2 n < floor_log2 pool.block_size := by
    have : 2 ^ floor_log2 n < 2 ^ floor_log2 pool.block_size := by
      rw [← e2]; omega
    exact (Nat.pow_lt_pow_iff_right (by norm_num : 1 < 2)).1 this
  have hlev : release_level pool n = floor_log2 n - pool.small_string_level_threshold := by
    unfold release_level UINT8_RANGE
    omega
  refine ⟨hlev, hthr, ?_, ?_⟩
  · rw [hlev, h9]
    split_ifs <;> omega
  · rw [hlev, Nat.sub_add_cancel hthr]
    exact ha

/-- In a valid pool every large free list that `alloc(m)` probes
(`small_min ≤ m < block_size`, level at least the level of line 253) has a
class size `2 ^ (level + threshold)` of at least `m`. -/
theorem alloc_level_spec (pool : concurrent_charpool_t) (hv : pool_valid pool) (m j : Nat)
    (hm2 : m < pool.block_size) (hj : alloc_level pool m ≤ j) :
    m ≤ 2 ^ (j + pool.small_string_level_threshold) := by
  obtain ⟨e1, e2, e3, e4, e5⟩ := pool_valid_pow pool hv
  obtain ⟨h1, h2, h3, h4, h5, h6, h7, h8, h9, _⟩ := hv
  by_cases hsm : m < pool.small_string_max_size
  · have : 2 ^ pool.small_string_level_threshold
        ≤ 2 ^ (j + pool.small_string_level_threshold) :=
      Nat.pow_le_pow_right (by norm_num) (by omega)
    omega
  · have hm3 : m ≤ SIZE_T_RANGE := by omega
    have hc1 : ceil_log2 m ≤ floor_log2 pool.block_size :=
      ceil_log2_le m _ hm3 (by rw [← e2]; omega)
    have hc2 : pool.small_string_level_threshold ≤ ceil_log2 m := by
      by_contra hlt
      have := lt_pow_of_lt_ceil_log2 m (ceil_log2 m) hm3
      have h3 : 2 ^ ceil_log2 m < 2 ^ pool.small_string_level_threshold :=
        Nat.pow_lt_pow_right (by norm_num) (by omega)
      have h4 := le_pow_ceil_log2 m hm3
      omega
    have hlev : alloc_level pool m = ceil_log2 m - pool.small_string_level_threshold := by
      unfold alloc_level UINT8_RANGE
      omega
    have h5 : ceil_log2 m ≤ j + pool.small_string_level_threshold := by omega
    exact le_trans (le_pow_ceil_log2 m hm3) (Nat.pow_le_pow_right (by norm_num) h5)

theorem alloc_level_large (pool : concurrent_charpool_t) (hv : pool_valid pool) (m : Nat)
    (hm1 : pool.small_string_max_size ≤ m) (hm2 : m < pool.block_size) :
    alloc_level pool m = ceil_log2 m - pool.small_string_level_threshold
    ∧ pool.small_string_level_threshold ≤ ceil_log2 m := by
  obtain ⟨e1, e2, e3, e4, e5⟩ := pool_valid_pow pool hv
  obtain ⟨h1, h2, h3, h4, h5, h6, h7, h8, h9, _⟩ := hv
  have hm3 : m ≤ SIZE_T_RANGE := by omega
  have hc1 : ceil_log2 m ≤ floor_log2 pool.block_size :=
    ceil_log2_le m _ hm3 (by rw [← e2]; omega)
  have hc2 : pool.small_string_level_threshold ≤ ceil_log2 m := by
    by_contra hlt
    have h3 : 2 ^ ceil_log2 m < 2 ^ pool.small_string_level_threshold :=
      Nat.pow_lt_pow_right (by norm_num) (by omega)
    have h4 := le_pow_ceil_log2 m hm3
    omega
  refine ⟨?_, hc2⟩
  unfold alloc_level UINT8_RANGE
  omega

theorem getD_set_eq {α : Type} (l : List α) (i : Nat) (a d : α) (h : i < l.length) :
    (l.set i a).getD i d = a := by
  simp [List.getD_eq_getElem?_getD, List.getElem?_set, h]

theorem getD_set_ne {α : Type} (l : List α) (i j : Nat) (a d : α) (h : i ≠ j) :
    (l.set i a).getD j d = l.getD j d := by
  simp [List.getD_eq_getElem?_getD, List.getElem?_set, h]

theorem release_size_large (pool : concurrent_charpool_t) (p n : Nat) (push_ok : Bool)
    (hp : p ≠ 0) (hmin : pool.small_string_min_size ≤ pool.small_string_max_size)
    (hn1 : pool.small_string_max_size ≤ n) (hn2 : n < pool.block_size) :
    concurrent_charpool_release_size pool p n push_ok
      = { ok := true
          pool := { pool with
            free_lists := pool.free_lists.set (release_level pool n)
              { version := ((pool.free_lists.getD (release_level pool n)
                  CONCURRENT_CHARPOOL_NULL_FREE_LIST).version + 1) % SIZE_T_RANGE
                item := p }
            free_string_next := (p, (pool.free_lists.getD (release_level pool n)
              CONCURRENT_CHARPOOL_NULL_FREE_LIST).item) :: pool.free_string_next }
          freed := [] } := by
  have h1 : ¬ (p = 0 ∨ n < pool.small_string_min_size) := by
    intro h; rcases h with h | h
    · exact hp h
    · omega
  have h2 : ¬ n < pool.small_string_max_size := by omega
  have h3 : ¬ n ≥ pool.block_size := by omega
  unfold concurrent_charpool_release_size
  simp only [h1, h2, h3, if_false]

/-- C4 as amended: in a valid pool whose large free lists are all empty, after
`release_size(p, n)` with `small_max ≤ n < block_size` and `p` non-null the
run `p` is the head item of large list `floor_log2 n - threshold`, and
`alloc(m)` with `small_max ≤ m < block_size` returns `p` whenever
`ceil_log2 m ≤ floor_log2 n`.  When the head block has room for `m` bytes
and `p` is not the address the next bump allocation returns, `alloc(m)`
returns `p` if and only if `ceil_log2 m ≤ floor_log2 n`; otherwise it
returns the bump pointer `head.data + fill`, a different pointer, and `p`
stays the head item of that list. -/
theorem floor_on_push_ceil_on_pop (env : call_env) (fuel : Nat) (pool : concurrent_charpool_t)
    (p n m : Nat) (push_ok : Bool) (b : concurrent_charpool_block_t)
    (rest : List concurrent_charpool_block_t)
    (hv : pool_valid pool)
    (hempty : ∀ j, (pool.free_lists.getD j CONCURRENT_CHARPOOL_NULL_FREE_LIST).item = 0)
    (hn1 : pool.small_string_max_size ≤ n) (hn2 : n < pool.block_size)
    (hm1 : pool.small_string_max_size ≤ m) (hm2 : m < pool.block_size)
    (hp : p ≠ 0) (hblock : pool.block = b :: rest) :
    (concurrent_charpool_release_size pool p n push_ok).ok = true
    ∧ ((concurrent_charpool_release_size pool p n push_ok).pool.free_lists.getD
        (floor_log2 n - pool.small_string_level_threshold)
        CONCURRENT_CHARPOOL_NULL_FREE_LIST).item = p
    ∧ (ceil_log2 m ≤ floor_log2 n →
        (concurrent_charpool_alloc env (fuel + 1)
          (concurrent_charpool_release_size pool p n push_ok).pool m).result = some p)
    ∧ (b.block_index + m ≤ pool.block_size → p ≠ b.data + b.block_index →
        ((concurrent_charpool_alloc env (fuel + 1)
            (concurrent_charpool_release_size pool p n push_ok).pool m).result = some p
          ↔ ceil_log2 m ≤ floor_log2 n)
        ∧ (¬ ceil_log2 m ≤ floor_log2 n →
          (concurrent_charpool_alloc env (fuel + 1)
            (concurrent_charpool_release_size pool p n push_ok).pool m).result
              = some (b.data + b.block_index)
          ∧ (concurrent_charpool_alloc env (fuel + 1)
              (concurrent_charpool_release_size pool p n push_ok).pool m).pool.block
              = { b with block_index := b.block_index + m } :: rest
          ∧ ((concurrent_charpool_alloc env (fuel + 1)
              (concurrent_charpool_release_size pool p n push_ok).pool m).pool.free_lists.getD
              (floor_log2 n - pool.small_string_level_threshold)
              CONCURRENT_CHARPOOL_NULL_FREE_LIST).item = p)) := by
  obtain ⟨hlev, hthr, hlt, _⟩ := release_level_spec pool hv n hn1 hn2
  obtain ⟨halev, hathr⟩ := alloc_level_large pool hv m hm1 hm2
  have hv2 := hv
  obtain ⟨h1, h2, h3, h4, h5, h6, h7, h8, h9, h10, h11⟩ := hv2
  have hrel := release_size_large pool p n push_ok hp h2 hn1 hn2
  obtain ⟨pool1, hpool1⟩ : ∃ pool1 : concurrent_charpool_t, pool1 = { pool with
      free_lists := pool.free_lists.set (release_level pool n)
        { version := ((pool.free_lists.getD (release_level pool n)
            CONCURRENT_CHARPOOL_NULL_FREE_LIST).version + 1) % SIZE_T_RANGE
          item := p }
      free_string_next := (p, (pool.free_lists.getD (release_level pool n)
        CONCURRENT_CHARPOOL_NULL_FREE_LIST).item) :: pool.free_string_next } := ⟨_, rfl⟩
  rw [← hpool1] at hrel
  rw [hrel, ← hlev]
  dsimp only
  have hkn : release_level pool n < pool.free_lists.length := by omega
  have hat : pool1.free_lists.getD (release_level pool n) CONCURRENT_CHARPOOL_NULL_FREE_LIST
      = { version := ((pool.free_lists.getD (release_level pool n)
            CONCURRENT_CHARPOOL_NULL_FREE_LIST).version + 1) % SIZE_T_RANGE
          item := p } := by
    rw [hpool1]; exact getD_set_eq _ _ _ _ hkn
  have hother : ∀ j, j ≠ release_level pool n →
      (pool1.free_lists.getD j CONCURRENT_CHARPOOL_NULL_FREE_LIST).item = 0 := by
    intro j hj
    rw [hpool1]
    simp only []
    rw [getD_set_ne _ _ _ _ _ (Ne.symm hj)]
    exact hempty j
  have hal : alloc_level pool1 m = alloc_level pool m := by rw [hpool1]; rfl
  have hc1 : ¬ m < pool1.small_string_min_size := by rw [hpool1]; simp only []; omega
  have hc2 : ¬ m ≥ pool1.block_size := by rw [hpool1]; simp only []; omega
  have hcount : (pool1.small_string_max_size - pool1.small_string_min_size)
      - (m - pool1.small_string_min_size) = 0 := by rw [hpool1]; simp only []; omega
  have hnfl : pool1.num_free_lists = pool.num_free_lists := by rw [hpool1]
  by_cases hcmp : ceil_log2 m ≤ floor_log2 n
  · -- the probe reaches the list that holds `p`
    have hit := free_list_pop_loop_hit pool1 (pool1.num_free_lists - alloc_level pool1 m)
      (alloc_level pool1 m) (release_level pool n) (by rw [hal]; omega)
      (by rw [hal, hnfl]; omega) (fun i _ hi => hother i (by omega))
      (by rw [hat]; exact hp)
    have hres : (concurrent_charpool_alloc env (fuel + 1) pool1 m).result = some p := by
      unfold concurrent_charpool_alloc
      simp only [hc1, hc2, if_false, hcount, small_string_pop_loop]
      rw [hit, hat]
    exact ⟨by trivial, by rw [hat], fun _ => hres,
      fun _ _ => ⟨⟨fun _ => hcmp, fun _ => hres⟩, fun h => absurd hcmp h⟩⟩
  · -- every probed list is empty: bump allocation
    refine ⟨by trivial, by rw [hat], fun h => absurd h hcmp, fun hfit hfresh => ?_⟩
    have hb1 : pool1.block = b :: rest := by rw [hpool1]; exact hblock
    have hbump := alloc_bump env fuel pool1 m b rest (by omega) (by omega)
      (by rw [hpool1]; exact h6) hb1 (by rw [hpool1]; exact hfit)
      (fun i hi1 hi2 => by omega)
      (fun j hj1 _ => hother j (by rw [hal] at hj1; omega))
    rw [hbump]
    refine ⟨⟨fun h => ?_, fun h => absurd h hcmp⟩, fun _ => ⟨rfl, rfl, ?_⟩⟩
    · simp only [Option.some.injEq] at h
      exact absurd h.symm hfresh
    · simp only []
      rw [hat]

/-- C4 as amended, at the spec scenario (`small_max = 8`, `block_size = 1024`): `p = 4096`
was returned by `alloc(100)`, then `release_size(p, 100)`; `alloc(70)`
returns the bump pointer 4196 and leaves `p` on list 3, and the `alloc(64)`
that follows returns `p`. -/
theorem floor_on_push_ceil_on_pop_witness :
    (concurrent_charpool_alloc (single_thread_env 8192 0) 1 (scenario_pool_1024 0) 100).result
      = some 4096
    ∧ ¬ ceil_log2 70 ≤ floor_log2 100
    ∧ (concurrent_charpool_alloc (single_thread_env 8192 0) 1
        (concurrent_charpool_release_size (scenario_pool_1024 100) 4096 100 true).pool 70).result
        = some 4196
    ∧ ((concurrent_charpool_alloc (single_thread_env 8192 0) 1
        (concurrent_charpool_release_size (scenario_pool_1024 100) 4096 100
          true).pool 70).pool.free_lists.getD 3 CONCURRENT_CHARPOOL_NULL_FREE_LIST).item = 4096
    ∧ (concurrent_charpool_alloc (single_thread_env 8192 0) 1
        (concurrent_charpool_alloc (single_thread_env 8192 0) 1
          (concurrent_charpool_release_size (scenario_pool_1024 100) 4096 100 true).pool
          70).pool 64).result = some 4096 :=
  have h := floor_on_push_ceil_on_pop (single_thread_env 8192 0) 0 (scenario_pool_1024 100)
    4096 100 70 true { block_index := 100, data := 4096 } [] (by decide)
    (fun j => by
      have e : (scenario_pool_1024 100).free_lists.getD j CONCURRENT_CHARPOOL_NULL_FREE_LIST
          = CONCURRENT_CHARPOOL_NULL_FREE_LIST := getD_replicate_default _ _ j
      rw [e]; rfl)
    (by decide) (by decide) (by decide) (by decide) (by decide) rfl
  ⟨by decide, by decide, ((h.2.2.2 (by decide) (by decide)).2 (by decide)).1,
    ((h.2.2.2 (by decide) (by decide)).2 (by decide)).2.2, by decide⟩

/-- The three ways in which `alloc(m)` with `small_min ≤ m < block_size` goes
on: a small stack is popped, a large free list is popped, or the grow loop
is entered with every probed free list empty. -/
theorem alloc_cases (env : call_env) (fuel : Nat) (pool : concurrent_charpool_t) (m : Nat)
    (hm1 : pool.small_string_min_size ≤ m) (hm2 : m < pool.block_size) :
    (∃ i a t, m - pool.small_string_min_size ≤ i
        ∧ i < pool.small_string_max_size - pool.small_string_min_size
        ∧ pool.small_string_free_lists.getD i [] = a :: t
        ∧ concurrent_charpool_alloc env fuel pool m
          = { result := some a
              pool := { pool with
                small_string_free_lists := pool.small_string_free_lists.set i t }
              freed := [] })
    ∨ (∃ j a, alloc_level pool m ≤ j ∧ j < pool.num_free_lists ∧ a ≠ 0
        ∧ (pool.free_lists.getD j CONCURRENT_CHARPOOL_NULL_FREE_LIST).item = a
        ∧ concurrent_charpool_alloc env fuel pool m
          = { result := some a
              pool := { pool with
                free_lists := pool.free_lists.set j
                  { version :=
                      (pool.free_lists.getD j CONCURRENT_CHARPOOL_NULL_FREE_LIST).version
                    item := read_next pool.free_string_next a } }
              freed := [] })
    ∨ concurrent_charpool_alloc env fuel pool m = grow_loop env m fuel 0 pool [] 0 0 0 := by
  have h1 : ¬ m < pool.small_string_min_size := by omega
  have h2 : ¬ m ≥ pool.block_size := by omega
  unfold concurrent_charpool_alloc
  simp only [h1, h2, if_false]
  cases hs : small_string_pop_loop pool
      ((pool.small_string_max_size - pool.small_string_min_size)
        - (m - pool.small_string_min_size)) (m - pool.small_string_min_size) with
  | some r =>
    obtain ⟨a, pool1⟩ := r
    obtain ⟨k, t, hk1, hk2, hk3, hk4⟩ := small_string_pop_loop_some pool _ _ a pool1 hs
    left
    exact ⟨k, a, t, hk1, by omega, hk3, by simp only [hk4]⟩
  | none =>
    simp only []
    cases hl : free_list_pop_loop pool (pool.num_free_lists - alloc_level pool m)
        (alloc_level pool m) with
    | some r =>
      obtain ⟨a, pool1⟩ := r
      obtain ⟨k, hk1, hk2, hk3, hk4, _, hk6⟩ := free_list_pop_loop_some pool _ _ a pool1 hl
      right; left
      exact ⟨k, a, hk1, by omega, hk3, hk4, by simp only [hk6]⟩
    | none =>
      right; right
      rfl

/-- The classes of the free lists, call by call: in a valid pool, (1) `release_size(p, n)` changes small
stack `i` only when `n` is exactly the class size `i + small_min`, and then
pushes `p` on it; (2) it changes large free list `j` only when
`2 ^ (j + threshold) ≤ n < block_size`, and then makes `p` its head item;
(3) `alloc(m)` with `small_min ≤ m < block_size` either pops the top of a
small stack `i` whose class size `i + small_min` is at least `m`, or pops the
head item of a large free list `j` whose class size `2 ^ (j + threshold)` is
at least `m`, or goes on to the grow loop, which pops no free list.  What a
large list links behind its head is not constrained here: a remainder
pushed twice can lead one list into another. -/
theorem recycled_runs_suffice :
    (∀ (pool : concurrent_charpool_t) (p n i : Nat) (push_ok : Bool), pool_valid pool →
      (concurrent_charpool_release_size pool p n push_ok).pool.small_string_free_lists.getD i []
        ≠ pool.small_string_free_lists.getD i [] →
      n = i + pool.small_string_min_size
      ∧ (concurrent_charpool_release_size pool p n push_ok).pool.small_string_free_lists.getD
          i [] = p :: pool.small_string_free_lists.getD i [])
    ∧ (∀ (pool : concurrent_charpool_t) (p n j : Nat) (push_ok : Bool), pool_valid pool →
      (concurrent_charpool_release_size pool p n push_ok).pool.free_lists.getD j
          CONCURRENT_CHARPOOL_NULL_FREE_LIST
        ≠ pool.free_lists.getD j CONCURRENT_CHARPOOL_NULL_FREE_LIST →
      2 ^ (j + pool.small_string_level_threshold) ≤ n ∧ n < pool.block_size
      ∧ ((concurrent_charpool_release_size pool p n push_ok).pool.free_lists.getD j
          CONCURRENT_CHARPOOL_NULL_FREE_LIST).item = p)
    ∧ (∀ (env : call_env) (fuel : Nat) (pool : concurrent_charpool_t) (m : Nat),
      pool_valid pool → pool.small_string_min_size ≤ m → m < pool.block_size →
      (∃ i a t, m ≤ i + pool.small_string_min_size
          ∧ i < pool.small_string_max_size - pool.small_string_min_size
          ∧ pool.small_string_free_lists.getD i [] = a :: t
          ∧ concurrent_charpool_alloc env fuel pool m
            = { result := some a
                pool := { pool with
                  small_string_free_lists := pool.small_string_free_lists.set i t }
                freed := [] })
      ∨ (∃ j a, m ≤ 2 ^ (j + pool.small_string_level_threshold)
          ∧ j < pool.num_free_lists ∧ a ≠ 0
          ∧ (pool.free_lists.getD j CONCURRENT_CHARPOOL_NULL_FREE_LIST).item = a
          ∧ concurrent_charpool_alloc env fuel pool m
            = { result := some a
                pool := { pool with
                  free_lists := pool.free_lists.set j
                    { version :=
                        (pool.free_lists.getD j CONCURRENT_CHARPOOL_NULL_FREE_LIST).version
                      item := read_next pool.free_string_next a } }
                freed := [] })
      ∨ concurrent_charpool_alloc env fuel pool m = grow_loop env m fuel 0 pool [] 0 0 0) := by
  refine ⟨?_, ?_, ?_⟩
  · intro pool p n i push_ok hv hne
    unfold concurrent_charpool_release_size concurrent_small_string_stack_push at hne ⊢
    by_cases h1 : p = 0 ∨ n < pool.small_string_min_size
    · simp only [h1, if_true] at hne; exact absurd rfl hne
    · simp only [h1, if_false] at hne ⊢
      by_cases h2 : n < pool.small_string_max_size
      · simp only [h2, if_true] at hne ⊢
        cases push_ok with
        | false => simp at hne
        | true =>
          simp only [if_true] at hne ⊢
          by_cases hi : n - pool.small_string_min_size = i
          · have hlen : i < pool.small_string_free_lists.length := by
              by_contra hlen
              rw [List.set_eq_of_length_le (by omega)] at hne
              exact hne rfl
            rw [hi]
            refine ⟨by omega, ?_⟩
            exact getD_set_eq _ _ _ _ hlen
          · rw [getD_set_ne _ _ _ _ _ hi] at hne
            exact absurd rfl hne
      · simp only [h2, if_false] at hne
        by_cases h3 : n ≥ pool.block_size
        · simp only [h3, if_true] at hne; exact absurd rfl hne
        · simp only [h3, if_false] at hne; exact absurd rfl hne
  · intro pool p n j push_ok hv hne
    unfold concurrent_charpool_release_size concurrent_small_string_stack_push at hne ⊢
    by_cases h1 : p = 0 ∨ n < pool.small_string_min_size
    · simp only [h1, if_true] at hne; exact absurd rfl hne
    · simp only [h1, if_false] at hne ⊢
      by_cases h2 : n < pool.small_string_max_size
      · simp only [h2, if_true] at hne
        cases push_ok <;> simp at hne
      · simp only [h2, if_false] at hne ⊢
        by_cases h3 : n ≥ pool.block_size
        · simp only [h3, if_true] at hne; exact absurd rfl hne
        · simp only [h3, if_false] at hne ⊢
          obtain ⟨_, _, hlt, hpow⟩ := release_level_spec pool hv n (by omega) (by omega)
          by_cases hj : release_level pool n = j
          · have hlen : j < pool.free_lists.length := by
              rw [hv.2.2.2.2.2.2.2.2.2.2, ← hj]; exact hlt
            rw [hj] at hpow ⊢
            refine ⟨hpow, by omega, ?_⟩
            rw [getD_set_eq _ _ _ _ hlen]
          · rw [getD_set_ne _ _ _ _ _ hj] at hne
            exact absurd rfl hne
  · intro env fuel pool m hv hm1 hm2
    rcases alloc_cases env fuel pool m hm1 hm2 with
      ⟨i, a, t, hi1, hi2, hget, hout⟩ | ⟨j, a, hj1, hj2, ha0, hitem, hout⟩ | hgrow
    · exact Or.inl ⟨i, a, t, by omega, hi2, hget, hout⟩
    · exact Or.inr (Or.inl ⟨j, a, alloc_level_spec pool hv m j hm2 hj1, hj2, ha0, hitem, hout⟩)
    · exact Or.inr (Or.inr hgrow)

/-- The classes of the free lists at the pool of the large-list scenario:
releasing the 100-byte run 4096 changes large list 3, whose class size
`2 ^ (3 + 3)` is at most 100. -/
theorem recycled_runs_suffice_witness :
    pool_valid (scenario_pool_1024 100)
    ∧ (concurrent_charpool_release_size (scenario_pool_1024 100) 4096 100 true).pool.free_lists.getD
          3 CONCURRENT_CHARPOOL_NULL_FREE_LIST
        ≠ (scenario_pool_1024 100).free_lists.getD 3 CONCURRENT_CHARPOOL_NULL_FREE_LIST
    ∧ 2 ^ (3 + 3) ≤ 100 ∧ 100 < 1024
    ∧ ((concurrent_charpool_release_size (scenario_pool_1024 100) 4096 100
          true).pool.free_lists.getD 3 CONCURRENT_CHARPOOL_NULL_FREE_LIST).item = 4096 :=
  ⟨by decide, by decide,
    recycled_runs_suffice.2.1 (scenario_pool_1024 100) 4096 100 3 true (by decide) (by decide)⟩

/-! ## The remainder of an exhausted head block -/

theorem release_remainder_skip (pool : concurrent_charpool_t) (data index : Nat)
    (push_ok : Bool) (h : ¬ index < pool.block_size) :
    release_remainder pool data index push_ok = { ok := false, pool := pool, freed := [] } := by
  unfold release_remainder
  rw [if_neg (fun hc => h hc.1)]

/-- The four ways in which an iteration of the grow loop that is not in the
block can end, in terms of the fetch and of the release of the remainder. -/
theorem grow_iter_cases (env : call_env) (size k : Nat) (pool : concurrent_charpool_t)
    (freed : List Nat) (last_block index spin_count : Nat) (b : concurrent_charpool_block_t)
    (rest : List concurrent_charpool_block_t) (hblock : pool.block = b :: rest)
    (hout : (fetch_block_index pool b rest last_block index size).2.1 = false) :
    ∃ rel : release_out,
      rel = release_remainder (fetch_block_index pool b rest last_block index size).2.2 b.data
        (fetch_block_index pool b rest last_block index size).1 (env.push_ok k)
      ∧ (grow_iter env size k pool freed last_block index spin_count
          = grow_step.again rel.pool (freed ++ rel.freed) last_block
              (fetch_block_index pool b rest last_block index size).1 spin_count
        ∨ grow_iter env size k pool freed last_block index spin_count
          = grow_step.again rel.pool (freed ++ rel.freed) (head_block_id pool)
              (fetch_block_index pool b rest last_block index size).1 (spin_count + 1)
        ∨ grow_iter env size k pool freed last_block index spin_count
          = grow_step.done { result := some 0, pool := rel.pool, freed := freed ++ rel.freed }
        ∨ grow_iter env size k pool freed last_block index spin_count
          = grow_step.done
              { result := some env.new_block
                pool := { rel.pool with
                  block := { block_index := size, data := env.new_block } :: rel.pool.block }
                freed := freed ++ rel.freed }) := by
  refine ⟨_, rfl, ?_⟩
  unfold grow_iter
  rw [hblock]
  simp only [hout, Bool.false_eq_true, if_false]
  split_ifs <;> simp

/-- An invariant of the grow loop on an exhausted head block.  `P` is a
property of the pool that does not depend on the chain and that releasing
the remainder at index `bi` keeps; it holds of the pool the loop ends with,
however the try-locks turn out, as long as the fill index does not wrap. -/
theorem grow_loop_invariant (env : call_env) (size data bi bs : Nat)
    (P : concurrent_charpool_t → Prop)
    (hblk : ∀ pool blocks, P pool → P { pool with block := blocks })
    (hrel : ∀ pool ok, P pool → P (release_remainder pool data bi ok).pool
      ∧ (release_remainder pool data bi ok).freed = [])
    (hbs : ∀ pool, P pool → pool.block_size = bs)
    (fuel : Nat) :
    ∀ (k : Nat) (pool : concurrent_charpool_t) (last_block index spin_count : Nat)
      (b : concurrent_charpool_block_t) (rest : List concurrent_charpool_block_t),
      P pool → pool.block = b :: rest → b.data = data → bs < b.block_index →
      b.block_index + fuel * size < SIZE_T_RANGE → (index = bi ∨ bs ≤ index) →
      P (grow_loop env size fuel k pool [] last_block index spin_count).pool
      ∧ (grow_loop env size fuel k pool [] last_block index spin_count).freed = [] := by
  induction fuel with
  | zero =>
    intro k pool last_block index spin_count b rest hP _ _ _ _ _
    exact ⟨hP, rfl⟩
  | succ f ih =>
    intro k pool last_block index spin_count b rest hP hblock hdata hfull hwrap hindex
    have hmul : (f + 1) * size = f * size + size := by ring
    have hPbs := hbs pool hP
    -- the fetch
    have hfetch : (fetch_block_index pool b rest last_block index size).2.1 = false
        ∧ P (fetch_block_index pool b rest last_block index size).2.2
        ∧ ((fetch_block_index pool b rest last_block index size).1 = bi
            ∧ (fetch_block_index pool b rest last_block index size).2.2 = pool
          ∨ bs ≤ (fetch_block_index pool b rest last_block index size).1)
        ∧ ∃ b1, (fetch_block_index pool b rest last_block index size).2.2.block = b1 :: rest
            ∧ b1.data = data ∧ bs < b1.block_index
            ∧ b1.block_index + f * size < SIZE_T_RANGE := by
      unfold fetch_block_index
      by_cases hne : head_block_id pool ≠ last_block
      · have hmod : (b.block_index + size) % SIZE_T_RANGE = b.block_index + size :=
          Nat.mod_eq_of_lt (by omega)
        simp only [if_pos hne, hmod]
        refine ⟨by simp; omega, hblk _ _ hP, Or.inr (by omega), _, rfl, hdata, ?_, ?_⟩
        · simp only []; omega
        · simp only []; omega
      · simp only [if_neg hne]
        refine ⟨by trivial, hP, ?_, b, hblock, hdata, hfull, by omega⟩
        rcases hindex with h | h
        · exact Or.inl ⟨h, by trivial⟩
        · exact Or.inr h
    obtain ⟨hout, hP1, hidx1, b1, hb1, hd1, hfull1, hwrap1⟩ := hfetch
    obtain ⟨rel, hreldef, hcases⟩ := grow_iter_cases env size k pool [] last_block index
      spin_count b rest hblock hout
    -- the release of the remainder
    have hrelP : P rel.pool ∧ rel.freed = [] := by
      rcases hidx1 with ⟨h1, _⟩ | h
      · rw [hreldef, h1, hdata]
        exact hrel _ _ hP1
      · rw [hreldef, release_remainder_skip _ _ _ _ (by rw [hbs _ hP1]; omega)]
        exact ⟨hP1, rfl⟩
    have hrelblock : rel.pool.block = b1 :: rest := by
      rw [hreldef, (release_remainder_frame _ _ _ _).1, hb1]
    have hidx2 : (fetch_block_index pool b rest last_block index size).1 = bi
        ∨ bs ≤ (fetch_block_index pool b rest last_block index size).1 := by
      rcases hidx1 with ⟨h1, _⟩ | h
      · exact Or.inl h1
      · exact Or.inr h
    have hfreed : ([] : List Nat) ++ rel.freed = [] := by rw [hrelP.2]; rfl
    unfold grow_loop
    rcases hcases with h | h | h | h
    · rw [h]; simp only []; rw [hfreed]
      exact ih _ _ _ _ _ b1 rest hrelP.1 hrelblock hd1 hfull1 hwrap1 hidx2
    · rw [h]; simp only []; rw [hfreed]
      exact ih _ _ _ _ _ b1 rest hrelP.1 hrelblock hd1 hfull1 hwrap1 hidx2
    · rw [h]; exact ⟨hrelP.1, hfreed⟩
    · rw [h]; exact ⟨hblk _ _ hrelP.1, hfreed⟩

/-- Releasing the remainder `[data + bi, data + block_size)` of the head block
of a valid pool `pool` (`0 < bi < block_size`) in a pool `cur` with the same
options: nothing goes to the system free, and the remainder is on its free
list afterwards when the push succeeds or when it was there before. -/
theorem release_remainder_spec (pool cur : concurrent_charpool_t) (data bi : Nat) (ok : Bool)
    (hv : pool_valid pool) (hbi1 : 0 < bi) (hbi2 : bi < pool.block_size)
    (hsame : same_options pool cur)
    (hfirst : (cur.small_string_free_lists = pool.small_string_free_lists
        ∧ cur.free_lists = pool.free_lists
        ∧ cur.free_string_next = pool.free_string_next ∧ ok = true)
      ∨ remainder_reclaimed pool (data + bi) (pool.block_size - bi) cur) :
    remainder_reclaimed pool (data + bi) (pool.block_size - bi)
      (release_remainder cur data bi ok).pool
    ∧ (release_remainder cur data bi ok).freed = [] := by
  obtain ⟨s1, s2, s3, s4, s5, s6, s7⟩ := hsame
  have hv2 := hv
  obtain ⟨v1, v2, v3, v4, v5, v6, v7, v8, v9, v10, v11⟩ := hv2
  unfold release_remainder
  by_cases hr : pool.block_size - bi < pool.small_string_min_size
  · -- too short: nothing is released
    have hg : ¬ (bi < cur.block_size
        ∧ cur.block_size - bi ≥ cur.small_string_min_size) := by
      rw [s1, s2]; omega
    rw [if_neg hg]
    refine ⟨?_, rfl⟩
    rcases hfirst with ⟨f1, f2, f3, _⟩ | hP
    · exact ⟨⟨s1, s2, s3, s4, s5, s6, s7⟩, fun h => by omega, fun h => by omega,
        fun _ => ⟨f1, f2, f3⟩⟩
    · exact hP
  · have hg : bi < cur.block_size ∧ cur.block_size - bi ≥ cur.small_string_min_size := by
      rw [s1, s2]; omega
    rw [if_pos hg, s1]
    have hq : data + bi ≠ 0 := by omega
    have hA : ¬ (data + bi = 0 ∨ pool.block_size - bi < cur.small_string_min_size) := by
      rw [s2]; intro h; rcases h with h | h
      · exact hq h
      · exact hr h
    unfold concurrent_charpool_release_size concurrent_small_string_stack_push
    simp only [hA, if_false]
    by_cases hsm : pool.block_size - bi < pool.small_string_max_size
    · -- a small stack
      have hsm2 : pool.block_size - bi < cur.small_string_max_size := by rw [s3]; exact hsm
      simp only [hsm2, if_true, s2]
      have hlen : pool.block_size - bi - pool.small_string_min_size
          < cur.small_string_free_lists.length := by rw [s6, v10]; omega
      cases ok with
      | true =>
        simp only [if_true]
        refine ⟨⟨?_, fun _ _ => ⟨_, getD_set_eq _ _ _ _ hlen⟩,
          fun h => by omega, fun h => by omega⟩, by trivial⟩
        refine ⟨?_, ?_, ?_, ?_, ?_, ?_, ?_⟩ <;> simp [s1, s2, s3, s4, s5, s6, s7]
      | false =>
        simp only [Bool.false_eq_true, if_false]
        refine ⟨?_, by trivial⟩
        rcases hfirst with ⟨_, _, _, f4⟩ | hP
        · exact absurd f4 (by simp)
        · exact hP
    · -- a large free list
      have hsm2 : ¬ pool.block_size - bi < cur.small_string_max_size := by rw [s3]; exact hsm
      have hbs2 : ¬ pool.block_size - bi ≥ cur.block_size := by rw [s1]; omega
      simp only [hsm2, hbs2, if_false]
      obtain ⟨hlev, _, hlt, _⟩ := release_level_spec pool hv (pool.block_size - bi)
        (by omega) (by omega)
      have hlev2 : release_level cur (pool.block_size - bi)
          = floor_log2 (pool.block_size - bi) - pool.small_string_level_threshold := by
        rw [← hlev]; unfold release_level; rw [s4]
      have hlen : floor_log2 (pool.block_size - bi) - pool.small_string_level_threshold
          < cur.free_lists.length := by rw [s7, v11, ← hlev]; exact hlt
      rw [hlev2]
      refine ⟨⟨?_, fun _ h => by omega, fun _ => ?_, fun h => by omega⟩, by trivial⟩
      · refine ⟨?_, ?_, ?_, ?_, ?_, ?_, ?_⟩ <;> simp [s1, s2, s3, s4, s5, s6, s7]
      · simp only []
        rw [getD_set_eq _ _ _ _ hlen]

theorem remainder_reclaimed_block (pool : concurrent_charpool_t) (q r : Nat)
    (cur : concurrent_charpool_t) (blocks : List concurrent_charpool_block_t)
    (h : remainder_reclaimed pool q r cur) :
    remainder_reclaimed pool q r { cur with block := blocks } := h

theorem alloc_small_top (env : call_env) (fuel : Nat) (cur : concurrent_charpool_t)
    (r q : Nat) (t : List Nat) (h1 : cur.small_string_min_size ≤ r)
    (h2 : r < cur.small_string_max_size) (h3 : r < cur.block_size)
    (htop : cur.small_string_free_lists.getD (r - cur.small_string_min_size) [] = q :: t) :
    (concurrent_charpool_alloc env fuel cur r).result = some q := by
  have hnb : ¬ r < cur.small_string_min_size := by omega
  have hnbs : ¬ r ≥ cur.block_size := by omega
  obtain ⟨c, hc⟩ : ∃ c, (cur.small_string_max_size - cur.small_string_min_size)
      - (r - cur.small_string_min_size) = c + 1 :=
    ⟨(cur.small_string_max_size - cur.small_string_min_size)
      - (r - cur.small_string_min_size) - 1, by omega⟩
  simp only [concurrent_charpool_alloc, hnb, hnbs, if_false, hc]
  rw [small_string_pop_loop_hit _ c _ q t htop]

/-- The pool and the freed pointers that `alloc(n)` leaves when its fetch on
the head block of a valid pool returns a fill index `bi` with
`bi < block_size < bi + n`. -/
theorem alloc_remainder_reclaimed (env : call_env) (fuel : Nat) (pool : concurrent_charpool_t)
    (n : Nat) (b : concurrent_charpool_block_t) (rest : List concurrent_charpool_block_t)
    (hv : pool_valid pool)
    (hmin : pool.small_string_min_size ≤ n) (hbs : n < pool.block_size)
    (hblock : pool.block = b :: rest)
    (hlow : b.block_index < pool.block_size) (hover : pool.block_size < b.block_index + n)
    (hwrap : b.block_index + (fuel + 1) * n < SIZE_T_RANGE)
    (hsmall : ∀ i, n - pool.small_string_min_size ≤ i →
      i < pool.small_string_max_size - pool.small_string_min_size →
      pool.small_string_free_lists.getD i [] = [])
    (hlarge : ∀ j, alloc_level pool n ≤ j → j < pool.num_free_lists →
      (pool.free_lists.getD j CONCURRENT_CHARPOOL_NULL_FREE_LIST).item = 0)
    (hpush : env.push_ok 0 = true) :
    remainder_reclaimed pool (b.data + b.block_index) (pool.block_size - b.block_index)
      (concurrent_charpool_alloc env (fuel + 1) pool n).pool
    ∧ (concurrent_charpool_alloc env (fuel + 1) pool n).freed = [] := by
  have h1 : ¬ n < pool.small_string_min_size := by omega
  have h2 : ¬ n ≥ pool.block_size := by omega
  have hmul : (fuel + 1) * n = fuel * n + n := by ring
  have hbi : 0 < b.block_index := by omega
  unfold concurrent_charpool_alloc
  simp only [h1, h2, if_false]
  rw [small_string_pop_loop_none pool _ _ (fun k hk1 hk2 => hsmall k hk1 (by omega))]
  simp only []
  rw [free_list_pop_loop_none pool _ _ (fun k hk1 hk2 => hlarge k hk1 (by omega))]
  simp only []
  -- the first iteration
  have hid : head_block_id pool ≠ 0 := by simp [head_block_id, hblock]
  have hmod : (b.block_index + n) % SIZE_T_RANGE = b.block_index + n :=
    Nat.mod_eq_of_lt (by omega)
  have hfetch : fetch_block_index pool b rest 0 0 n
      = (b.block_index, false,
          { pool with block := { b with block_index := b.block_index + n } :: rest }) := by
    unfold fetch_block_index
    rw [if_pos hid, hmod]
    simp only [Prod.mk.injEq, decide_eq_false_iff_not, and_true, true_and]
    omega
  obtain ⟨rel, hreldef, hcases⟩ := grow_iter_cases env n 0 pool [] 0 0 0 b rest hblock
    (by rw [hfetch])
  rw [hfetch, hpush] at hreldef
  rw [hfetch] at hcases
  simp only [] at hreldef hcases
  have hspec := release_remainder_spec pool
    { pool with block := { b with block_index := b.block_index + n } :: rest }
    b.data b.block_index true hv hbi hlow ⟨rfl, rfl, rfl, rfl, rfl, rfl, rfl⟩
    (Or.inl ⟨rfl, rfl, rfl, rfl⟩)
  rw [← hreldef] at hspec
  have hrelblock : rel.pool.block = { b with block_index := b.block_index + n } :: rest := by
    rw [hreldef, (release_remainder_frame _ _ _ _).1]
  have hfreed : ([] : List Nat) ++ rel.freed = [] := by rw [hspec.2]; rfl
  have hinv := fun k last spin => grow_loop_invariant env n b.data b.block_index pool.block_size
    (remainder_reclaimed pool (b.data + b.block_index) (pool.block_size - b.block_index))
    (fun cur blocks h => remainder_reclaimed_block pool _ _ cur blocks h)
    (fun cur ok h => release_remainder_spec pool cur b.data b.block_index ok hv hbi hlow h.1
      (Or.inr h))
    (fun cur h => h.1.1) fuel k rel.pool last b.block_index spin
    { b with block_index := b.block_index + n } rest hspec.1 hrelblock rfl
    (by simp only []; omega) (by simp only []; omega) (Or.inl rfl)
  unfold grow_loop
  rcases hcases with h | h | h | h
  · rw [h]; simp only []; rw [hfreed]; exact hinv _ _ _
  · rw [h]; simp only []; rw [hfreed]; exact hinv _ _ _
  · rw [h]; exact ⟨hspec.1, hfreed⟩
  · rw [h]; exact ⟨remainder_reclaimed_block pool _ _ _ _ hspec.1, hfreed⟩

/-- C8: in a valid pool in which no free list probed by `alloc(n)` holds a
run, when the fetch on the head block returns a fill index `bi` with
`bi < block_size < bi + n`, then, however the try-locks of the grow loop turn
out (the first small stack push finding a node, the fill index not wrapping
around within the iterations made), the remainder `r = block_size - bi` is
less than `block_size` and nothing is handed to the system free; if
`small_min ≤ r < small_max` the run `head.data + bi` is the top of the small
stack for size `r`, if `small_max ≤ r` it is the head item of large list
`floor_log2 r - threshold`, and if `r < small_min` the free lists are
unchanged; and for `small_min ≤ r < small_max` every following `alloc(r)`
returns `head.data + bi`. -/
theorem remainder_reclaim (env : call_env) (fuel : Nat) (pool : concurrent_charpool_t)
    (n : Nat) (b : concurrent_charpool_block_t) (rest : List concurrent_charpool_block_t)
    (hv : pool_valid pool)
    (hmin : pool.small_string_min_size ≤ n) (hbs : n < pool.block_size)
    (hblock : pool.block = b :: rest)
    (hlow : b.block_index < pool.block_size) (hover : pool.block_size < b.block_index + n)
    (hwrap : b.block_index + (fuel + 1) * n < SIZE_T_RANGE)
    (hsmall : ∀ i, n - pool.small_string_min_size ≤ i →
      i < pool.small_string_max_size - pool.small_string_min_size →
      pool.small_string_free_lists.getD i [] = [])
    (hlarge : ∀ j, alloc_level pool n ≤ j → j < pool.num_free_lists →
      (pool.free_lists.getD j CONCURRENT_CHARPOOL_NULL_FREE_LIST).item = 0)
    (hpush : env.push_ok 0 = true) :
    pool.block_size - b.block_index < pool.block_size
    ∧ (concurrent_charpool_alloc env (fuel + 1) pool n).freed = []
    ∧ (pool.small_string_min_size ≤ pool.block_size - b.block_index →
        pool.block_size - b.block_index < pool.small_string_max_size →
        ∃ t, (concurrent_charpool_alloc env (fuel + 1) pool n).pool.small_string_free_lists.getD
          (pool.block_size - b.block_index - pool.small_string_min_size) []
            = (b.data + b.block_index) :: t)
    ∧ (pool.small_string_max_size ≤ pool.block_size - b.block_index →
        ((concurrent_charpool_alloc env (fuel + 1) pool n).pool.free_lists.getD
          (floor_log2 (pool.block_size - b.block_index) - pool.small_string_level_threshold)
          CONCURRENT_CHARPOOL_NULL_FREE_LIST).item = b.data + b.block_index)
    ∧ (pool.block_size - b.block_index < pool.small_string_min_size →
        (concurrent_charpool_alloc env (fuel + 1) pool n).pool.small_string_free_lists
          = pool.small_string_free_lists
        ∧ (concurrent_charpool_alloc env (fuel + 1) pool n).pool.free_lists = pool.free_lists
        ∧ (concurrent_charpool_alloc env (fuel + 1) pool n).pool.free_string_next
          = pool.free_string_next)
    ∧ (pool.small_string_min_size ≤ pool.block_size - b.block_index →
        pool.block_size - b.block_index < pool.small_string_max_size →
        ∀ (env2 : call_env) (fuel2 : Nat),
          (concurrent_charpool_alloc env2 fuel2
            (concurrent_charpool_alloc env (fuel + 1) pool n).pool
            (pool.block_size - b.block_index)).result = some (b.data + b.block_index)) := by
  obtain ⟨⟨hsame, hs, hl, hn⟩, hfreed⟩ := alloc_remainder_reclaimed env fuel pool n b rest hv
    hmin hbs hblock hlow hover hwrap hsmall hlarge hpush
  obtain ⟨s1, s2, s3, _⟩ := hsame
  refine ⟨by omega, hfreed, hs, hl, hn, ?_⟩
  intro hr1 hr2 env2 fuel2
  obtain ⟨t, ht⟩ := hs hr1 hr2
  exact alloc_small_top env2 fuel2 _ _ _ t (by rw [s2]; exact hr1) (by rw [s3]; exact hr2)
    (by rw [s1]; omega) (by rw [s2]; exact ht)

/-- C8 at the spec scenario (`block_size = 64`, after `alloc(60)`): `alloc(8)`
under a try-lock that fails once; the 4-byte remainder 4156 is on the small
stack for size 4 and the following `alloc(4)` returns it. -/
theorem remainder_reclaim_witness :
    (64 - 60 < 64)
    ∧ (concurrent_charpool_alloc (contended_once_env 8192 0) 3 (scenario_pool 60) 8).freed = []
    ∧ (concurrent_charpool_alloc (single_thread_env 12288 0) 1
        (concurrent_charpool_alloc (contended_once_env 8192 0) 3 (scenario_pool 60) 8).pool
        4).result = some 4156 :=
  have h := remainder_reclaim (contended_once_env 8192 0) 2 (scenario_pool 60) 8
    { block_index := 60, data := 4096 } [] (by decide) (by decide) (by decide) rfl
    (by decide) (by decide) (by decide) (fun i _ _ => (scenario_pool_empty 60).1 i)
    (fun j _ _ => (scenario_pool_empty 60).2 j) rfl
  ⟨h.1, h.2.1, h.2.2.2.2.2 (by decide) (by decide) (single_thread_env 12288 0) 1⟩

/-! ## Disjointness of the live runs of a single-threaded client -/

theorem runs_disjoint_symm {x y : Nat × Nat} (h : runs_disjoint x y) : runs_disjoint y x :=
  Or.symm h

theorem runs_disjoint_shrink (a n c : Nat) (y : Nat × Nat) (hn : n ≤ c)
    (h : runs_disjoint (a, c) y) : runs_disjoint (a, n) y := by
  unfold runs_disjoint at h ⊢
  simp only [] at h ⊢
  omega

theorem class_runs_pop (class_size : Nat → Nat) (lists : List (List Nat)) :
    ∀ (i0 i a : Nat) (t : List Nat), lists.getD i [] = a :: t →
      List.Perm (class_runs class_size i0 lists)
        ((a, class_size (i0 + i)) :: class_runs class_size i0 (lists.set i t)) := by
  induction lists with
  | nil => intro i0 i a t h; simp at h
  | cons l rest ih =>
    intro i0 i a t h
    cases i with
    | zero =>
      simp only [List.getD_cons_zero] at h
      subst h
      simp [class_runs]
    | succ i =>
      simp only [List.getD_cons_succ] at h
      have hp := ih (i0 + 1) i a t h
      simp only [class_runs, List.set_cons_succ]
      have e : i0 + 1 + i = i0 + (i + 1) := by omega
      rw [e] at hp
      exact (List.Perm.append_left _ hp).trans List.perm_middle

theorem class_runs_push (class_size : Nat → Nat) (lists : List (List Nat)) :
    ∀ (i0 i p : Nat), i < lists.length →
      List.Perm (class_runs class_size i0 (lists.set i (p :: lists.getD i [])))
        ((p, class_size (i0 + i)) :: class_runs class_size i0 lists) := by
  induction lists with
  | nil => intro i0 i p h; simp at h
  | cons l rest ih =>
    intro i0 i p h
    cases i with
    | zero => simp [class_runs]
    | succ i =>
      have hp := ih (i0 + 1) i p (by simpa using h)
      simp only [class_runs, List.set_cons_succ, List.getD_cons_succ]
      have e : i0 + 1 + i = i0 + (i + 1) := by omega
      rw [e] at hp
      exact (List.Perm.append_left _ hp).trans List.perm_middle

theorem class_runs_mem (class_size : Nat → Nat) (lists : List (List Nat)) :
    ∀ (i0 i a : Nat), a ∈ lists.getD i [] →
      (a, class_size (i0 + i)) ∈ class_runs class_size i0 lists := by
  induction lists with
  | nil => intro i0 i a h; simp at h
  | cons l rest ih =>
    intro i0 i a h
    cases i with
    | zero =>
      simp only [List.getD_cons_zero] at h
      simp only [class_runs, List.mem_append, List.mem_map]
      exact Or.inl ⟨a, h, rfl⟩
    | succ i =>
      simp only [List.getD_cons_succ] at h
      have hm := ih (i0 + 1) i a h
      have e : i0 + 1 + i = i0 + (i + 1) := by omega
      rw [e] at hm
      simp only [class_runs, List.mem_append]
      exact Or.inr hm

theorem is_chain_pop (mem : List (Nat × Nat)) (head : Nat) (chain : List Nat)
    (h : is_chain mem head chain) (hne : head ≠ 0) :
    ∃ l, chain = head :: l ∧ is_chain mem (read_next mem head) l := by
  cases chain with
  | nil => exact absurd h hne
  | cons a l =>
    obtain ⟨h1, _, h3⟩ := h
    subst h1
    exact ⟨l, rfl, h3⟩

theorem is_chain_write (mem : List (Nat × Nat)) (p x : Nat) (chain : List Nat) :
    ∀ head, p ∉ chain → is_chain mem head chain → is_chain ((p, x) :: mem) head chain := by
  induction chain with
  | nil => intro head _ h; exact h
  | cons a l ih =>
    intro head hp h
    obtain ⟨h1, h2, h3⟩ := h
    have hpa : p ≠ a := fun e => hp (by rw [e]; exact List.mem_cons_self _ _)
    refine ⟨h1, h2, ?_⟩
    have hr : read_next ((p, x) :: mem) a = read_next mem a := by
      simp [read_next, hpa]
    rw [hr]
    exact ih _ (fun hm => hp (List.mem_cons_of_mem _ hm)) h3

theorem runs_ok_perm (bs d fill : Nat) (live free free1 : List (Nat × Nat))
    (hp : List.Perm free free1) (h : runs_ok bs d fill live free) :
    runs_ok bs d fill live free1 := by
  obtain ⟨h1, h2, h3⟩ := h
  refine ⟨?_, fun r hr => h2 r ((hp.mem_iff).2 hr), h3⟩
  exact (List.Perm.pairwise_iff (fun {x y} h => runs_disjoint_symm h)
    (List.Perm.append_left live hp)).1 h1

/-- A run taken from the free lists, handed out with a size of at most the
class size of its list. -/
theorem runs_ok_take (bs d fill : Nat) (live free rest : List (Nat × Nat)) (x : Nat × Nat)
    (n : Nat) (hp : List.Perm free (x :: rest)) (hn : n ≤ x.2) (hn0 : 0 < n) (hnbs : n < bs)
    (h : runs_ok bs d fill live free) :
    runs_ok bs d fill ((x.1, n) :: live) rest := by
  obtain ⟨h1, h2, h3⟩ := runs_ok_perm bs d fill live free (x :: rest) hp h
  have h1b : ((x :: live) ++ rest).Pairwise runs_disjoint :=
    (List.Perm.pairwise_iff (fun {x y} h => runs_disjoint_symm h)
      (@List.perm_middle _ x live rest)).1 h1
  rw [List.cons_append, List.pairwise_cons] at h1b
  have hx := h2 x (List.mem_cons_self _ _)
  refine ⟨?_, fun r hr => h2 r (List.mem_cons_of_mem _ hr), ?_⟩
  · rw [List.cons_append, List.pairwise_cons]
    exact ⟨fun y hy => runs_disjoint_shrink x.1 n x.2 y hn (h1b.1 y hy), h1b.2⟩
  · intro r hr
    rcases List.mem_cons.1 hr with hr | hr
    · rw [hr]
      exact ⟨hn0, Or.inl ⟨hnbs, hx.1, by simp only []; omega⟩⟩
    · exact h3 r hr

theorem runs_ok_tail (bs d fill : Nat) (live free : List (Nat × Nat)) (x : Nat × Nat)
    (h : runs_ok bs d fill (x :: live) free) : runs_ok bs d fill live free := by
  obtain ⟨h1, h2, h3⟩ := h
  rw [List.cons_append, List.pairwise_cons] at h1
  exact ⟨h1.2, h2, fun r hr => h3 r (List.mem_cons_of_mem _ hr)⟩

theorem remove_run_sublist (r : Nat × Nat) (l : List (Nat × Nat)) :
    List.Sublist (remove_run r l) l := by
  induction l with
  | nil => exact List.Sublist.refl _
  | cons x l ih =>
    unfold remove_run
    split_ifs
    · exact List.sublist_cons_self x l
    · exact List.Sublist.cons₂ x ih

theorem perm_cons_remove_run (r : Nat × Nat) (l : List (Nat × Nat)) (h : r ∈ l) :
    List.Perm l (r :: remove_run r l) := by
  induction l with
  | nil => simp at h
  | cons x l ih =>
    unfold remove_run
    by_cases hx : x = r
    · rw [if_pos hx, hx]
    · rw [if_neg hx]
      have hm : r ∈ l := by
        rcases List.mem_cons.1 h with h | h
        · exact absurd h.symm hx
        · exact h
      exact (List.Perm.cons x (ih hm)).trans (List.Perm.swap r x _)

theorem runs_ok_erase (bs d fill : Nat) (live free : List (Nat × Nat)) (x : Nat × Nat)
    (h : runs_ok bs d fill live free) : runs_ok bs d fill (remove_run x live) free := by
  obtain ⟨h1, h2, h3⟩ := h
  refine ⟨?_, h2, fun r hr => h3 r ((remove_run_sublist x live).subset hr)⟩
  exact h1.sublist (List.Sublist.append_right (remove_run_sublist x live) free)

/-- A live run shorter than a block given back to a free list whose class
size is at most the size of the run. -/
theorem runs_ok_give (bs d fill : Nat) (live free free1 : List (Nat × Nat)) (p n c : Nat)
    (hmem : (p, n) ∈ live) (hp : List.Perm free1 ((p, c) :: free)) (hc : c ≤ n)
    (hnbs : n < bs) (h : runs_ok bs d fill live free) :
    runs_ok bs d fill (remove_run (p, n) live) free1 := by
  obtain ⟨h1, h2, h3⟩ := h
  have hlive : List.Perm live ((p, n) :: remove_run (p, n) live) :=
    perm_cons_remove_run (p, n) live hmem
  have h1b : (((p, n) :: remove_run (p, n) live) ++ free).Pairwise runs_disjoint :=
    (List.Perm.pairwise_iff (fun {x y} h => runs_disjoint_symm h)
      (List.Perm.append_right free hlive)).1 h1
  rw [List.cons_append, List.pairwise_cons] at h1b
  have hpn := (h3 (p, n) hmem).2
  have hin : d ≤ p ∧ p + n ≤ d + fill := by
    rcases hpn with h | h
    · exact ⟨h.2.1, h.2.2⟩
    · have := h.1; simp only [] at this; omega
  apply runs_ok_perm bs d fill _ ((p, c) :: free) free1 hp.symm
  refine ⟨?_, ?_, fun r hr => h3 r ((remove_run_sublist (p, n) live).subset hr)⟩
  · have hmid : List.Perm ((p, c) :: (remove_run (p, n) live ++ free))
        (remove_run (p, n) live ++ (p, c) :: free) := List.perm_middle.symm
    apply (List.Perm.pairwise_iff (fun {x y} h => runs_disjoint_symm h) hmid).1
    rw [List.pairwise_cons]
    exact ⟨fun y hy => runs_disjoint_shrink p c n y hc (h1b.1 y hy), h1b.2⟩
  · intro r hr
    rcases List.mem_cons.1 hr with hr | hr
    · rw [hr]; simp only []; omega
    · exact h2 r hr

/-- A bump allocation of `n` bytes at the fill index. -/
theorem runs_ok_bump (bs d fill n : Nat) (live free : List (Nat × Nat)) (hn0 : 0 < n)
    (hnbs : n < bs) (hfit : fill + n ≤ bs) (h : runs_ok bs d fill live free) :
    runs_ok bs d (fill + n) ((d + fill, n) :: live) free := by
  obtain ⟨h1, h2, h3⟩ := h
  refine ⟨?_, fun r hr => ⟨(h2 r hr).1, by have := (h2 r hr).2; omega⟩, ?_⟩
  · rw [List.cons_append, List.pairwise_cons]
    refine ⟨fun y hy => ?_, h1⟩
    rcases List.mem_append.1 hy with hy | hy
    · rcases (h3 y hy).2 with hin | hout
      · right; simp only []; omega
      · have := hout.2
        unfold runs_disjoint at this ⊢
        simp only [] at this ⊢
        omega
    · right
      have := (h2 y hy).2
      simp only []; omega
  · intro r hr
    rcases List.mem_cons.1 hr with hr | hr
    · rw [hr]
      exact ⟨hn0, Or.inl ⟨hnbs, by simp only []; omega, by simp only []; omega⟩⟩
    · obtain ⟨hr1, hr2⟩ := h3 r hr
      refine ⟨hr1, ?_⟩
      rcases hr2 with hin | hout
      · exact Or.inl ⟨hin.1, hin.2.1, by omega⟩
      · exact Or.inr hout

/-- An oversize buffer handed out by the system allocator. -/
theorem runs_ok_system (bs d fill n ptr : Nat) (live free : List (Nat × Nat)) (hn0 : 0 < n)
    (hnbs : bs ≤ n) (hfill : fill ≤ bs) (hblock : runs_disjoint (ptr, n) (d, bs))
    (hlive : ∀ r ∈ live, runs_disjoint (ptr, n) r) (h : runs_ok bs d fill live free) :
    runs_ok bs d fill ((ptr, n) :: live) free := by
  obtain ⟨h1, h2, h3⟩ := h
  refine ⟨?_, h2, ?_⟩
  · rw [List.cons_append, List.pairwise_cons]
    refine ⟨fun y hy => ?_, h1⟩
    rcases List.mem_append.1 hy with hy | hy
    · exact hlive y hy
    · have := h2 y hy
      unfold runs_disjoint at hblock ⊢
      simp only [] at hblock ⊢
      omega
  · intro r hr
    rcases List.mem_cons.1 hr with hr | hr
    · rw [hr]; exact ⟨hn0, Or.inr ⟨hnbs, hblock⟩⟩
    · exact h3 r hr

theorem pool_valid_same (pool0 cur : concurrent_charpool_t) (hv : pool_valid pool0)
    (hsame : same_options pool0 cur) : pool_valid cur := by
  obtain ⟨s1, s2, s3, s4, s5, s6, s7⟩ := hsame
  unfold pool_valid at hv ⊢
  rw [s1, s2, s3, s4, s5, s6, s7]
  exact hv

/-- The grow loop of a single-threaded call on a pool with one block: either
the request fits and is served at the fill index, or the call does not
return within `fuel` iterations. -/
theorem grow_loop_single (new_block aligned_malloc fuel : Nat) (pool : concurrent_charpool_t)
    (n fill d : Nat) (hblock : pool.block = [{ block_index := fill, data := d }])
    (hfill : fill ≤ pool.block_size) (hn : n < pool.block_size)
    (hfuel : (fuel + 2) * pool.block_size ≤ SIZE_T_RANGE) :
    (grow_loop (single_thread_env new_block aligned_malloc) n fuel 0 pool [] 0 0 0).result = none
    ∨ (fill + n ≤ pool.block_size
      ∧ grow_loop (single_thread_env new_block aligned_malloc) n fuel 0 pool [] 0 0 0
        = { result := some (d + fill)
            pool := { pool with block := [{ block_index := fill + n, data := d }] }
            freed := [] }) := by
  cases fuel with
  | zero => left; rfl
  | succ f =>
    have hexp : (f + 1 + 2) * pool.block_size
        = (f + 1) * pool.block_size + pool.block_size + pool.block_size := by ring
    have hsz : pool.block_size < SIZE_T_RANGE := by
      have : 0 ≤ (f + 1) * pool.block_size := Nat.zero_le _
      omega
    by_cases hfit : fill + n ≤ pool.block_size
    · right
      exact ⟨hfit, grow_loop_in_block _ n f 0 pool [] 0 0 _ [] hblock hsz hfit⟩
    · left
      have hmul : (f + 1) * n ≤ (f + 1) * pool.block_size :=
        Nat.mul_le_mul_left _ (le_of_lt hn)
      refine (grow_loop_spins (single_thread_env new_block aligned_malloc) n (fun _ => rfl)
        (f + 1) 0 pool [] 0 0 _ [] hblock (by simp only []; omega) ?_).1
      simp only []
      generalize (f + 1) * n = A at hmul
      generalize (f + 1) * pool.block_size = B at hmul hexp
      omega

theorem free_runs_pop_small (pool : concurrent_charpool_t) (chains : List (List Nat))
    (i a : Nat) (t : List Nat) (h : pool.small_string_free_lists.getD i [] = a :: t) :
    List.Perm (free_runs pool chains)
      ((a, i + pool.small_string_min_size)
        :: free_runs { pool with small_string_free_lists := pool.small_string_free_lists.set i t }
            chains) := by
  unfold free_runs
  have hp := class_runs_pop (fun i => i + pool.small_string_min_size)
    pool.small_string_free_lists 0 i a t h
  simp only [Nat.zero_add] at hp
  exact List.Perm.append_right _ hp

theorem free_runs_pop_large (pool pool1 : concurrent_charpool_t) (chains : List (List Nat))
    (j a : Nat) (l : List Nat) (h : chains.getD j [] = a :: l)
    (h1 : pool1.small_string_free_lists = pool.small_string_free_lists)
    (h2 : pool1.small_string_min_size = pool.small_string_min_size)
    (h3 : pool1.small_string_level_threshold = pool.small_string_level_threshold) :
    List.Perm (free_runs pool chains)
      ((a, 2 ^ (j + pool.small_string_level_threshold)) :: free_runs pool1 (chains.set j l)) := by
  unfold free_runs
  rw [h1, h2, h3]
  have hp := class_runs_pop (fun j => 2 ^ (j + pool.small_string_level_threshold))
    chains 0 j a l h
  simp only [Nat.zero_add] at hp
  exact (List.Perm.append_left _ hp).trans List.perm_middle

theorem client_inv_alloc (fuel : Nat) (pool0 : concurrent_charpool_t) (d : Nat)
    (hv : pool_valid pool0) (hfuel : (fuel + 2) * pool0.block_size ≤ SIZE_T_RANGE)
    (s s1 : client_state) (size new_block aligned_malloc : Nat)
    (hinv : client_inv pool0 d s)
    (hstep : client_step fuel s (pool_call.alloc size new_block aligned_malloc) = some s1) :
    client_inv pool0 d s1 := by
  obtain ⟨hsame, fill, chains, hblock, hfill, hlen, hchain, hruns⟩ := hinv
  have hvc : pool_valid s.pool := pool_valid_same pool0 s.pool hv hsame
  have hsame2 := hsame
  obtain ⟨e1, e2, e3, e4, e5, e6, e7⟩ := hsame2
  have hvc2 := hvc
  obtain ⟨v1, v2, v3, v4, v5, v6, v7, v8, v9, v10, v11⟩ := hvc2
  -- what the step gives, in terms of the outcome of the call
  have hshape : ∀ (a : Nat) (pool1 : concurrent_charpool_t),
      concurrent_charpool_alloc (single_thread_env new_block aligned_malloc) fuel s.pool size
        = { result := some a, pool := pool1, freed := [] } →
      s1 = { pool := pool1, live := if a = 0 then s.live else (a, size) :: s.live } := by
    intro a pool1 hout
    simp only [client_step] at hstep
    rw [hout] at hstep
    split_ifs at hstep
    exact (Option.some.inj hstep).symm
  -- it is enough to show the invariant with the returned run live
  have hfinish : ∀ (a : Nat) (pool1 : concurrent_charpool_t) (fill1 : Nat)
      (chains1 : List (List Nat)),
      concurrent_charpool_alloc (single_thread_env new_block aligned_malloc) fuel s.pool size
        = { result := some a, pool := pool1, freed := [] } →
      same_options pool0 pool1 →
      pool1.block = [{ block_index := fill1, data := d }] → fill1 ≤ pool0.block_size →
      chains1.length = pool1.free_lists.length →
      (∀ j, is_chain pool1.free_string_next
        (pool1.free_lists.getD j CONCURRENT_CHARPOOL_NULL_FREE_LIST).item (chains1.getD j [])) →
      runs_ok pool0.block_size d fill1 ((a, size) :: s.live) (free_runs pool1 chains1) →
      client_inv pool0 d s1 := by
    intro a pool1 fill1 chains1 hout hs hb hf hl hc hr
    rw [hshape a pool1 hout]
    refine ⟨hs, fill1, chains1, hb, hf, hl, hc, ?_⟩
    by_cases ha : a = 0
    · simp only [ha, if_true]
      exact runs_ok_tail _ _ _ _ _ _ hr
    · simp only [ha, if_false]
      exact hr
  by_cases hsmall : size < s.pool.small_string_min_size
  · -- rejected
    have hout : concurrent_charpool_alloc (single_thread_env new_block aligned_malloc) fuel
        s.pool size = { result := some 0, pool := s.pool, freed := [] } := by
      simp [concurrent_charpool_alloc, hsmall]
    rw [hshape 0 s.pool hout]
    exact ⟨hsame, fill, chains, hblock, hfill, hlen, hchain, hruns⟩
  · by_cases hbig : size ≥ s.pool.block_size
    · -- served by the system allocator
      have hout : concurrent_charpool_alloc (single_thread_env new_block aligned_malloc) fuel
          s.pool size = { result := some aligned_malloc, pool := s.pool, freed := [] } := by
        simp [concurrent_charpool_alloc, hsmall, hbig, single_thread_env]
      rw [hshape aligned_malloc s.pool hout]
      refine ⟨hsame, fill, chains, hblock, hfill, hlen, hchain, ?_⟩
      by_cases ha : aligned_malloc = 0
      · simp only [ha, if_true]; exact hruns
      · simp only [ha, if_false]
        have hfresh : system_buffer_fresh s size aligned_malloc := by
          by_contra hnf
          simp only [client_step] at hstep
          rw [if_pos ⟨hbig, ha, hnf⟩] at hstep
          exact absurd hstep (by simp)
        have hb := hfresh.1 { block_index := fill, data := d } (by rw [hblock]; simp)
        simp only [] at hb
        rw [e1] at hb hbig
        exact runs_ok_system _ _ _ _ _ _ _ (by omega) hbig hfill hb hfresh.2 hruns
    · have hm1 : s.pool.small_string_min_size ≤ size := by omega
      have hm2 : size < s.pool.block_size := by omega
      have hsize0 : 0 < size := by omega
      have hsizebs : size < pool0.block_size := by omega
      rcases alloc_cases (single_thread_env new_block aligned_malloc) fuel s.pool size hm1 hm2
        with ⟨i, a, t, hi1, hi2, hget, hout⟩ | ⟨j, a, hj1, hj2, ha0, hitem, hout⟩ | hgrow
      · -- a small stack is popped
        refine hfinish a _ fill chains hout ?_ hblock hfill hlen hchain ?_
        · exact ⟨e1, e2, e3, e4, e5, by simp only [List.length_set]; exact e6, e7⟩
        · exact runs_ok_take _ _ _ _ _ _ (a, i + s.pool.small_string_min_size) size
            (free_runs_pop_small s.pool chains i a t hget) (by simp only []; omega) hsize0
            hsizebs hruns
      · -- a large free list is popped
        have hc := hchain j
        rw [hitem] at hc
        obtain ⟨l, hl1, hl2⟩ := is_chain_pop _ _ _ hc ha0
        have hjlen : j < s.pool.free_lists.length := by omega
        have hcls := alloc_level_spec s.pool hvc size j hm2 hj1
        refine hfinish a _ fill (chains.set j l) hout ?_ hblock hfill ?_ ?_ ?_
        · exact ⟨e1, e2, e3, e4, e5, e6, by simp only [List.length_set]; exact e7⟩
        · simp only [List.length_set]; exact hlen
        · intro j1
          by_cases hj : j = j1
          · subst hj
            simp only []
            rw [getD_set_eq _ _ _ _ hjlen, getD_set_eq _ _ _ _ (by omega)]
            exact hl2
          · simp only []
            rw [getD_set_ne _ _ _ _ _ hj, getD_set_ne _ _ _ _ _ hj]
            exact hchain j1
        · exact runs_ok_take _ _ _ _ _ _ (a, 2 ^ (j + s.pool.small_string_level_threshold))
            size (free_runs_pop_large s.pool _ chains j a l hl1 rfl rfl rfl)
            (by simp only []; exact hcls) hsize0 hsizebs hruns
      · -- the grow loop
        rcases grow_loop_single new_block aligned_malloc fuel s.pool size fill d hblock
            (by omega) hm2 (by rw [e1]; exact hfuel) with hnone | ⟨hfit, hout⟩
        · simp only [client_step] at hstep
          rw [hgrow, hnone] at hstep
          split_ifs at hstep
        · rw [← hgrow] at hout
          refine hfinish (d + fill) _ (fill + size) chains hout hsame rfl (by omega) hlen
            hchain ?_
          exact runs_ok_bump _ _ _ _ _ _ hsize0 hsizebs (by omega) hruns

theorem free_runs_push_small (pool : concurrent_charpool_t) (chains : List (List Nat))
    (i p : Nat) (hi : i < pool.small_string_free_lists.length) :
    List.Perm
      (free_runs { pool with
          small_string_free_lists := pool.small_string_free_lists.set i
            (p :: pool.small_string_free_lists.getD i []) } chains)
      ((p, i + pool.small_string_min_size) :: free_runs pool chains) := by
  unfold free_runs
  have hp := class_runs_push (fun i => i + pool.small_string_min_size)
    pool.small_string_free_lists 0 i p hi
  simp only [Nat.zero_add] at hp
  exact List.Perm.append_right _ hp

theorem free_runs_push_large (pool pool1 : concurrent_charpool_t) (chains : List (List Nat))
    (j p : Nat) (hj : j < chains.length)
    (h1 : pool1.small_string_free_lists = pool.small_string_free_lists)
    (h2 : pool1.small_string_min_size = pool.small_string_min_size)
    (h3 : pool1.small_string_level_threshold = pool.small_string_level_threshold) :
    List.Perm (free_runs pool1 (chains.set j (p :: chains.getD j [])))
      ((p, 2 ^ (j + pool.small_string_level_threshold)) :: free_runs pool chains) := by
  unfold free_runs
  rw [h1, h2, h3]
  have hp := class_runs_push (fun j => 2 ^ (j + pool.small_string_level_threshold))
    chains 0 j p hj
  simp only [Nat.zero_add] at hp
  exact (List.Perm.append_left _ hp).trans List.perm_middle

/-- A live run is on no large free list. -/
theorem live_not_on_chain (bs d fill : Nat) (pool : concurrent_charpool_t)
    (chains : List (List Nat)) (live : List (Nat × Nat)) (p n j : Nat)
    (hruns : runs_ok bs d fill live (free_runs pool chains)) (hmem : (p, n) ∈ live) :
    p ∉ chains.getD j [] := by
  intro hp
  have hfree : (p, 2 ^ (j + pool.small_string_level_threshold)) ∈ free_runs pool chains := by
    unfold free_runs
    apply List.mem_append_right
    have := class_runs_mem (fun j => 2 ^ (j + pool.small_string_level_threshold)) chains 0 j p hp
    simpa using this
  have hdis := (List.pairwise_append.1 hruns.1).2.2 (p, n) hmem _ hfree
  have hpos := (hruns.2.2 (p, n) hmem).1
  have hpow : 0 < 2 ^ (j + pool.small_string_level_threshold) := Nat.two_pow_pos _
  unfold runs_disjoint at hdis
  simp only [] at hdis hpos
  omega

theorem client_inv_release (fuel : Nat) (pool0 : concurrent_charpool_t) (d : Nat)
    (hv : pool_valid pool0) (s s1 : client_state) (str size : Nat) (push_ok : Bool)
    (hinv : client_inv pool0 d s)
    (hstep : client_step fuel s (pool_call.release str size push_ok) = some s1) :
    client_inv pool0 d s1 := by
  obtain ⟨hsame, fill, chains, hblock, hfill, hlen, hchain, hruns⟩ := hinv
  have hvc : pool_valid s.pool := pool_valid_same pool0 s.pool hv hsame
  have hsame2 := hsame
  obtain ⟨e1, e2, e3, e4, e5, e6, e7⟩ := hsame2
  have hvc2 := hvc
  obtain ⟨v1, v2, v3, v4, v5, v6, v7, v8, v9, v10, v11⟩ := hvc2
  simp only [client_step] at hstep
  by_cases hmem : (str, size) ∈ s.live
  · rw [if_pos hmem] at hstep
    have hs1 := (Option.some.inj hstep).symm
    -- the call changes nothing
    have hsame_state : ∀ ok, concurrent_charpool_release_size s.pool str size push_ok
        = { ok := ok, pool := s.pool, freed := [] } → ok = false → client_inv pool0 d s1 := by
      intro ok hout hok
      rw [hs1, hout, hok]
      exact ⟨hsame, fill, chains, hblock, hfill, hlen, hchain, hruns⟩
    by_cases hrej : str = 0 ∨ size < s.pool.small_string_min_size
    · exact hsame_state false (by simp [concurrent_charpool_release_size, hrej]) rfl
    · by_cases hsm : size < s.pool.small_string_max_size
      · cases push_ok with
        | false =>
          exact hsame_state false
            (by simp [concurrent_charpool_release_size, hrej, hsm,
              concurrent_small_string_stack_push]) rfl
        | true =>
          -- pushed on the small stack of its size
          have hout : concurrent_charpool_release_size s.pool str size true
              = { ok := true
                  pool := { s.pool with
                    small_string_free_lists := s.pool.small_string_free_lists.set
                      (size - s.pool.small_string_min_size)
                      (str :: s.pool.small_string_free_lists.getD
                        (size - s.pool.small_string_min_size) []) }
                  freed := [] } := by
            simp [concurrent_charpool_release_size, hrej, hsm,
              concurrent_small_string_stack_push]
          rw [hs1, hout]
          refine ⟨?_, fill, chains, hblock, hfill, hlen, hchain, ?_⟩
          · exact ⟨e1, e2, e3, e4, e5, by simp only [List.length_set]; exact e6, e7⟩
          · simp only [if_true]
            have hi : size - s.pool.small_string_min_size
                < s.pool.small_string_free_lists.length := by omega
            exact runs_ok_give _ _ _ _ _ _ str size
              (size - s.pool.small_string_min_size + s.pool.small_string_min_size) hmem
              (free_runs_push_small s.pool chains _ str hi) (by omega) (by omega) hruns
      · by_cases hbig : size ≥ s.pool.block_size
        · -- handed to the system free
          have hout : concurrent_charpool_release_size s.pool str size push_ok
              = { ok := true, pool := s.pool, freed := [str] } := by
            simp [concurrent_charpool_release_size, hrej, hsm, hbig]
          rw [hs1, hout]
          refine ⟨hsame, fill, chains, hblock, hfill, hlen, hchain, ?_⟩
          simp only [if_true]
          exact runs_ok_erase _ _ _ _ _ _ hruns
        · -- pushed on a large free list
          have hstr : str ≠ 0 := fun h => hrej (Or.inl h)
          have hout := release_size_large s.pool str size push_ok hstr v2 (by omega) (by omega)
          obtain ⟨_, _, hklt, hkpow⟩ := release_level_spec s.pool hvc size (by omega) (by omega)
          have hk1 : release_level s.pool size < s.pool.free_lists.length := by omega
          have hk2 : release_level s.pool size < chains.length := by omega
          rw [hs1, hout]
          refine ⟨?_, fill,
            chains.set (release_level s.pool size)
              (str :: chains.getD (release_level s.pool size) []), hblock, hfill, ?_, ?_, ?_⟩
          · exact ⟨e1, e2, e3, e4, e5, e6, by simp only [List.length_set]; exact e7⟩
          · simp only [List.length_set]; exact hlen
          · intro j1
            simp only []
            by_cases hj : release_level s.pool size = j1
            · subst hj
              rw [getD_set_eq _ _ _ _ hk1, getD_set_eq _ _ _ _ hk2]
              refine ⟨rfl, hstr, ?_⟩
              have hr : read_next ((str, (s.pool.free_lists.getD (release_level s.pool size)
                  CONCURRENT_CHARPOOL_NULL_FREE_LIST).item) :: s.pool.free_string_next) str
                  = (s.pool.free_lists.getD (release_level s.pool size)
                      CONCURRENT_CHARPOOL_NULL_FREE_LIST).item := by
                simp [read_next]
              rw [hr]
              exact is_chain_write _ _ _ _ _
                (live_not_on_chain _ _ _ _ _ _ _ _ _ hruns hmem) (hchain _)
            · rw [getD_set_ne _ _ _ _ _ hj, getD_set_ne _ _ _ _ _ hj]
              exact is_chain_write _ _ _ _ _
                (live_not_on_chain _ _ _ _ _ _ _ _ _ hruns hmem) (hchain j1)
          · simp only [if_true]
            exact runs_ok_give _ _ _ _ _ _ str size
              (2 ^ (release_level s.pool size + s.pool.small_string_level_threshold)) hmem
              (free_runs_push_large s.pool _ chains _ str hk2 rfl rfl rfl) hkpow (by omega)
              hruns
  · rw [if_neg hmem] at hstep
    exact absurd hstep (by simp)

theorem client_run_inv (fuel : Nat) (pool0 : concurrent_charpool_t) (d : Nat)
    (hv : pool_valid pool0) (hfuel : (fuel + 2) * pool0.block_size ≤ SIZE_T_RANGE)
    (calls : List pool_call) :
    ∀ (s s1 : client_state), client_inv pool0 d s → client_run fuel s calls = some s1 →
      client_inv pool0 d s1 := by
  induction calls with
  | nil =>
    intro s s1 hinv hrun
    simp only [client_run, Option.some.injEq] at hrun
    rw [← hrun]; exact hinv
  | cons call rest ih =>
    intro s s1 hinv hrun
    simp only [client_run] at hrun
    cases hstep : client_step fuel s call with
    | none => rw [hstep] at hrun; exact absurd hrun (by simp)
    | some s2 =>
      rw [hstep] at hrun
      simp only [] at hrun
      refine ih s2 s1 ?_ hrun
      cases call with
      | alloc size new_block aligned_malloc =>
        exact client_inv_alloc fuel pool0 d hv hfuel s s2 size new_block aligned_malloc hinv hstep
      | release str size push_ok =>
        exact client_inv_release fuel pool0 d hv s s2 str size push_ok hinv hstep

theorem class_runs_replicate_nil (class_size : Nat → Nat) (n : Nat) :
    ∀ i0, class_runs class_size i0 (List.replicate n []) = [] := by
  induction n with
  | zero => intro i0; rfl
  | succ m ih => intro i0; simp [List.replicate_succ, class_runs, ih]

theorem client_inv_init (options : charpool_options_t) (d : Nat) (pool : concurrent_charpool_t)
    (hinit : concurrent_charpool_init_options options d = some pool) :
    client_inv pool d { pool := pool, live := [] } := by
  obtain ⟨hblock, _, _, hlarge, hnext⟩ := init_options_fresh options d pool hinit
  have hsmall : pool.small_string_free_lists
      = List.replicate (pool.small_string_max_size - pool.small_string_min_size) [] := by
    unfold concurrent_charpool_init_options at hinit
    split_ifs at hinit
    have hp := Option.some.inj hinit
    subst hp
    rfl
  refine ⟨⟨rfl, rfl, rfl, rfl, rfl, rfl, rfl⟩, 0, List.replicate pool.free_lists.length [],
    hblock, Nat.zero_le _, by simp, ?_, ?_⟩
  · intro j
    simp only []
    rw [hlarge j, getD_replicate_default]
    rfl
  · have hfree : free_runs pool (List.replicate pool.free_lists.length []) = [] := by
      unfold free_runs
      rw [hsmall, class_runs_replicate_nil, class_runs_replicate_nil]
      rfl
    simp only []
    rw [hfree]
    exact ⟨List.Pairwise.nil, fun r hr => by simp at hr, fun r hr => by simp at hr⟩

/-- Disjointness as far as it holds, short of the exhausted head block: a
single-threaded client works on a pool fresh from
`concurrent_charpool_init_options` with valid options whose `small_max` is
at least the size of a pointer, so that the `next` field of a free string
lies inside the string.  After every sequence of `alloc` and `release_size`
calls that all return within `fuel` iterations of the grow loop, in which
each release passes a run returned by `alloc` and not yet released, with its
requested size, and in which the system allocator keeps its contract for
oversize buffers, any two runs the client holds do not overlap.  The bound
on `fuel` keeps the fill index from wrapping around: the calls covered are
those served by a free list, by the room left in the head block or by the
system allocator. -/
theorem live_runs_disjoint (fuel : Nat) (options : charpool_options_t) (d : Nat)
    (pool : concurrent_charpool_t) (calls : List pool_call) (s : client_state)
    (hinit : concurrent_charpool_init_options options d = some pool)
    (hv : pool_valid pool) (_hptr : POINTER_SIZE ≤ pool.small_string_max_size)
    (hfuel : (fuel + 2) * pool.block_size ≤ SIZE_T_RANGE)
    (hrun : client_run fuel { pool := pool, live := [] } calls = some s) :
    s.live.Pairwise runs_disjoint := by
  have hinv := client_run_inv fuel pool d hv hfuel calls _ s
    (client_inv_init options d pool hinit) hrun
  obtain ⟨_, fill, chains, _, _, _, _, hruns⟩ := hinv
  exact (List.pairwise_append.1 hruns.1).1

/-- Disjointness at the 64-byte pool: bump allocations, a run recycled through a small
stack, one through a large free list, an oversize buffer released and
another one kept; the five runs held at the end are pairwise disjoint. -/
theorem live_runs_disjoint_witness :
    client_run 5 { pool := scenario_pool 0, live := [] }
        [pool_call.alloc 8 8192 0, pool_call.alloc 4 8192 0, pool_call.alloc 16 8192 0,
          pool_call.release 4096 8 true, pool_call.release 4104 4 true,
          pool_call.alloc 3 8192 0, pool_call.alloc 8 8192 0, pool_call.alloc 64 8192 20000,
          pool_call.release 20000 64 true, pool_call.alloc 70 8192 30000,
          pool_call.alloc 30 8192 0]
      = some
          { pool := { scenario_pool 58 with
              free_lists := [{ version := 1, item := 0 }, { version := 0, item := 0 },
                { version := 0, item := 0 }]
              free_string_next := [(4096, 0)] }
            live := [(4124, 30), (30000, 70), (4096, 8), (4104, 3), (4108, 16)] }
    ∧ List.Pairwise runs_disjoint
        [(4124, 30), (30000, 70), (4096, 8), (4104, 3), (4108, 16)] :=
  ⟨by decide,
    live_runs_disjoint 5 ⟨1, 8, 64⟩ 4096 (scenario_pool 0)
      [pool_call.alloc 8 8192 0, pool_call.alloc 4 8192 0, pool_call.alloc 16 8192 0,
        pool_call.release 4096 8 true, pool_call.release 4104 4 true,
        pool_call.alloc 3 8192 0, pool_call.alloc 8 8192 0, pool_call.alloc 64 8192 20000,
        pool_call.release 20000 64 true, pool_call.alloc 70 8192 30000,
        pool_call.alloc 30 8192 0]
      { pool := { scenario_pool 58 with
          free_lists := [{ version := 1, item := 0 }, { version := 0, item := 0 },
            { version := 0, item := 0 }]
          free_string_next := [(4096, 0)] }
        live := [(4124, 30), (30000, 70), (4096, 8), (4104, 3), (4108, 16)] }
      (by decide) (by decide) (by decide) (by decide) (by decide)⟩

/-! ## Oversize requests -/

/-- C11: in a pool whose options obey `small_min ≤ small_max ≤ block_size`,
for every `n ≥ block_size`, `alloc(n)` returns what the system aligned
allocator returns and `release_size(p, n)` of a non-null `p` returns true
with `p` handed to the system aligned free; after either call the pool (the
small stacks, the large free lists with items and versions, the chain and
the fill of its blocks) is the same as before. -/
theorem oversize_bypass (env : call_env) (fuel : Nat) (pool : concurrent_charpool_t)
    (p n : Nat) (push_ok : Bool)
    (hmin : pool.small_string_min_size ≤ pool.small_string_max_size)
    (hmax : pool.small_string_max_size ≤ pool.block_size)
    (hn : pool.block_size ≤ n) (hp : p ≠ 0) :
    concurrent_charpool_alloc env fuel pool n
      = { result := some env.aligned_malloc, pool := pool, freed := [] }
    ∧ concurrent_charpool_release_size pool p n push_ok
      = { ok := true, pool := pool, freed := [p] } := by
  have h1 : ¬ n < pool.small_string_min_size := by omega
  have h2 : ¬ n < pool.small_string_max_size := by omega
  have h3 : n ≥ pool.block_size := hn
  constructor
  · simp [concurrent_charpool_alloc, h1, h3]
  · simp [concurrent_charpool_release_size, hp, h1, h2, h3]

/-- C11 at the calls of the test: `alloc(block_size)` and the
`release_size(.., block_size)` of the buffer 20000 it returned, on the
64-byte pool. -/
theorem oversize_bypass_witness :
    concurrent_charpool_alloc (single_thread_env 8192 20000) 1 (scenario_pool 40) 64
      = { result := some 20000, pool := scenario_pool 40, freed := [] }
    ∧ concurrent_charpool_release_size (scenario_pool 40) 20000 64 true
      = { ok := true, pool := scenario_pool 40, freed := [20000] } :=
  oversize_bypass (single_thread_env 8192 20000) 1 (scenario_pool 40) 20000 64 true
    (by decide) (by decide) (by decide) (by decide)

/-! ## Initialisation -/

/-- C13: when every allocation succeeds (the block buffer `d` is not `NULL`),
`init_options` succeeds if and only if `1 ≤ small_min ≤ small_max` and
`block_size` and `small_max` are powers of two; and when it succeeds, for
options within the ranges of the pool's fields (`uint8_t` sizes, a `size_t`
block size), the pool records the given `small_min`, `small_max` and
`block_size`, every small stack is empty, every large free list is the
sentinel (version 0, no item), no `next` field is written, and the chain is
one block with fill 0. -/
theorem init_validation (options : charpool_options_t) (d : Nat) (hd : d ≠ 0) :
    ((concurrent_charpool_init_options options d).isSome = true
      ↔ (1 ≤ options.small_string_min_size
        ∧ options.small_string_min_size ≤ options.small_string_max_size
        ∧ is_power_of_two options.block_size = true
        ∧ is_power_of_two options.small_string_max_size = true))
    ∧ ∀ pool, concurrent_charpool_init_options options d = some pool →
        options.small_string_max_size < UINT8_RANGE → options.block_size < SIZE_T_RANGE →
        pool.small_string_min_size = options.small_string_min_size
        ∧ pool.small_string_max_size = options.small_string_max_size
        ∧ pool.block_size = options.block_size
        ∧ (∀ stack ∈ pool.small_string_free_lists, stack = [])
        ∧ (∀ head ∈ pool.free_lists, head = CONCURRENT_CHARPOOL_NULL_FREE_LIST)
        ∧ pool.free_string_next = []
        ∧ pool.block = [{ block_index := 0, data := d }] := by
  constructor
  · unfold concurrent_charpool_init_options
    by_cases hbad : options.small_string_min_size < 1
        ∨ options.small_string_min_size > options.small_string_max_size
        ∨ is_power_of_two options.block_size = false
        ∨ is_power_of_two options.small_string_max_size = false
    · rw [if_pos hbad]
      simp only [Option.isSome_none, Bool.false_eq_true, false_iff]
      intro h
      obtain ⟨h1, h2, h3, h4⟩ := h
      rcases hbad with hb | hb | hb | hb
      · omega
      · omega
      · rw [h3] at hb; exact absurd hb (by simp)
      · rw [h4] at hb; exact absurd hb (by simp)
    · rw [if_neg hbad]
      simp only [hd, if_false, Option.isSome_some, true_iff]
      simp only [not_or, not_lt, Bool.not_eq_false] at hbad
      obtain ⟨b1, b2, b3, b4⟩ := hbad
      exact ⟨b1, by omega, b3, b4⟩
  · intro pool hinit hmax hbs
    unfold concurrent_charpool_init_options at hinit
    split_ifs at hinit with hbad
    have hp := Option.some.inj hinit
    subst hp
    simp only [not_or, not_lt, Bool.not_eq_false] at hbad
    obtain ⟨b1, b2, b3, b4⟩ := hbad
    refine ⟨Nat.mod_eq_of_lt (by omega), Nat.mod_eq_of_lt hmax, Nat.mod_eq_of_lt hbs,
      fun stack hs => (List.eq_of_mem_replicate hs), fun head hh => List.eq_of_mem_replicate hh,
      rfl, rfl⟩

/-- C13 at the options of the spec scenarios, `small_min = 1`, `small_max = 8`,
`block_size = 64`, with the block buffer at 4096. -/
theorem init_validation_witness :
    (concurrent_charpool_init_options ⟨1, 8, 64⟩ 4096).isSome = true
    ∧ ((concurrent_charpool_init_options ⟨1, 8, 64⟩ 4096).isSome = true
      ↔ (1 ≤ 1 ∧ 1 ≤ 8 ∧ is_power_of_two 64 = true ∧ is_power_of_two 8 = true))
    ∧ (scenario_pool 0).block = [{ block_index := 0, data := 4096 }] :=
  ⟨by decide, (init_validation ⟨1, 8, 64⟩ 4096 (by decide)).1,
    ((init_validation ⟨1, 8, 64⟩ 4096 (by decide)).2 (scenario_pool 0) (by decide)
      (by decide) (by decide)).2.2.2.2.2.2⟩

/-- C14, the claim fails: the options `small_min = 1`, `small_max = 8`,
`block_size = 4` are accepted although `block_size < small_max`; the pool
built has 255 large free lists, and in it size 5 is served by the system
allocator in `alloc` and pushed on a small stack, not handed to the system
free, in `release_size`. -/
theorem init_accepts_block_below_small_max :
    (concurrent_charpool_init_options ⟨1, 8, 4⟩ 4096).isSome = true
    ∧ ¬ (8 ≤ 4)
    ∧ (concurrent_charpool_init_options ⟨1, 8, 4⟩ 4096).map
        (fun pool => pool.num_free_lists) = some 255
    ∧ (concurrent_charpool_init_options ⟨1, 8, 4⟩ 4096).map
        (fun pool =>
          (concurrent_charpool_alloc (single_thread_env 8192 20000) 1 pool 5).result)
      = some (some 20000)
    ∧ (concurrent_charpool_init_options ⟨1, 8, 4⟩ 4096).map
        (fun pool => (concurrent_charpool_release_size pool 20000 5 true).freed) = some []
    ∧ (concurrent_charpool_init_options ⟨1, 8, 4⟩ 4096).map
        (fun pool =>
          (concurrent_charpool_release_size pool 20000 5
            true).pool.small_string_free_lists.getD 4 []) = some [20000] := by
  decide

/-- C14 as amended: every options value that `init_options` accepts has
`1 ≤ small_min ≤ small_max` and a `block_size` and a `small_max` that are
powers of two (so both are at least 1); `block_size ≥ small_max` is not
among the checks. -/
theorem init_accepted_options (options : charpool_options_t) (d : Nat)
    (hinit : (concurrent_charpool_init_options options d).isSome = true) :
    1 ≤ options.small_string_min_size
    ∧ options.small_string_min_size ≤ options.small_string_max_size
    ∧ is_power_of_two options.block_size = true
    ∧ is_power_of_two options.small_string_max_size = true
    ∧ 1 ≤ options.block_size
    ∧ 1 ≤ options.small_string_max_size := by
  unfold concurrent_charpool_init_options at hinit
  split_ifs at hinit with hbad
  · simp at hinit
  · simp at hinit
  · simp only [not_or, not_lt, Bool.not_eq_false] at hbad
    obtain ⟨b1, b2, b3, b4⟩ := hbad
    refine ⟨b1, by omega, b3, b4, ?_, by omega⟩
    have e : options.block_size = 2 ^ floor_log2 options.block_size := by
      simpa [is_power_of_two] using b3
    rw [e]
    exact Nat.one_le_two_pow

/-- C14 as amended, at the accepted options `(1, 8, 4)`. -/
theorem init_accepted_options_witness :
    (concurrent_charpool_init_options ⟨1, 8, 4⟩ 4096).isSome = true
    ∧ (1 ≤ 1 ∧ 1 ≤ 8 ∧ is_power_of_two 4 = true ∧ is_power_of_two 8 = true ∧ 1 ≤ 4 ∧ 1 ≤ 8) :=
  ⟨by decide, init_accepted_options ⟨1, 8, 4⟩ 4096 (by decide)⟩

/-- C18: for options within the ranges of the pool's fields with
`small_max ≤ block_size`, a successful `init_options` sets the threshold to
`floor_log2 small_max` and `num_free_lists` to
`max 1 (floor_log2 block_size - floor_log2 small_max)`; neither the
subtraction nor the 8-bit stores wrap (`floor_log2 small_max` is at most
`floor_log2 block_size`, which is below 64); and there are
`small_max - small_min` small stacks and `num_free_lists` large free lists. -/
theorem derived_constants (options : charpool_options_t) (d : Nat)
    (pool : concurrent_charpool_t)
    (hinit : concurrent_charpool_init_options options d = some pool)
    (hmax : options.small_string_max_size < UINT8_RANGE)
    (hbs : options.block_size < SIZE_T_RANGE)
    (hle : options.small_string_max_size ≤ options.block_size) :
    pool.small_string_level_threshold = floor_log2 options.small_string_max_size
    ∧ pool.num_free_lists
        = max 1 (floor_log2 options.block_size - floor_log2 options.small_string_max_size)
    ∧ floor_log2 options.small_string_max_size ≤ floor_log2 options.block_size
    ∧ floor_log2 options.block_size < 64
    ∧ pool.small_string_free_lists.length
        = options.small_string_max_size - options.small_string_min_size
    ∧ pool.free_lists.length = pool.num_free_lists := by
  have hv := init_options_valid options d pool hinit hmax hbs hle
  unfold concurrent_charpool_init_options at hinit
  split_ifs at hinit with hbad
  simp only [not_or, not_lt, Bool.not_eq_false] at hbad
  obtain ⟨b1, b2, b3, b4⟩ := hbad
  have e1 : options.small_string_min_size % UINT8_RANGE = options.small_string_min_size :=
    Nat.mod_eq_of_lt (by omega)
  have e2 : options.small_string_max_size % UINT8_RANGE = options.small_string_max_size :=
    Nat.mod_eq_of_lt hmax
  have e3 : options.block_size % SIZE_T_RANGE = options.block_size := Nat.mod_eq_of_lt hbs
  have f2 : floor_log2 options.block_size < 64 := floor_log2_lt_64 _ hbs
  have f3 : floor_log2 options.small_string_max_size ≤ floor_log2 options.block_size :=
    floor_log2_mono _ _ (by omega) hle hbs
  obtain ⟨_, _, _, _, _, _, _, v8, v9, v10, v11⟩ := hv
  have hp := Option.some.inj hinit
  have p2 : pool.small_string_max_size = options.small_string_max_size := by
    rw [← hp]; exact e2
  have p1 : pool.small_string_min_size = options.small_string_min_size := by
    rw [← hp]; exact e1
  have p3 : pool.block_size = options.block_size := by
    rw [← hp]; exact e3
  rw [p2] at v8
  rw [v8, p3] at v9
  refine ⟨v8, ?_, f3, f2, by rw [v10, p1, p2], v11⟩
  rw [v9]
  split_ifs with h0
  · rw [h0]; rfl
  · exact (Nat.max_eq_right (by omega)).symm

/-- C18 at the options `small_min = 1`, `small_max = 8`, `block_size = 1024`:
threshold 3 and 7 large free lists. -/
theorem derived_constants_witness :
    (scenario_pool_1024 0).small_string_level_threshold = floor_log2 8
    ∧ (scenario_pool_1024 0).num_free_lists = max 1 (floor_log2 1024 - floor_log2 8)
    ∧ floor_log2 8 ≤ floor_log2 1024
    ∧ floor_log2 1024 < 64
    ∧ (scenario_pool_1024 0).small_string_free_lists.length = 8 - 1
    ∧ (scenario_pool_1024 0).free_lists.length = (scenario_pool_1024 0).num_free_lists :=
  derived_constants ⟨1, 8, 1024⟩ 4096 (scenario_pool_1024 0) (by decide) (by decide) (by decide)
    (by decide)

/-! ## Array indices -/

theorem getElem_opt_eq_some_getD {α : Type} (l : List α) (i : Nat) (d : α) (h : i < l.length) :
    l[i]? = some (l.getD i d) := by
  rw [List.getD_eq_getElem?_getD, List.getElem?_eq_getElem h]
  rfl

theorem release_size_checked_eq (pool : concurrent_charpool_t) (hv : pool_valid pool)
    (str size : Nat) (push_ok : Bool) :
    concurrent_charpool_release_size_checked pool str size push_ok
      = some (concurrent_charpool_release_size pool str size push_ok) := by
  unfold concurrent_charpool_release_size_checked concurrent_charpool_release_size
  by_cases h1 : str = 0 ∨ size < pool.small_string_min_size
  · simp only [h1, if_true]
  · simp only [h1, if_false]
    have hmin : pool.small_string_min_size ≤ size := by
      by_contra hc; exact h1 (Or.inr (by omega))
    by_cases h2 : size < pool.small_string_max_size
    · simp only [h2, if_true]
      have hlen : size - pool.small_string_min_size < pool.small_string_free_lists.length := by
        obtain ⟨_, _, _, _, _, _, _, _, _, h10, _⟩ := hv
        omega
      rw [getElem_opt_eq_some_getD _ _ [] hlen]
      simp only []
      split_ifs <;> rfl
    · simp only [h2, if_false]
      by_cases h3 : size ≥ pool.block_size
      · simp only [h3, if_true]
      · simp only [h3, if_false]
        obtain ⟨_, _, hlt, _⟩ := release_level_spec pool hv size (by omega) (by omega)
        have hlen : release_level pool size < pool.free_lists.length := by
          obtain ⟨_, _, _, _, _, _, _, _, _, _, h11⟩ := hv
          omega
        rw [getElem_opt_eq_some_getD _ _ CONCURRENT_CHARPOOL_NULL_FREE_LIST hlen]

theorem release_size_same_options (pool : concurrent_charpool_t) (str size : Nat)
    (push_ok : Bool) :
    same_options pool (concurrent_charpool_release_size pool str size push_ok).pool := by
  obtain ⟨_, f2, f3, f4, f5, f6⟩ := release_size_frame pool str size push_ok
  refine ⟨f2, f3, f4, f5, f6, ?_, ?_⟩
  · unfold concurrent_charpool_release_size concurrent_small_string_stack_push
    cases push_ok <;> simp only [] <;> split_ifs <;> simp
  · unfold concurrent_charpool_release_size concurrent_small_string_stack_push
    cases push_ok <;> simp only [] <;> split_ifs <;> simp

theorem release_remainder_checked_eq (pool : concurrent_charpool_t) (hv : pool_valid pool)
    (data index : Nat) (push_ok : Bool) :
    release_remainder_checked pool data index push_ok
      = some (release_remainder pool data index push_ok) := by
  unfold release_remainder_checked release_remainder
  split_ifs
  · exact release_size_checked_eq pool hv _ _ _
  · rfl

theorem release_remainder_valid (pool : concurrent_charpool_t) (hv : pool_valid pool)
    (data index : Nat) (push_ok : Bool) :
    pool_valid (release_remainder pool data index push_ok).pool := by
  unfold release_remainder
  split_ifs
  · exact pool_valid_same pool _ hv (release_size_same_options pool _ _ _)
  · exact hv

theorem pool_valid_block (pool : concurrent_charpool_t) (hv : pool_valid pool)
    (blocks : List concurrent_charpool_block_t) : pool_valid { pool with block := blocks } :=
  hv

theorem fetch_block_index_valid (pool : concurrent_charpool_t) (hv : pool_valid pool)
    (b : concurrent_charpool_block_t) (rest : List concurrent_charpool_block_t)
    (last_block index size : Nat) :
    pool_valid (fetch_block_index pool b rest last_block index size).2.2 := by
  unfold fetch_block_index
  split_ifs
  · exact hv
  · exact hv

theorem grow_iter_checked_eq (env : call_env) (size k : Nat) (pool : concurrent_charpool_t)
    (hv : pool_valid pool) (freed : List Nat) (last_block index spin_count : Nat) :
    grow_iter_checked env size k pool freed last_block index spin_count
      = some (grow_iter env size k pool freed last_block index spin_count) := by
  unfold grow_iter_checked grow_iter
  cases hb : pool.block with
  | nil => rfl
  | cons b rest =>
    simp only []
    rw [release_remainder_checked_eq _ (fetch_block_index_valid pool hv b rest _ _ _)]
    simp only []
    split_ifs <;> rfl

theorem grow_iter_again_valid (env : call_env) (size k : Nat) (pool : concurrent_charpool_t)
    (hv : pool_valid pool) (freed : List Nat) (last_block index spin_count : Nat)
    (pool1 : concurrent_charpool_t) (freed1 : List Nat) (l1 i1 s1 : Nat)
    (h : grow_iter env size k pool freed last_block index spin_count
      = grow_step.again pool1 freed1 l1 i1 s1) : pool_valid pool1 := by
  unfold grow_iter at h
  cases hb : pool.block with
  | nil => rw [hb] at h; simp at h
  | cons b rest =>
    rw [hb] at h
    have hr := release_remainder_valid _ (fetch_block_index_valid pool hv b rest
      last_block index size) b.data
      (fetch_block_index pool b rest last_block index size).1 (env.push_ok k)
    simp only [] at h
    split_ifs at h <;> simp only [grow_step.again.injEq, reduceCtorEq] at h
    · rw [← h.1]; exact hr
    · rw [← h.1]; exact hr

theorem grow_loop_checked_eq (env : call_env) (size : Nat) (fuel : Nat) :
    ∀ (k : Nat) (pool : concurrent_charpool_t) (freed : List Nat)
      (last_block index spin_count : Nat), pool_valid pool →
      grow_loop_checked env size fuel k pool freed last_block index spin_count
        = some (grow_loop env size fuel k pool freed last_block index spin_count) := by
  induction fuel with
  | zero => intro k pool freed last_block index spin_count _; rfl
  | succ f ih =>
    intro k pool freed last_block index spin_count hv
    unfold grow_loop_checked grow_loop
    rw [grow_iter_checked_eq env size k pool hv]
    cases hstep : grow_iter env size k pool freed last_block index spin_count with
    | done out => rfl
    | again pool1 freed1 l1 i1 s1 =>
      simp only []
      exact ih (k + 1) pool1 freed1 l1 i1 s1
        (grow_iter_again_valid env size k pool hv freed last_block index spin_count
          pool1 freed1 l1 i1 s1 hstep)

theorem small_string_pop_loop_checked_eq (pool : concurrent_charpool_t) (count : Nat) :
    ∀ i, i + count ≤ pool.small_string_free_lists.length →
      small_string_pop_loop_checked pool count i = some (small_string_pop_loop pool count i) := by
  induction count with
  | zero => intro i _; rfl
  | succ c ih =>
    intro i h
    unfold small_string_pop_loop_checked small_string_pop_loop
    rw [getElem_opt_eq_some_getD _ _ [] (by omega : i < pool.small_string_free_lists.length)]
    simp only []
    cases hpop : concurrent_small_string_stack_pop (pool.small_string_free_lists.getD i []) with
    | none => simp only []; exact ih (i + 1) (by omega)
    | some x => rfl

theorem free_list_pop_loop_checked_eq (pool : concurrent_charpool_t) (count : Nat) :
    ∀ j, j + count ≤ pool.free_lists.length →
      free_list_pop_loop_checked pool count j = some (free_list_pop_loop pool count j) := by
  induction count with
  | zero => intro j _; rfl
  | succ c ih =>
    intro j h
    unfold free_list_pop_loop_checked free_list_pop_loop
    rw [getElem_opt_eq_some_getD _ _ CONCURRENT_CHARPOOL_NULL_FREE_LIST
      (by omega : j < pool.free_lists.length)]
    simp only []
    split_ifs
    · exact ih (j + 1) (by omega)
    · rfl

theorem alloc_checked_eq (env : call_env) (fuel : Nat) (pool : concurrent_charpool_t)
    (hv : pool_valid pool) (size : Nat) :
    concurrent_charpool_alloc_checked env fuel pool size
      = some (concurrent_charpool_alloc env fuel pool size) := by
  have hv2 := hv
  obtain ⟨_, _, _, _, _, _, _, _, _, h10, h11⟩ := hv2
  unfold concurrent_charpool_alloc_checked concurrent_charpool_alloc
  by_cases h1 : size < pool.small_string_min_size
  · simp only [h1, if_true]
  · simp only [h1, if_false]
    by_cases h2 : size ≥ pool.block_size
    · simp only [h2, if_true]
    · simp only [h2, if_false]
      have hsm : small_string_pop_loop_checked pool
          ((pool.small_string_max_size - pool.small_string_min_size)
            - (size - pool.small_string_min_size))
          (size - pool.small_string_min_size)
          = some (small_string_pop_loop pool
            ((pool.small_string_max_size - pool.small_string_min_size)
              - (size - pool.small_string_min_size))
            (size - pool.small_string_min_size)) := by
        by_cases hc : size - pool.small_string_min_size
            ≤ pool.small_string_max_size - pool.small_string_min_size
        · exact small_string_pop_loop_checked_eq pool _ _ (by omega)
        · have hz : (pool.small_string_max_size - pool.small_string_min_size)
              - (size - pool.small_string_min_size) = 0 := by omega
          rw [hz]
          rfl
      rw [hsm]
      cases hs : small_string_pop_loop pool
          ((pool.small_string_max_size - pool.small_string_min_size)
            - (size - pool.small_string_min_size))
          (size - pool.small_string_min_size) with
      | some x => rfl
      | none =>
        simp only []
        by_cases hl : alloc_level pool size ≤ pool.num_free_lists
        · rw [free_list_pop_loop_checked_eq pool _ _ (by omega)]
          cases hf : free_list_pop_loop pool (pool.num_free_lists - alloc_level pool size)
              (alloc_level pool size) with
          | some x => rfl
          | none => simp only []; exact grow_loop_checked_eq env size fuel 0 pool [] 0 0 0 hv
        · have hz : pool.num_free_lists - alloc_level pool size = 0 := by omega
          rw [hz]
          simp only [free_list_pop_loop_checked, free_list_pop_loop]
          exact grow_loop_checked_eq env size fuel 0 pool [] 0 0 0 hv

/-- C20: let `pool0` be the pool a successful `init_options` builds from
options within the ranges of the pool's fields with
`small_max ≤ block_size`, and `pool` any later state of it (same options,
same array lengths, any contents of the free lists and of the chain).  For
every size `n` with `small_min ≤ n < block_size`: `release_size` indexes the
small stacks at `n - small_min`, inside the array, when `n < small_max`, and
otherwise the large free lists at the level of line 218, which is
`floor_log2 n - threshold` without wrapping and inside the array; run with
every array access checked, `release_size(str, n)` and `alloc(n)` never
leave the arrays and do what the unchecked calls do, whatever the try-locks
and pushes turn out and for any number of iterations of the grow loop (the
release of the remainder included); and what `alloc(n)` pops, it pops at an
index inside the small stack array or the array of large free lists. -/
theorem free_list_indices_in_range (options : charpool_options_t) (d : Nat)
    (pool0 pool : concurrent_charpool_t) (n : Nat)
    (hinit : concurrent_charpool_init_options options d = some pool0)
    (hmax : options.small_string_max_size < UINT8_RANGE)
    (hbs : options.block_size < SIZE_T_RANGE)
    (hle : options.small_string_max_size ≤ options.block_size)
    (hsame : same_options pool0 pool)
    (hn1 : pool.small_string_min_size ≤ n) (hn2 : n < pool.block_size) :
    pool.small_string_free_lists.length
      = pool.small_string_max_size - pool.small_string_min_size
    ∧ pool.free_lists.length = pool.num_free_lists
    ∧ (n < pool.small_string_max_size →
        n - pool.small_string_min_size < pool.small_string_free_lists.length)
    ∧ (pool.small_string_max_size ≤ n →
        release_level pool n = floor_log2 n - pool.small_string_level_threshold
        ∧ pool.small_string_level_threshold ≤ floor_log2 n
        ∧ release_level pool n < pool.free_lists.length)
    ∧ (∀ (str : Nat) (push_ok : Bool),
        concurrent_charpool_release_size_checked pool str n push_ok
          = some (concurrent_charpool_release_size pool str n push_ok))
    ∧ (∀ (env : call_env) (fuel : Nat),
        concurrent_charpool_alloc_checked env fuel pool n
          = some (concurrent_charpool_alloc env fuel pool n))
    ∧ (∀ (env : call_env) (fuel : Nat),
        (∃ i a t, n - pool.small_string_min_size ≤ i
          ∧ i < pool.small_string_free_lists.length
          ∧ pool.small_string_free_lists.getD i [] = a :: t
          ∧ concurrent_charpool_alloc env fuel pool n
            = { result := some a
                pool := { pool with
                  small_string_free_lists := pool.small_string_free_lists.set i t }
                freed := [] })
        ∨ (∃ j a, alloc_level pool n ≤ j ∧ j < pool.free_lists.length ∧ a ≠ 0
          ∧ (pool.free_lists.getD j CONCURRENT_CHARPOOL_NULL_FREE_LIST).item = a
          ∧ concurrent_charpool_alloc env fuel pool n
            = { result := some a
                pool := { pool with
                  free_lists := pool.free_lists.set j
                    { version :=
                        (pool.free_lists.getD j CONCURRENT_CHARPOOL_NULL_FREE_LIST).version
                      item := read_next pool.free_string_next a } }
                freed := [] })
        ∨ concurrent_charpool_alloc env fuel pool n = grow_loop env n fuel 0 pool [] 0 0 0) := by
  have hv : pool_valid pool :=
    pool_valid_same pool0 pool (init_options_valid options d pool0 hinit hmax hbs hle) hsame
  have hv2 := hv
  obtain ⟨v1, v2, v3, v4, v5, v6, v7, v8, v9, v10, v11⟩ := hv2
  refine ⟨v10, v11, fun h => by omega, fun h => ?_,
    fun str push_ok => release_size_checked_eq pool hv str n push_ok,
    fun env fuel => alloc_checked_eq env fuel pool hv n, ?_⟩
  · obtain ⟨hlev, hthr, hlt, _⟩ := release_level_spec pool hv n h hn2
    exact ⟨hlev, hthr, by omega⟩
  · intro env fuel
    rcases alloc_cases env fuel pool n hn1 hn2 with
      ⟨i, a, t, hi1, hi2, hget, hout⟩ | ⟨j, a, hj1, hj2, ha0, hitem, hout⟩ | hgrow
    · exact Or.inl ⟨i, a, t, hi1, by omega, hget, hout⟩
    · exact Or.inr (Or.inl ⟨j, a, hj1, by omega, ha0, hitem, hout⟩)
    · exact Or.inr (Or.inr hgrow)

/-- C20 at a later state of the 1024-byte pool, the 100-byte run 4096 on
large list 3 and the 5-byte run 4200 on the small stack for size 5:
`release_size(4300, 100)` with checked accesses pushes on list 3 (level
`6 - 3`, below 7), `alloc(100)` with checked accesses finds nothing on
lists 4 to 6 and bump-allocates, as the unchecked call does, and
`alloc(3)` with checked accesses pops the stack at index 4. -/
theorem free_list_indices_in_range_witness :
    (concurrent_charpool_release_size_checked
        (concurrent_charpool_release_size
          (concurrent_charpool_release_size (scenario_pool_1024 500) 4096 100 true).pool
          4200 5 true).pool 4300 100 true).map
        (fun out => (out.ok, out.pool.free_lists.getD 3 CONCURRENT_CHARPOOL_NULL_FREE_LIST))
      = some (true, { version := 2, item := 4300 })
    ∧ (concurrent_charpool_alloc_checked (single_thread_env 8192 0) 1
        (concurrent_charpool_release_size
          (concurrent_charpool_release_size (scenario_pool_1024 500) 4096 100 true).pool
          4200 5 true).pool 100).map (fun out => out.result)
      = some (some 4596)
    ∧ (concurrent_charpool_alloc_checked (single_thread_env 8192 0) 1
        (concurrent_charpool_release_size
          (concurrent_charpool_release_size (scenario_pool_1024 500) 4096 100 true).pool
          4200 5 true).pool 3).map
        (fun out => (out.result, out.pool.small_string_free_lists.getD 4 []))
      = some (some 4200, [])
    ∧ concurrent_charpool_alloc_checked (single_thread_env 8192 0) 1
        (concurrent_charpool_release_size
          (concurrent_charpool_release_size (scenario_pool_1024 500) 4096 100 true).pool
          4200 5 true).pool 100
      = some (concurrent_charpool_alloc (single_thread_env 8192 0) 1
        (concurrent_charpool_release_size
          (concurrent_charpool_release_size (scenario_pool_1024 500) 4096 100 true).pool
          4200 5 true).pool 100)
    ∧ release_level
        (concurrent_charpool_release_size
          (concurrent_charpool_release_size (scenario_pool_1024 500) 4096 100 true).pool
          4200 5 true).pool 100 < 7 :=
  have h := free_list_indices_in_range ⟨1, 8, 1024⟩ 4096 (scenario_pool_1024 0)
    (concurrent_charpool_release_size
      (concurrent_charpool_release_size (scenario_pool_1024 500) 4096 100 true).pool
      4200 5 true).pool 100
    (by decide) (by decide) (by decide) (by decide) (by decide) (by decide) (by decide)
  ⟨by decide, by decide, by decide, h.2.2.2.2.2.1 (single_thread_env 8192 0) 1,
    (h.2.2.2.1 (by decide)).2.2⟩

/-! ## The grow loop when every try-lock fails -/

/-- An iteration of the grow loop that finds the head block it saw last and
fails to take the lock: the remainder is released once more, and the loop
runs again with one more spin when fewer than 1000 were made and ends with
`NULL` otherwise. -/
theorem grow_iter_contended (env : call_env) (size k : Nat) (pool : concurrent_charpool_t)
    (freed : List Nat) (index spin_count : Nat) (b : concurrent_charpool_block_t)
    (rest : List concurrent_charpool_block_t) (hblock : pool.block = b :: rest)
    (htry : env.trylock k = false) :
    grow_iter env size k pool freed (head_block_id pool) index spin_count
      = if spin_count < SPIN_LIMIT then
          grow_step.again (release_remainder pool b.data index (env.push_ok k)).pool
            (freed ++ (release_remainder pool b.data index (env.push_ok k)).freed)
            (head_block_id pool) index (spin_count + 1)
        else
          grow_step.done
            { result := some 0
              pool := (release_remainder pool b.data index (env.push_ok k)).pool
              freed := freed ++ (release_remainder pool b.data index (env.push_ok k)).freed } := by
  unfold grow_iter
  rw [hblock]
  simp [fetch_block_index, htry]

theorem grow_loop_contended (env : call_env) (size : Nat)
    (htry : ∀ k, env.trylock k = false) (fuel : Nat) :
    ∀ (k : Nat) (pool : concurrent_charpool_t) (freed : List Nat) (index spin_count : Nat)
      (b : concurrent_charpool_block_t) (rest : List concurrent_charpool_block_t),
      pool.block = b :: rest → spin_count ≤ SPIN_LIMIT →
      (grow_loop env size fuel k pool freed (head_block_id pool) index spin_count).pool.block
          = pool.block
      ∧ (SPIN_LIMIT + 1 - spin_count ≤ fuel →
          (grow_loop env size fuel k pool freed (head_block_id pool) index spin_count).result
            = some 0)
      ∧ (fuel < SPIN_LIMIT + 1 - spin_count →
          (grow_loop env size fuel k pool freed (head_block_id pool) index spin_count).result
            = none) := by
  induction fuel with
  | zero =>
    intro k pool freed index spin_count b rest _ hs
    exact ⟨rfl, fun h => by omega, fun _ => rfl⟩
  | succ f ih =>
    intro k pool freed index spin_count b rest hblock hs
    unfold grow_loop
    rw [grow_iter_contended env size k pool freed index spin_count b rest hblock (htry k)]
    have hfr := (release_remainder_frame pool b.data index (env.push_ok k)).1
    by_cases hlt : spin_count < SPIN_LIMIT
    · rw [if_pos hlt]
      simp only []
      have hid : head_block_id pool
          = head_block_id (release_remainder pool b.data index (env.push_ok k)).pool := by
        unfold head_block_id; rw [hfr]
      rw [hid]
      obtain ⟨i1, i2, i3⟩ := ih (k + 1)
        (release_remainder pool b.data index (env.push_ok k)).pool
        (freed ++ (release_remainder pool b.data index (env.push_ok k)).freed) index
        (spin_count + 1) b rest (by rw [hfr, hblock]) (by omega)
      exact ⟨by rw [i1, hfr], fun h => i2 (by omega), fun h => i3 (by omega)⟩
    · rw [if_neg hlt]
      exact ⟨hfr, fun _ => rfl, fun h => by omega⟩

theorem alloc_contended (env : call_env) (fuel : Nat) (pool : concurrent_charpool_t) (n : Nat)
    (b : concurrent_charpool_block_t) (rest : List concurrent_charpool_block_t)
    (htry : ∀ k, env.trylock k = false)
    (hmin : pool.small_string_min_size ≤ n) (hbs : n < pool.block_size)
    (hblock : pool.block = b :: rest)
    (hover : pool.block_size < (b.block_index + n) % SIZE_T_RANGE)
    (hsmall : ∀ i, n - pool.small_string_min_size ≤ i →
      i < pool.small_string_max_size - pool.small_string_min_size →
      pool.small_string_free_lists.getD i [] = [])
    (hlarge : ∀ j, alloc_level pool n ≤ j → j < pool.num_free_lists →
      (pool.free_lists.getD j CONCURRENT_CHARPOOL_NULL_FREE_LIST).item = 0) :
    (fuel ≤ SPIN_LIMIT → (concurrent_charpool_alloc env fuel pool n).result = none)
    ∧ (SPIN_LIMIT + 1 ≤ fuel → (concurrent_charpool_alloc env fuel pool n).result = some 0)
    ∧ (1 ≤ fuel →
        (concurrent_charpool_alloc env fuel pool n).pool.block
          = { b with block_index := (b.block_index + n) % SIZE_T_RANGE } :: rest) := by
  have h1 : ¬ n < pool.small_string_min_size := by omega
  have h2 : ¬ n ≥ pool.block_size := by omega
  unfold concurrent_charpool_alloc
  simp only [h1, h2, if_false]
  rw [small_string_pop_loop_none pool _ _ (fun k hk1 hk2 => hsmall k hk1 (by omega))]
  simp only []
  rw [free_list_pop_loop_none pool _ _ (fun k hk1 hk2 => hlarge k hk1 (by omega))]
  simp only []
  cases fuel with
  | zero => exact ⟨fun _ => rfl, fun h => by omega, fun h => by omega⟩
  | succ f =>
    -- the first iteration: the one fetch-and-add
    have hid : head_block_id pool ≠ 0 := by simp [head_block_id, hblock]
    have hnot : ¬ ((b.block_index + n) % SIZE_T_RANGE ≤ pool.block_size) := by omega
    obtain ⟨pool1, hpool1⟩ : ∃ pool1 : concurrent_charpool_t, pool1 = { pool with
        block := { b with block_index := (b.block_index + n) % SIZE_T_RANGE } :: rest } :=
      ⟨_, rfl⟩
    have hiter : grow_iter env n 0 pool [] 0 0 0
        = grow_step.again (release_remainder pool1 b.data b.block_index (env.push_ok 0)).pool
            ([] ++ (release_remainder pool1 b.data b.block_index (env.push_ok 0)).freed)
            (head_block_id pool) b.block_index 1 := by
      unfold grow_iter
      rw [hblock, hpool1]
      simp [fetch_block_index, hid, hnot, htry, SPIN_LIMIT, head_block_id, hblock]
    have hfr := (release_remainder_frame pool1 b.data b.block_index (env.push_ok 0)).1
    have hb1 : pool1.block
        = { b with block_index := (b.block_index + n) % SIZE_T_RANGE } :: rest := by
      rw [hpool1]
    have hid2 : head_block_id pool
        = head_block_id (release_remainder pool1 b.data b.block_index (env.push_ok 0)).pool := by
      unfold head_block_id; rw [hfr, hb1, hblock]; rfl
    unfold grow_loop
    rw [hiter]
    simp only []
    rw [hid2]
    obtain ⟨i1, i2, i3⟩ := grow_loop_contended env n htry f 1
      (release_remainder pool1 b.data b.block_index (env.push_ok 0)).pool
      ([] ++ (release_remainder pool1 b.data b.block_index (env.push_ok 0)).freed)
      b.block_index 1 _ rest (by rw [hfr, hb1]) (by unfold SPIN_LIMIT; omega)
    refine ⟨fun h => i3 (by omega), fun h => i2 (by omega), fun _ => ?_⟩
    rw [i1, hfr, hb1]

/-- C19: when no free list probed by `alloc(n)` holds a run, the head block
cannot hold `n` more bytes and every try-lock fails, `alloc(n)` has not
returned after 1000 iterations of the grow loop (one relax each) and
returns `NULL` in iteration 1001; the chain is then the old one with the
fill of its head advanced by `n` once: no block is installed and the
fetch-and-add is made once. -/
theorem spin_bound (env : call_env) (fuel : Nat) (pool : concurrent_charpool_t) (n : Nat)
    (b : concurrent_charpool_block_t) (rest : List concurrent_charpool_block_t)
    (htry : ∀ k, env.trylock k = false)
    (hmin : pool.small_string_min_size ≤ n) (hbs : n < pool.block_size)
    (hblock : pool.block = b :: rest)
    (hover : pool.block_size < (b.block_index + n) % SIZE_T_RANGE)
    (hsmall : ∀ i, n - pool.small_string_min_size ≤ i →
      i < pool.small_string_max_size - pool.small_string_min_size →
      pool.small_string_free_lists.getD i [] = [])
    (hlarge : ∀ j, alloc_level pool n ≤ j → j < pool.num_free_lists →
      (pool.free_lists.getD j CONCURRENT_CHARPOOL_NULL_FREE_LIST).item = 0) :
    (fuel ≤ SPIN_LIMIT → (concurrent_charpool_alloc env fuel pool n).result = none)
    ∧ (SPIN_LIMIT + 1 ≤ fuel → (concurrent_charpool_alloc env fuel pool n).result = some 0)
    ∧ (1 ≤ fuel →
        (concurrent_charpool_alloc env fuel pool n).pool.block
          = { b with block_index := (b.block_index + n) % SIZE_T_RANGE } :: rest) :=
  alloc_contended env fuel pool n b rest htry hmin hbs hblock hover hsmall hlarge

/-- C19 on the full 64-byte block: `alloc(8)` under a lock that is never
free has not returned after 1000 iterations and returns `NULL` in iteration
1001, the fill advanced once from 64 to 72. -/
theorem spin_bound_witness :
    (concurrent_charpool_alloc (always_contended_env 8192 0) 1000 (scenario_pool 64) 8).result
      = none
    ∧ (concurrent_charpool_alloc (always_contended_env 8192 0) 1001 (scenario_pool 64) 8).result
      = some 0
    ∧ (concurrent_charpool_alloc (always_contended_env 8192 0) 1001
        (scenario_pool 64) 8).pool.block = [{ block_index := 72, data := 4096 }] :=
  have h (fuel : Nat) := spin_bound (always_contended_env 8192 0) fuel (scenario_pool 64) 8
    { block_index := 64, data := 4096 } [] (fun _ => rfl) (by decide) (by decide) rfl
    (by decide) (fun i _ _ => (scenario_pool_empty 64).1 i)
    (fun j _ _ => (scenario_pool_empty 64).2 j)
  ⟨(h 1000).1 (by decide), (h 1001).2.1 (by decide), (h 1001).2.2 (by decide)⟩

/-! ## Small requests and the large free lists -/

theorem small_string_pop_loop_first (pool : concurrent_charpool_t) (count : Nat) :
    ∀ (i k a : Nat) (t : List Nat), i ≤ k → k < i + count →
      (∀ j, i ≤ j → j < k → pool.small_string_free_lists.getD j [] = []) →
      pool.small_string_free_lists.getD k [] = a :: t →
      small_string_pop_loop pool count i
        = some (a,
            { pool with small_string_free_lists := pool.small_string_free_lists.set k t }) := by
  induction count with
  | zero => intro i k a t h1 h2; omega
  | succ c ih =>
    intro i k a t h1 h2 hz hk
    by_cases hik : i = k
    · subst hik
      exact small_string_pop_loop_hit pool c i a t hk
    · unfold small_string_pop_loop
      rw [hz i (le_refl _) (by omega)]
      simp only [concurrent_small_string_stack_pop]
      exact ih (i + 1) k a t (by omega) (by omega) (fun j hj1 hj2 => hz j (by omega) hj2) hk

/-- C17, the claim fails: on the 1024-byte pool (`small_max = 8`) with every
small stack empty and the 100-byte run 4096 on large free list 3,
`alloc(5)` returns 4096 and takes it off that list: the level of line 253 is
`ceil_log2 5 - 3 = 0`, below the 7 large free lists.  And in the pool built
from the options `small_min = 1`, `small_max = 8`, `block_size = 4`, which
line 109 accepts, `alloc(5)` is served by neither a small stack nor the
block but by the system allocator (buffer 24576), and the level of
`alloc(1)`, `0 - 3` in 8 bits, is 253, below the 255 large free lists of
that pool. -/
theorem small_request_takes_large_run :
    (1 ≤ 5 ∧ 5 < 8)
    ∧ (concurrent_charpool_release_size (scenario_pool_1024 100) 4096 100
        true).pool.small_string_free_lists = List.replicate 7 []
    ∧ ((concurrent_charpool_release_size (scenario_pool_1024 100) 4096 100
        true).pool.free_lists.getD 3 CONCURRENT_CHARPOOL_NULL_FREE_LIST).item = 4096
    ∧ alloc_level (scenario_pool_1024 100) 5 = 0
    ∧ (concurrent_charpool_alloc (single_thread_env 8192 0) 1
        (concurrent_charpool_release_size (scenario_pool_1024 100) 4096 100 true).pool
        5).result = some 4096
    ∧ ((concurrent_charpool_alloc (single_thread_env 8192 0) 1
        (concurrent_charpool_release_size (scenario_pool_1024 100) 4096 100 true).pool
        5).pool.free_lists.getD 3 CONCURRENT_CHARPOOL_NULL_FREE_LIST).item = 0
    ∧ (concurrent_charpool_alloc (single_thread_env 8192 0) 1
        (concurrent_charpool_release_size (scenario_pool_1024 100) 4096 100 true).pool
        5).pool.block = [{ block_index := 100, data := 4096 }]
    ∧ (concurrent_charpool_init_options ⟨1, 8, 4⟩ 4096).map (fun pool =>
        (decide (pool.small_string_min_size ≤ 5 ∧ 5 < pool.small_string_max_size),
          (concurrent_charpool_alloc (single_thread_env 8192 24576) 1 pool 5).result,
          (concurrent_charpool_alloc (single_thread_env 8192 24576) 1 pool 5).pool.block,
          alloc_level pool 1, pool.num_free_lists))
      = some (true, some 24576, [{ block_index := 0, data := 4096 }], 253, 255) := by
  decide

/-- C17 as amended: in a valid pool (the options, derived constants and array
lengths as `init_options` sets them, with `small_max ≤ block_size`), for
`small_min ≤ n < small_max`,
(1) `alloc(n)` pops the first non-empty small stack of class at least `n`;
(2) when all of those are empty and `ceil_log2 n < threshold` (`n` is at most
half of `small_max`) the 8-bit level of line 253 wraps to a value of at
least `num_free_lists`, no large free list is probed and the call goes on
to the grow loop (bump allocation or growth); (3) when all of those are
empty and `ceil_log2 n = threshold` the level is 0 and `alloc(n)` pops the
first non-empty large free list, going on to the grow loop only when every
large free list is empty. -/
theorem small_request_service (env : call_env) (fuel : Nat) (pool : concurrent_charpool_t)
    (n : Nat) (hv : pool_valid pool)
    (hn1 : pool.small_string_min_size ≤ n) (hn2 : n < pool.small_string_max_size) :
    ceil_log2 n ≤ pool.small_string_level_threshold
    ∧ (∀ (k a : Nat) (t : List Nat), n - pool.small_string_min_size ≤ k →
        k < pool.small_string_max_size - pool.small_string_min_size →
        (∀ i, n - pool.small_string_min_size ≤ i → i < k →
          pool.small_string_free_lists.getD i [] = []) →
        pool.small_string_free_lists.getD k [] = a :: t →
        concurrent_charpool_alloc env fuel pool n
          = { result := some a
              pool := { pool with
                small_string_free_lists := pool.small_string_free_lists.set k t }
              freed := [] })
    ∧ ((∀ i, n - pool.small_string_min_size ≤ i →
          i < pool.small_string_max_size - pool.small_string_min_size →
          pool.small_string_free_lists.getD i [] = []) →
        (ceil_log2 n < pool.small_string_level_threshold →
          pool.num_free_lists ≤ alloc_level pool n
          ∧ concurrent_charpool_alloc env fuel pool n = grow_loop env n fuel 0 pool [] 0 0 0)
        ∧ (ceil_log2 n = pool.small_string_level_threshold →
          alloc_level pool n = 0
          ∧ (∀ j, j < pool.num_free_lists →
              (∀ i, i < j →
                (pool.free_lists.getD i CONCURRENT_CHARPOOL_NULL_FREE_LIST).item = 0) →
              (pool.free_lists.getD j CONCURRENT_CHARPOOL_NULL_FREE_LIST).item ≠ 0 →
              concurrent_charpool_alloc env fuel pool n
                = { result := some (pool.free_lists.getD j
                      CONCURRENT_CHARPOOL_NULL_FREE_LIST).item
                    pool := { pool with
                      free_lists := pool.free_lists.set j
                        { version := (pool.free_lists.getD j
                            CONCURRENT_CHARPOOL_NULL_FREE_LIST).version
                          item := read_next pool.free_string_next
                            (pool.free_lists.getD j CONCURRENT_CHARPOOL_NULL_FREE_LIST).item } }
                    freed := [] })
          ∧ ((∀ j, j < pool.num_free_lists →
                (pool.free_lists.getD j CONCURRENT_CHARPOOL_NULL_FREE_LIST).item = 0) →
              concurrent_charpool_alloc env fuel pool n
                = grow_loop env n fuel 0 pool [] 0 0 0))) := by
  obtain ⟨e1, e2, e3, e4, e5⟩ := pool_valid_pow pool hv
  obtain ⟨v1, v2, v3, v4, v5, v6, v7, v8, v9, v10, v11⟩ := hv
  have hnR : n ≤ SIZE_T_RANGE := by omega
  have hcl : ceil_log2 n ≤ pool.small_string_level_threshold :=
    ceil_log2_le n _ hnR (by rw [← e1]; omega)
  have h1 : ¬ n < pool.small_string_min_size := by omega
  have h2 : ¬ n ≥ pool.block_size := by omega
  refine ⟨hcl, ?_, ?_⟩
  · intro k a t hk1 hk2 hz hk
    unfold concurrent_charpool_alloc
    simp only [h1, h2, if_false]
    rw [small_string_pop_loop_first pool _ _ k a t hk1 (by omega) hz hk]
  · intro hsmall
    have hnone := small_string_pop_loop_none pool
      ((pool.small_string_max_size - pool.small_string_min_size)
        - (n - pool.small_string_min_size)) (n - pool.small_string_min_size)
      (fun k hk1 hk2 => hsmall k hk1 (by omega))
    constructor
    · intro hlt
      have hlev : pool.num_free_lists ≤ alloc_level pool n := by
        rw [v9]
        unfold alloc_level UINT8_RANGE
        split_ifs <;> omega
      refine ⟨hlev, ?_⟩
      unfold concurrent_charpool_alloc
      simp only [h1, h2, if_false]
      rw [hnone]
      simp only []
      rw [Nat.sub_eq_zero_of_le hlev]
      rfl
    · intro heq
      have hlev : alloc_level pool n = 0 := by
        unfold alloc_level UINT8_RANGE
        omega
      refine ⟨hlev, ?_, ?_⟩
      · intro j hj hz hne
        unfold concurrent_charpool_alloc
        simp only [h1, h2, if_false]
        rw [hnone]
        simp only []
        rw [hlev, free_list_pop_loop_hit pool _ 0 j (Nat.zero_le _) (by omega)
          (fun i _ hi => hz i hi) hne]
      · intro hz
        unfold concurrent_charpool_alloc
        simp only [h1, h2, if_false]
        rw [hnone]
        simp only []
        rw [free_list_pop_loop_none pool _ _ (fun k hk1 hk2 => hz k (by omega))]

/-- C17 as amended, on the 1024-byte pool with the run 4096 on large free
list 3: `ceil_log2 5 = 3` is the threshold, and `alloc(5)` pops that list. -/
theorem small_request_service_witness :
    ceil_log2 5 = 3
    ∧ (concurrent_charpool_alloc (single_thread_env 8192 0) 1
        (concurrent_charpool_release_size (scenario_pool_1024 100) 4096 100 true).pool
        5).result = some 4096 :=
  have h := (small_request_service (single_thread_env 8192 0) 1
    (concurrent_charpool_release_size (scenario_pool_1024 100) 4096 100 true).pool 5
    (by decide) (by decide) (by decide)).2.2
    (fun i _ _ => getD_replicate_default _ _ i)
  ⟨by decide, congrArg alloc_out.result
    (((h.2 (by decide)).2.1 3 (by decide) (by decide) (by decide)))⟩

/-! ## The versions of the large free lists -/

theorem count_pushes_append (ops1 ops2 : List free_list_op) :
    count_pushes (ops1 ++ ops2) = count_pushes ops1 + count_pushes ops2 := by
  induction ops1 with
  | nil => simp [count_pushes]
  | cons op ops ih =>
    cases op with
    | push str =>
      show count_pushes (ops ++ ops2) + 1 = count_pushes ops + 1 + count_pushes ops2
      rw [ih]; omega
    | pop =>
      show count_pushes (ops ++ ops2) = count_pushes ops + count_pushes ops2
      exact ih

theorem free_list_run_version (ops : List free_list_op) :
    ∀ (head : concurrent_charpool_free_list_t) (mem : List (Nat × Nat)),
      head.version < SIZE_T_RANGE →
      (free_list_run head mem ops).1.version
        = (head.version + count_pushes ops) % SIZE_T_RANGE := by
  induction ops with
  | nil =>
    intro head mem hv
    simp only [free_list_run, count_pushes, Nat.add_zero]
    exact (Nat.mod_eq_of_lt hv).symm
  | cons op ops ih =>
    intro head mem hv
    cases op with
    | push str =>
      simp only [free_list_run, count_pushes]
      rw [ih _ _ (by simp only [free_list_push]; exact Nat.mod_lt _ (by decide))]
      simp only [free_list_push]
      unfold SIZE_T_RANGE
      omega
    | pop =>
      simp only [free_list_run, count_pushes]
      cases hpop : free_list_pop head mem with
      | none => simp only []; exact ih head mem hv
      | some r =>
        obtain ⟨a, new_head⟩ := r
        simp only []
        have hver : new_head.version = head.version := by
          unfold free_list_pop at hpop
          split_ifs at hpop
          simp only [Option.some.injEq, Prod.mk.injEq] at hpop
          rw [← hpop.2]
        rw [ih new_head mem (by rw [hver]; exact hv), hver]

/-- C15: (1) in a valid pool, `release_size(p, n)` with `p` non-null and
`small_max ≤ n < block_size` succeeds and is the push of `p` on large free
list `k = floor_log2 n - threshold`: the head `(v, h)` of that list becomes
`(v + 1 mod 2^64, p)`, `p->next` is `h`, and every other list keeps its head;
(2) `alloc(m)` with `small_min ≤ m < block_size` that does not pop a small
stack either pops one large free list, whose head `(v, h)` becomes
`(v, h->next)` while `h` is returned, or goes on to the grow loop;
(3) after any sequence of pushes and pops on a list that starts as the
sentinel `(0, NULL)` the version is the number of pushes modulo `2^64`;
(4) as long as fewer than `2^64` pushes are made, the version at any later
point of the sequence, in particular the one a pop sees, is at least the
version at an earlier point, in particular the one present before the push
of the run popped. -/
theorem version_discipline :
    (∀ (pool : concurrent_charpool_t) (p n : Nat) (push_ok : Bool), pool_valid pool →
      p ≠ 0 → pool.small_string_max_size ≤ n → n < pool.block_size →
      floor_log2 n - pool.small_string_level_threshold < pool.free_lists.length
      ∧ concurrent_charpool_release_size pool p n push_ok
        = { ok := true
            pool := { pool with
              free_lists := pool.free_lists.set
                (floor_log2 n - pool.small_string_level_threshold)
                (free_list_push
                  (pool.free_lists.getD (floor_log2 n - pool.small_string_level_threshold)
                    CONCURRENT_CHARPOOL_NULL_FREE_LIST) pool.free_string_next p).1
              free_string_next :=
                (free_list_push
                  (pool.free_lists.getD (floor_log2 n - pool.small_string_level_threshold)
                    CONCURRENT_CHARPOOL_NULL_FREE_LIST) pool.free_string_next p).2 }
            freed := [] }
      ∧ (concurrent_charpool_release_size pool p n push_ok).pool.free_lists.getD
          (floor_log2 n - pool.small_string_level_threshold) CONCURRENT_CHARPOOL_NULL_FREE_LIST
        = { version := ((pool.free_lists.getD
              (floor_log2 n - pool.small_string_level_threshold)
              CONCURRENT_CHARPOOL_NULL_FREE_LIST).version + 1) % SIZE_T_RANGE
            item := p }
      ∧ read_next (concurrent_charpool_release_size pool p n push_ok).pool.free_string_next p
        = (pool.free_lists.getD (floor_log2 n - pool.small_string_level_threshold)
            CONCURRENT_CHARPOOL_NULL_FREE_LIST).item
      ∧ ∀ j, j ≠ floor_log2 n - pool.small_string_level_threshold →
          (concurrent_charpool_release_size pool p n push_ok).pool.free_lists.getD j
              CONCURRENT_CHARPOOL_NULL_FREE_LIST
            = pool.free_lists.getD j CONCURRENT_CHARPOOL_NULL_FREE_LIST)
    ∧ (∀ (env : call_env) (fuel : Nat) (pool : concurrent_charpool_t) (m : Nat),
      pool.small_string_min_size ≤ m → m < pool.block_size →
      (∃ i a t, pool.small_string_free_lists.getD i [] = a :: t
        ∧ concurrent_charpool_alloc env fuel pool m
          = { result := some a
              pool := { pool with
                small_string_free_lists := pool.small_string_free_lists.set i t }
              freed := [] })
      ∨ (∃ j h new_head,
          free_list_pop (pool.free_lists.getD j CONCURRENT_CHARPOOL_NULL_FREE_LIST)
            pool.free_string_next = some (h, new_head)
          ∧ h = (pool.free_lists.getD j CONCURRENT_CHARPOOL_NULL_FREE_LIST).item
          ∧ new_head
            = { version := (pool.free_lists.getD j CONCURRENT_CHARPOOL_NULL_FREE_LIST).version
                item := read_next pool.free_string_next h }
          ∧ concurrent_charpool_alloc env fuel pool m
            = { result := some h
                pool := { pool with free_lists := pool.free_lists.set j new_head }
                freed := [] })
      ∨ concurrent_charpool_alloc env fuel pool m = grow_loop env m fuel 0 pool [] 0 0 0)
    ∧ (∀ (mem : List (Nat × Nat)) (ops : List free_list_op),
      (free_list_run CONCURRENT_CHARPOOL_NULL_FREE_LIST mem ops).1.version
        = count_pushes ops % SIZE_T_RANGE)
    ∧ (∀ (mem : List (Nat × Nat)) (ops1 ops2 : List free_list_op),
      count_pushes (ops1 ++ ops2) < SIZE_T_RANGE →
      (free_list_run CONCURRENT_CHARPOOL_NULL_FREE_LIST mem ops1).1.version
        ≤ (free_list_run CONCURRENT_CHARPOOL_NULL_FREE_LIST mem (ops1 ++ ops2)).1.version) := by
  have hrun : ∀ (mem : List (Nat × Nat)) (ops : List free_list_op),
      (free_list_run CONCURRENT_CHARPOOL_NULL_FREE_LIST mem ops).1.version
        = count_pushes ops % SIZE_T_RANGE := by
    intro mem ops
    rw [free_list_run_version ops _ mem (by decide)]
    simp [CONCURRENT_CHARPOOL_NULL_FREE_LIST]
  refine ⟨?_, ?_, hrun, ?_⟩
  · intro pool p n push_ok hv hp hn1 hn2
    obtain ⟨hlev, _, hlt, _⟩ := release_level_spec pool hv n hn1 hn2
    have hlen : release_level pool n < pool.free_lists.length := by
      rw [hv.2.2.2.2.2.2.2.2.2.2]; exact hlt
    have hout := release_size_large pool p n push_ok hp hv.2.1 hn1 hn2
    rw [← hlev, hout]
    refine ⟨hlen, rfl, ?_, ?_, ?_⟩
    · simp only []
      exact getD_set_eq _ _ _ _ hlen
    · simp [read_next]
    · intro j hj
      simp only []
      exact getD_set_ne _ _ _ _ _ (Ne.symm hj)
  · intro env fuel pool m hm1 hm2
    rcases alloc_cases env fuel pool m hm1 hm2 with
      ⟨i, a, t, _, _, hget, hout⟩ | ⟨j, a, _, _, ha0, hitem, hout⟩ | hgrow
    · exact Or.inl ⟨i, a, t, hget, hout⟩
    · refine Or.inr (Or.inl ⟨j, a, _, ?_, hitem.symm, rfl, hout⟩)
      unfold free_list_pop
      rw [hitem, if_neg ha0]
    · exact Or.inr (Or.inr hgrow)
  · intro mem ops1 ops2 hcount
    rw [hrun, hrun, Nat.mod_eq_of_lt hcount]
    rw [count_pushes_append] at hcount ⊢
    rw [Nat.mod_eq_of_lt (by omega)]
    omega

/-- C15 on large free list 3 of the 1024-byte pool and on a list that gets
two pushes and a pop: the release of the 100-byte run 4096 makes the head
`(1, 4096)`, and the version after push, push, pop is 2. -/
theorem version_discipline_witness :
    (concurrent_charpool_release_size (scenario_pool_1024 100) 4096 100 true).pool.free_lists.getD
        (floor_log2 100 - 3) CONCURRENT_CHARPOOL_NULL_FREE_LIST
      = { version := (0 + 1) % SIZE_T_RANGE, item := 4096 }
    ∧ (free_list_run CONCURRENT_CHARPOOL_NULL_FREE_LIST []
        [free_list_op.push 4096, free_list_op.push 4200, free_list_op.pop]).1
      = { version := 2, item := 4096 }
    ∧ (free_list_run CONCURRENT_CHARPOOL_NULL_FREE_LIST [] [free_list_op.push 4096]).1.version
      ≤ (free_list_run CONCURRENT_CHARPOOL_NULL_FREE_LIST []
          ([free_list_op.push 4096]
            ++ [free_list_op.push 4200, free_list_op.pop])).1.version :=
  ⟨(version_discipline.1 (scenario_pool_1024 100) 4096 100 true (by decide) (by decide)
      (by decide) (by decide)).2.2.1,
    by decide,
    version_discipline.2.2.2 [] [free_list_op.push 4096]
      [free_list_op.push 4200, free_list_op.pop] (by decide)⟩

/-! ## Copies -/

theorem getD_take_lt {α : Type} (l : List α) (n i : Nat) (d : α) (h : i < n) :
    (l.take n).getD i d = l.getD i d := by
  simp [List.getD_eq_getElem?_getD, List.getElem?_take, h]

theorem strlen_terminated (body rest : List Nat) (hbody : ∀ c ∈ body, c ≠ 0) :
    strlen (body ++ 0 :: rest) = body.length := by
  unfold strlen
  induction body with
  | nil => simp
  | cons c cs ih =>
    have hc : c ≠ 0 := hbody c (List.mem_cons_self _ _)
    simp only [List.cons_append, List.takeWhile_cons, hc, ne_eq, not_false_eq_true,
      decide_True, if_true, List.length_cons]
    rw [ih (fun x hx => hbody x (List.mem_cons_of_mem _ hx))]

/-- C12, the claim fails for the empty string: on the fresh 64-byte pool
`alloc(0 + 1)` succeeds, yet `copy_size(pool, s, 0)` and `copy(pool, "")`
return `NULL` (line 343 rejects `n == 0`). -/
theorem copy_of_empty_string_fails :
    (concurrent_charpool_alloc (single_thread_env 8192 0) 1 (scenario_pool 0) (0 + 1)).result
      = some 4096
    ∧ (concurrent_charpool_copy_size (single_thread_env 8192 0) 1 (scenario_pool 0)
        (fun _ => 0) (some []) 0).result = some 0
    ∧ strlen [0] = 0
    ∧ (concurrent_charpool_copy (single_thread_env 8192 0) 1 (scenario_pool 0)
        (fun _ => 0) (some [0])).result = some 0 := by
  decide

/-- C12 as amended: (1) for a source of at least `n ≥ 1` bytes, when
`alloc(n + 1)` returns a non-null run `p`, `copy_size(pool, s, n)` returns
`p`, leaves the pool as that `alloc` leaves it, and the memory afterwards
holds the first `n` source bytes at `p`, a zero byte at `p + n` and what it
held before everywhere else; (2) `copy_size` of a non-null source returns
`NULL` exactly when `n = 0` or `alloc(n + 1)` returns `NULL`, and `NULL` for
a null source; (3) `copy(pool, s)` of a string whose bytes before the first
zero byte are `body` is `copy_size(pool, s, length body)`, and `NULL` for a
null source. -/
theorem copy_contract :
    (∀ (env : call_env) (fuel : Nat) (pool : concurrent_charpool_t) (memory : Nat → Nat)
      (bytes : List Nat) (n p : Nat), 1 ≤ n → n ≤ bytes.length → n + 1 < SIZE_T_RANGE →
      (concurrent_charpool_alloc env fuel pool (n + 1)).result = some p → p ≠ 0 →
      (concurrent_charpool_copy_size env fuel pool memory (some bytes) n).result = some p
      ∧ (concurrent_charpool_copy_size env fuel pool memory (some bytes) n).pool
        = (concurrent_charpool_alloc env fuel pool (n + 1)).pool
      ∧ (∀ i, i < n →
          (concurrent_charpool_copy_size env fuel pool memory (some bytes) n).memory (p + i)
            = bytes.getD i 0)
      ∧ (concurrent_charpool_copy_size env fuel pool memory (some bytes) n).memory (p + n) = 0
      ∧ (∀ a, a < p ∨ p + n < a →
          (concurrent_charpool_copy_size env fuel pool memory (some bytes) n).memory a
            = memory a))
    ∧ (∀ (env : call_env) (fuel : Nat) (pool : concurrent_charpool_t) (memory : Nat → Nat)
      (bytes : List Nat) (n : Nat), n + 1 < SIZE_T_RANGE →
      ((concurrent_charpool_copy_size env fuel pool memory (some bytes) n).result = some 0
        ↔ (n = 0 ∨ (concurrent_charpool_alloc env fuel pool (n + 1)).result = some 0))
      ∧ (concurrent_charpool_copy_size env fuel pool memory none n).result = some 0)
    ∧ (∀ (env : call_env) (fuel : Nat) (pool : concurrent_charpool_t) (memory : Nat → Nat)
      (body rest : List Nat), (∀ c ∈ body, c ≠ 0) →
      concurrent_charpool_copy env fuel pool memory (some (body ++ 0 :: rest))
        = concurrent_charpool_copy_size env fuel pool memory (some (body ++ 0 :: rest))
            body.length
      ∧ (concurrent_charpool_copy env fuel pool memory none).result = some 0) := by
  refine ⟨?_, ?_, ?_⟩
  · intro env fuel pool memory bytes n p hn1 hn2 hn3 halloc hp
    have hn0 : ¬ n = 0 := by omega
    have hmod : (n + 1) % SIZE_T_RANGE = n + 1 := Nat.mod_eq_of_lt hn3
    have hlen : (bytes.take n).length = n := by
      rw [List.length_take]; omega
    unfold concurrent_charpool_copy_size
    simp only [hn0, if_false, hmod, halloc, hp]
    refine ⟨by trivial, by trivial, ?_, ?_, ?_⟩
    · intro i hi
      have h1 : ¬ (p + n ≤ p + i ∧ p + i < p + n + [0].length) := by omega
      have h2 : p ≤ p + i ∧ p + i < p + (bytes.take n).length := by omega
      simp only [write_bytes, if_neg h1, if_pos h2]
      rw [Nat.add_sub_cancel_left, getD_take_lt _ _ _ _ hi]
    · have h1 : p + n ≤ p + n ∧ p + n < p + n + [0].length := by simp
      simp only [write_bytes, if_pos h1]
      simp
    · intro a ha
      have h1 : ¬ (p + n ≤ a ∧ a < p + n + [0].length) := by
        simp only [List.length_singleton]; omega
      have h2 : ¬ (p ≤ a ∧ a < p + (bytes.take n).length) := by omega
      simp only [write_bytes, if_neg h1, if_neg h2]
  · intro env fuel pool memory bytes n hn3
    have hmod : (n + 1) % SIZE_T_RANGE = n + 1 := Nat.mod_eq_of_lt hn3
    refine ⟨?_, rfl⟩
    unfold concurrent_charpool_copy_size
    by_cases hn0 : n = 0
    · simp [hn0]
    · simp only [hn0, if_false, hmod, false_or]
      cases hres : (concurrent_charpool_alloc env fuel pool (n + 1)).result with
      | none => simp
      | some r =>
        by_cases hr : r = 0
        · simp [hr]
        · simp [hr]
  · intro env fuel pool memory body rest hbody
    refine ⟨?_, rfl⟩
    unfold concurrent_charpool_copy
    simp only []
    rw [strlen_terminated body rest hbody]

/-- C12 as amended, on the fresh 64-byte pool: the copy of the three bytes
`abc` is the run 4096 with the bytes 97, 98, 99 and a zero byte behind them. -/
theorem copy_contract_witness :
    (concurrent_charpool_alloc (single_thread_env 8192 0) 1 (scenario_pool 0) (3 + 1)).result
      = some 4096
    ∧ (concurrent_charpool_copy_size (single_thread_env 8192 0) 1 (scenario_pool 0)
        (fun _ => 255) (some [97, 98, 99, 0]) 3).result = some 4096
    ∧ (concurrent_charpool_copy_size (single_thread_env 8192 0) 1 (scenario_pool 0)
        (fun _ => 255) (some [97, 98, 99, 0]) 3).memory (4096 + 3) = 0 :=
  have h := copy_contract.1 (single_thread_env 8192 0) 1 (scenario_pool 0) (fun _ => 255)
    [97, 98, 99, 0] 3 4096 (by decide) (by decide) (by decide) (by decide) (by decide)
  ⟨by decide, h.1, h.2.2.2.1⟩

/-! ## The exhausted head block once the fill index wraps around -/

/-- One iteration of the grow loop on a head block whose fill index is at or
beyond `block_size`, before any try-lock has failed and with the try-lock
succeeding: nothing is released, no block is installed, the fill index is
advanced by `size` and the loop runs again. -/
theorem grow_iter_full_spin (env : call_env) (size k : Nat) (pool : concurrent_charpool_t)
    (freed : List Nat) (index spin_count : Nat) (b : concurrent_charpool_block_t)
    (rest : List concurrent_charpool_block_t) (hblock : pool.block = b :: rest)
    (htry : env.trylock k = true) (hsize : 0 < size)
    (hfull : pool.block_size ≤ b.block_index)
    (hwrap : b.block_index + size < SIZE_T_RANGE) :
    grow_iter env size k pool freed 0 index spin_count
      = grow_step.again
          { pool with block := { b with block_index := b.block_index + size } :: rest }
          freed 0 b.block_index spin_count := by
  have hmod : (b.block_index + size) % SIZE_T_RANGE = b.block_index + size :=
    Nat.mod_eq_of_lt hwrap
  have hid : head_block_id pool ≠ 0 := by simp [head_block_id, hblock]
  have hnot : ¬ (b.block_index + size ≤ pool.block_size) := by omega
  have hnrel : ¬ (b.block_index < pool.block_size
      ∧ pool.block_size - b.block_index ≥ pool.small_string_min_size) := by omega
  have hrel : release_remainder
      { pool with block := { b with block_index := b.block_index + size } :: rest }
      b.data b.block_index (env.push_ok k)
      = { ok := false
          pool := { pool with block := { b with block_index := b.block_index + size } :: rest }
          freed := [] } := by
    unfold release_remainder
    rw [if_neg hnrel]
  unfold grow_iter
  rw [hblock]
  simp only [fetch_block_index, hid, ne_eq, not_false_eq_true, if_true, hmod, hnot,
    decide_False, Bool.false_eq_true, if_false, htry]
  rw [hrel]
  simp [head_block_id]

theorem grow_loop_succ (env : call_env) (size fuel k : Nat) (pool : concurrent_charpool_t)
    (freed : List Nat) (last_block index spin_count : Nat) :
    grow_loop env size (fuel + 1) k pool freed last_block index spin_count
      = match grow_iter env size k pool freed last_block index spin_count with
        | grow_step.done out => out
        | grow_step.again pool1 freed1 last_block1 index1 spin_count1 =>
          grow_loop env size fuel (k + 1) pool1 freed1 last_block1 index1 spin_count1 := rfl

/-- With every try-lock succeeding, `k` iterations of the grow loop on a head
block filled to `block_size` or beyond only advance the fill index, as long
as it does not wrap around: the loop goes on from the same pool with the
fill index `k * size` further. -/
theorem grow_loop_full_spins (env : call_env) (size : Nat)
    (htry : ∀ k, env.trylock k = true) (hsize : 0 < size) (k : Nat) :
    ∀ (m j : Nat) (pool : concurrent_charpool_t) (freed : List Nat) (index spin_count : Nat)
      (b : concurrent_charpool_block_t) (rest : List concurrent_charpool_block_t),
      pool.block = b :: rest → pool.block_size ≤ b.block_index →
      b.block_index + k * size < SIZE_T_RANGE →
      ∃ index1, grow_loop env size (k + m) j pool freed 0 index spin_count
        = grow_loop env size m (j + k)
            { pool with block := { b with block_index := b.block_index + k * size } :: rest }
            freed 0 index1 spin_count := by
  induction k with
  | zero =>
    intro m j pool freed index spin_count b rest hblock _ _
    refine ⟨index, ?_⟩
    have hp : { pool with block := { b with block_index := b.block_index + 0 * size } :: rest }
        = pool := by
      cases pool
      simp only [] at hblock
      subst hblock
      simp
    rw [hp, Nat.zero_add, Nat.add_zero]
  | succ k ih =>
    intro m j pool freed index spin_count b rest hblock hfull hwrap
    have hks : (k + 1) * size = k * size + size := by ring
    have hw1 : b.block_index + size < SIZE_T_RANGE := by omega
    have hfuel : k + 1 + m = (k + m) + 1 := by omega
    rw [hfuel, grow_loop_succ]
    rw [grow_iter_full_spin env size j pool freed index spin_count b rest hblock (htry j)
      hsize hfull hw1]
    simp only []
    obtain ⟨index1, hih⟩ := ih m (j + 1)
      { pool with block := { b with block_index := b.block_index + size } :: rest }
      freed b.block_index spin_count { b with block_index := b.block_index + size } rest rfl
      (by simp only []; omega) (by simp only []; omega)
    refine ⟨index1, ?_⟩
    have e1 : j + 1 + k = j + (k + 1) := by omega
    have e2 : b.block_index + size + k * size = b.block_index + (k + 1) * size := by omega
    dsimp only at hih
    rw [e1, e2] at hih
    exact hih

/-- A single-threaded `alloc(n)` on a head block filled to `block_size` or
beyond, no probed free list holding a run: after `k` iterations that only
advance the fill index, the iteration in which `index + n` wraps around the
64-bit word to a value of at most `block_size` passes the test of line 285
and the call returns `data + index` for the unwrapped index
`fill + k * n`, far outside the block, leaving the fill index wrapped. -/
theorem alloc_full_block_wraps (env : call_env) (htry : ∀ k, env.trylock k = true)
    (k fuel : Nat) (pool : concurrent_charpool_t) (n : Nat)
    (b : concurrent_charpool_block_t) (rest : List concurrent_charpool_block_t)
    (hfuel : k < fuel)
    (hmin : pool.small_string_min_size ≤ n) (hbs : n < pool.block_size) (hpos : 0 < n)
    (hblock : pool.block = b :: rest) (hfull : pool.block_size ≤ b.block_index)
    (hwrap : b.block_index + k * n < SIZE_T_RANGE)
    (hfit : (b.block_index + k * n + n) % SIZE_T_RANGE ≤ pool.block_size)
    (hsmall : ∀ i, n - pool.small_string_min_size ≤ i →
      i < pool.small_string_max_size - pool.small_string_min_size →
      pool.small_string_free_lists.getD i [] = [])
    (hlarge : ∀ j, alloc_level pool n ≤ j → j < pool.num_free_lists →
      (pool.free_lists.getD j CONCURRENT_CHARPOOL_NULL_FREE_LIST).item = 0) :
    concurrent_charpool_alloc env fuel pool n
      = { result := some (b.data + (b.block_index + k * n))
          pool := { pool with
            block := { b with
              block_index := (b.block_index + k * n + n) % SIZE_T_RANGE } :: rest }
          freed := [] } := by
  obtain ⟨m, rfl⟩ : ∃ m, fuel = k + (m + 1) := ⟨fuel - k - 1, by omega⟩
  have h1 : ¬ n < pool.small_string_min_size := by omega
  have h2 : ¬ n ≥ pool.block_size := by omega
  unfold concurrent_charpool_alloc
  simp only [h1, h2, if_false]
  rw [small_string_pop_loop_none pool _ _ (fun i hi1 hi2 => hsmall i hi1 (by omega))]
  simp only []
  rw [free_list_pop_loop_none pool _ _ (fun j hj1 hj2 => hlarge j hj1 (by omega))]
  simp only []
  obtain ⟨index1, hsp⟩ := grow_loop_full_spins env n htry hpos k (m + 1) 0 pool [] 0 0
    b rest hblock hfull hwrap
  rw [hsp, grow_loop_succ]
  rw [grow_iter_in_block env n (0 + k)
    { pool with block := { b with block_index := b.block_index + k * n } :: rest } [] 0 index1 0
    { b with block_index := b.block_index + k * n } rest rfl
    (by simp [head_block_id]) hfit]

theorem alloc_bump_pos (env : call_env) (fuel : Nat) (pool : concurrent_charpool_t) (n : Nat)
    (b : concurrent_charpool_block_t) (rest : List concurrent_charpool_block_t)
    (hfuel : 0 < fuel)
    (hmin : pool.small_string_min_size ≤ n) (hbs : n < pool.block_size)
    (hsz : pool.block_size < SIZE_T_RANGE) (hblock : pool.block = b :: rest)
    (hfit : b.block_index + n ≤ pool.block_size)
    (hsmall : ∀ i, n - pool.small_string_min_size ≤ i →
      i < pool.small_string_max_size - pool.small_string_min_size →
      pool.small_string_free_lists.getD i [] = [])
    (hlarge : ∀ j, alloc_level pool n ≤ j → j < pool.num_free_lists →
      (pool.free_lists.getD j CONCURRENT_CHARPOOL_NULL_FREE_LIST).item = 0) :
    concurrent_charpool_alloc env fuel pool n
      = { result := some (b.data + b.block_index)
          pool := { pool with block := { b with block_index := b.block_index + n } :: rest }
          freed := [] } := by
  obtain ⟨f, rfl⟩ : ∃ f, fuel = f + 1 := ⟨fuel - 1, by omega⟩
  exact alloc_bump env f pool n b rest hmin hbs hsz hblock hfit hsmall hlarge

theorem scenario_pool_4g_empty (fill : Nat) :
    (∀ i, (scenario_pool_4g fill).small_string_free_lists.getD i [] = [])
    ∧ (∀ j, ((scenario_pool_4g fill).free_lists.getD j
        CONCURRENT_CHARPOOL_NULL_FREE_LIST).item = 0) := by
  constructor
  · intro i; exact getD_replicate_default _ _ i
  · intro j
    have h : (scenario_pool_4g fill).free_lists.getD j CONCURRENT_CHARPOOL_NULL_FREE_LIST
        = CONCURRENT_CHARPOOL_NULL_FREE_LIST := getD_replicate_default _ _ j
    rw [h]; rfl

theorem client_step_alloc_small (fuel : Nat) (s : client_state)
    (size new_block aligned_malloc p : Nat) (pool1 : concurrent_charpool_t)
    (freed : List Nat) (hsize : size < s.pool.block_size) (hp : p ≠ 0)
    (h : concurrent_charpool_alloc (single_thread_env new_block aligned_malloc) fuel
      s.pool size = { result := some p, pool := pool1, freed := freed }) :
    client_step fuel s (pool_call.alloc size new_block aligned_malloc)
      = some { pool := pool1, live := (p, size) :: s.live } := by
  have hg : ¬ (size ≥ s.pool.block_size ∧ aligned_malloc ≠ 0
      ∧ ¬ system_buffer_fresh s size aligned_malloc) := by omega
  simp only [client_step, hg, if_false, h, hp]

theorem client_run_cons (fuel : Nat) (s s1 : client_state) (call : pool_call)
    (rest : List pool_call) (h : client_step fuel s call = some s1) :
    client_run fuel s (call :: rest) = client_run fuel s1 rest := by
  simp only [client_run, h]

theorem client_run_nil (fuel : Nat) (s : client_state) : client_run fuel s [] = some s := rfl

/-- C1, what the code does: on the pool of the options `small_min = 1`,
`small_max = 8`, `block_size = 2 ^ 32` (block buffer at `2 ^ 32`) a
single-threaded client calls `alloc(2 ^ 31)` four times and releases
nothing.  The first two calls fill the block.  The third finds it full and,
no block being installed when the try-lock succeeds (see C6), adds `2 ^ 31`
to the fill index in every iteration of the grow loop until `index + size`
wraps around `2 ^ 64` to 0, in iteration `2 ^ 33 - 2`: the test of line 285
passes and the call returns `data + (2 ^ 64 - 2 ^ 31)`, in 64-bit pointer
arithmetic the address `2 ^ 31` bytes before the block, leaving the fill
index 0.  The fourth call returns `data + 0`, the run of the first call,
which the client still holds: two live runs are the same bytes. -/
theorem full_block_wraps_to_overlap :
    concurrent_charpool_init_options ⟨1, 8, 2 ^ 32⟩ (2 ^ 32) = some (scenario_pool_4g 0)
    ∧ client_run (2 ^ 33) { pool := scenario_pool_4g 0, live := [] }
        [pool_call.alloc (2 ^ 31) 0 0, pool_call.alloc (2 ^ 31) 0 0,
          pool_call.alloc (2 ^ 31) 0 0, pool_call.alloc (2 ^ 31) 0 0]
      = some
          { pool := scenario_pool_4g (2 ^ 31)
            live := [(2 ^ 32, 2 ^ 31), (2 ^ 32 + (2 ^ 64 - 2 ^ 31), 2 ^ 31),
              (2 ^ 32 + 2 ^ 31, 2 ^ 31), (2 ^ 32, 2 ^ 31)] }
    ∧ (concurrent_charpool_alloc (single_thread_env 0 0) (2 ^ 33 - 3)
        (scenario_pool_4g (2 ^ 32)) (2 ^ 31)).result = none
    ∧ ¬ List.Pairwise runs_disjoint
        [(2 ^ 32, 2 ^ 31), (2 ^ 32 + (2 ^ 64 - 2 ^ 31), 2 ^ 31),
          (2 ^ 32 + 2 ^ 31, 2 ^ 31), (2 ^ 32, 2 ^ 31)] := by
  have hbump (f : Nat) (hf : f + 2 ^ 31 ≤ 2 ^ 32) :
      concurrent_charpool_alloc (single_thread_env 0 0) (2 ^ 33) (scenario_pool_4g f) (2 ^ 31)
        = { result := some (2 ^ 32 + f), pool := scenario_pool_4g (f + 2 ^ 31), freed := [] } :=
    alloc_bump_pos (single_thread_env 0 0) (2 ^ 33) (scenario_pool_4g f) (2 ^ 31)
      { block_index := f, data := 2 ^ 32 } [] (by decide)
      (by show (1 : Nat) ≤ 2 ^ 31; norm_num) (by show (2 : Nat) ^ 31 < 2 ^ 32; norm_num)
      (by show (2 : Nat) ^ 32 < 2 ^ 64; norm_num) rfl hf
      (fun i _ _ => (scenario_pool_4g_empty f).1 i)
      (fun j _ _ => (scenario_pool_4g_empty f).2 j)
  have hwrap :
      concurrent_charpool_alloc (single_thread_env 0 0) (2 ^ 33) (scenario_pool_4g (2 ^ 32))
          (2 ^ 31)
        = { result := some (2 ^ 32 + (2 ^ 64 - 2 ^ 31)), pool := scenario_pool_4g 0,
            freed := [] } := by
    have h := alloc_full_block_wraps (single_thread_env 0 0) (fun _ => rfl) (2 ^ 33 - 3)
      (2 ^ 33) (scenario_pool_4g (2 ^ 32)) (2 ^ 31) { block_index := 2 ^ 32, data := 2 ^ 32 } []
      (by decide) (by decide) (by decide) (by decide) rfl (by decide) (by decide) (by decide)
      (fun i _ _ => (scenario_pool_4g_empty _).1 i)
      (fun j _ _ => (scenario_pool_4g_empty _).2 j)
    have w1 : (2 : Nat) ^ 32 + (2 ^ 33 - 3) * 2 ^ 31 = 2 ^ 64 - 2 ^ 31 := by decide
    have w2 : ((2 : Nat) ^ 64 - 2 ^ 31 + 2 ^ 31) % SIZE_T_RANGE = 0 := by decide
    dsimp only at h
    rw [w1, w2] at h
    exact h
  have e1 : (2 : Nat) ^ 31 + 2 ^ 31 = 2 ^ 32 := by norm_num
  have e3 : (2 : Nat) ^ 32 + 0 = 2 ^ 32 := by norm_num
  have e4 : (0 : Nat) + 2 ^ 31 = 2 ^ 31 := by norm_num
  have s1 : client_step (2 ^ 33) { pool := scenario_pool_4g 0, live := [] }
      (pool_call.alloc (2 ^ 31) 0 0)
      = some { pool := scenario_pool_4g (2 ^ 31), live := [(2 ^ 32, 2 ^ 31)] } := by
    have h := client_step_alloc_small (2 ^ 33) { pool := scenario_pool_4g 0, live := [] }
      (2 ^ 31) 0 0 _ _ _ (by decide) (by decide) (hbump 0 (by decide))
    rw [e3, e4] at h
    exact h
  have s2 : client_step (2 ^ 33)
      { pool := scenario_pool_4g (2 ^ 31), live := [(2 ^ 32, 2 ^ 31)] }
      (pool_call.alloc (2 ^ 31) 0 0)
      = some
          { pool := scenario_pool_4g (2 ^ 32)
            live := [(2 ^ 32 + 2 ^ 31, 2 ^ 31), (2 ^ 32, 2 ^ 31)] } := by
    have h := client_step_alloc_small (2 ^ 33)
      { pool := scenario_pool_4g (2 ^ 31), live := [(2 ^ 32, 2 ^ 31)] }
      (2 ^ 31) 0 0 _ _ _ (by decide) (by decide) (hbump (2 ^ 31) (by decide))
    rw [e1] at h
    exact h
  have s3 : client_step (2 ^ 33)
      { pool := scenario_pool_4g (2 ^ 32)
        live := [(2 ^ 32 + 2 ^ 31, 2 ^ 31), (2 ^ 32, 2 ^ 31)] }
      (pool_call.alloc (2 ^ 31) 0 0)
      = some
          { pool := scenario_pool_4g 0
            live := [(2 ^ 32 + (2 ^ 64 - 2 ^ 31), 2 ^ 31), (2 ^ 32 + 2 ^ 31, 2 ^ 31),
              (2 ^ 32, 2 ^ 31)] } :=
    client_step_alloc_small (2 ^ 33)
      { pool := scenario_pool_4g (2 ^ 32)
        live := [(2 ^ 32 + 2 ^ 31, 2 ^ 31), (2 ^ 32, 2 ^ 31)] }
      (2 ^ 31) 0 0 _ _ _ (by decide) (by decide) hwrap
  have s4 : client_step (2 ^ 33)
      { pool := scenario_pool_4g 0
        live := [(2 ^ 32 + (2 ^ 64 - 2 ^ 31), 2 ^ 31), (2 ^ 32 + 2 ^ 31, 2 ^ 31),
          (2 ^ 32, 2 ^ 31)] }
      (pool_call.alloc (2 ^ 31) 0 0)
      = some
          { pool := scenario_pool_4g (2 ^ 31)
            live := [(2 ^ 32, 2 ^ 31), (2 ^ 32 + (2 ^ 64 - 2 ^ 31), 2 ^ 31),
              (2 ^ 32 + 2 ^ 31, 2 ^ 31), (2 ^ 32, 2 ^ 31)] } := by
    have h := client_step_alloc_small (2 ^ 33)
      { pool := scenario_pool_4g 0
        live := [(2 ^ 32 + (2 ^ 64 - 2 ^ 31), 2 ^ 31), (2 ^ 32 + 2 ^ 31, 2 ^ 31),
          (2 ^ 32, 2 ^ 31)] }
      (2 ^ 31) 0 0 _ _ _ (by decide) (by decide) (hbump 0 (by decide))
    rw [e3, e4] at h
    exact h
  refine ⟨by decide, ?_, ?_, by decide⟩
  · rw [client_run_cons _ _ _ _ _ s1, client_run_cons _ _ _ _ _ s2,
      client_run_cons _ _ _ _ _ s3, client_run_cons _ _ _ _ _ s4, client_run_nil]
  · exact (alloc_exhausted_spins (single_thread_env 0 0) (2 ^ 33 - 3)
      (scenario_pool_4g (2 ^ 32)) (2 ^ 31) { block_index := 2 ^ 32, data := 2 ^ 32 } []
      (fun _ => rfl) (by decide) (by decide) rfl (by decide) (by decide)
      (fun i _ _ => (scenario_pool_4g_empty _).1 i)
      (fun j _ _ => (scenario_pool_4g_empty _).2 j)).1

/-! ## Large lists without room in the head block, a remainder pushed twice -/

/-- C4, counterexample: the 1024-byte pool of the spec scenario with the head
block filled up to 1000 and the 100-byte run `p = 4096` released, so `p` is
on large list 3.  `ceil_log2 70 = 7` is above `floor_log2 100 = 6`, so
`alloc(70)` does not take `p`; but the head block has no room for 70 bytes,
and the call does not bump-allocate: with the block-change lock held by
another thread throughout it returns `NULL` after the spin budget, with the
lock free at every attempt it has not returned after a million iterations
of the grow loop, and with the lock held once it returns the buffer of a
newly installed block.  And with room in the head block (fill 100), when
the pointer released is the address 4196 of the next bump allocation,
`alloc(70)` returns that very pointer. -/
theorem no_head_room_no_bump :
    ¬ ceil_log2 70 ≤ floor_log2 100
    ∧ ((concurrent_charpool_release_size (scenario_pool_1024 1000) 4096 100
        true).pool.free_lists.getD 3 CONCURRENT_CHARPOOL_NULL_FREE_LIST).item = 4096
    ∧ (concurrent_charpool_alloc (always_contended_env 8192 0) (SPIN_LIMIT + 1)
        (concurrent_charpool_release_size (scenario_pool_1024 1000) 4096 100 true).pool
        70).result = some 0
    ∧ (concurrent_charpool_alloc (single_thread_env 8192 0) 1000000
        (concurrent_charpool_release_size (scenario_pool_1024 1000) 4096 100 true).pool
        70).result = none
    ∧ (concurrent_charpool_alloc (contended_once_env 8192 0) 2
        (concurrent_charpool_release_size (scenario_pool_1024 1000) 4096 100 true).pool
        70).result = some 8192
    ∧ (concurrent_charpool_alloc (contended_once_env 8192 0) 2
        (concurrent_charpool_release_size (scenario_pool_1024 1000) 4096 100 true).pool
        70).pool.block
      = [{ block_index := 70, data := 8192 }, { block_index := 1070, data := 4096 }]
    ∧ (concurrent_charpool_alloc (single_thread_env 8192 0) 1
        (concurrent_charpool_release_size (scenario_pool_1024 100) 4196 100 true).pool
        70).result = some 4196 := by
  have hsmall : ∀ i,
      70 - (concurrent_charpool_release_size (scenario_pool_1024 1000) 4096 100
        true).pool.small_string_min_size ≤ i →
      i < (concurrent_charpool_release_size (scenario_pool_1024 1000) 4096 100
          true).pool.small_string_max_size
        - (concurrent_charpool_release_size (scenario_pool_1024 1000) 4096 100
          true).pool.small_string_min_size →
      (concurrent_charpool_release_size (scenario_pool_1024 1000) 4096 100
        true).pool.small_string_free_lists.getD i [] = [] := by
    intro i h1 h2
    have h3 : 69 ≤ i := h1
    have h4 : i < 7 := h2
    omega
  have hlarge : ∀ j,
      alloc_level (concurrent_charpool_release_size (scenario_pool_1024 1000) 4096 100
        true).pool 70 ≤ j →
      j < (concurrent_charpool_release_size (scenario_pool_1024 1000) 4096 100
        true).pool.num_free_lists →
      ((concurrent_charpool_release_size (scenario_pool_1024 1000) 4096 100
        true).pool.free_lists.getD j CONCURRENT_CHARPOOL_NULL_FREE_LIST).item = 0 := by
    intro j h1 h2
    have h3 : 4 ≤ j := h1
    have h4 : j < 7 := h2
    interval_cases j <;> rfl
  refine ⟨by decide, by decide, ?_, ?_, by decide, by decide, by decide⟩
  · exact (alloc_contended (always_contended_env 8192 0) (SPIN_LIMIT + 1) _ 70
      { block_index := 1000, data := 4096 } [] (fun _ => rfl) (by decide) (by decide) rfl
      (by decide) hsmall hlarge).2.1 (le_refl _)
  · exact (alloc_exhausted_spins (single_thread_env 8192 0) 1000000 _ 70
      { block_index := 1000, data := 4096 } [] (fun _ => rfl) (by decide) (by decide) rfl
      (by decide) (by decide) hsmall hlarge).1

/-- C2, what the code does: the pool of the options `small_min = 1`,
`small_max = 8`, `block_size = 256` (block buffer at 4096).  The client
calls `alloc(8)`, which returns `q = 4096`, and `alloc(148)`, which returns
4104 and leaves 100 bytes in the block.  The first try-lock of the next
call, `alloc(128)`, fails and the second succeeds: the call returns the new
block 8192 and has pushed the remainder `p = 4252` on large list 3 twice
(see C9), so `p` is linked to itself.  `alloc(8)` pops `p` from list 3, and
`p` is still the head of list 3.  The client releases `q` and `p`, each
with its size 8: both go to large list 0, and the `next` field of `p`,
which list 3 still reaches, now leads to `q`.  The two `alloc(64)` calls
that follow pop list 3: the first returns `p`, last pushed with size 8, and
the second returns `q`, an 8-byte run, which overlaps the run
`[4104, 4252)` the client still holds. -/
theorem double_push_breaks_sufficiency :
    concurrent_charpool_init_options ⟨1, 8, 256⟩ 4096 = some scenario_pool_256
    ∧ (run_calls 2 scenario_pool_256
        [traced_call.alloc (single_thread_env 8192 0) 8,
          traced_call.alloc (single_thread_env 8192 0) 148,
          traced_call.alloc (contended_once_env 8192 0) 128,
          traced_call.alloc (single_thread_env 12288 0) 8,
          traced_call.release 4096 8,
          traced_call.release 4252 8,
          traced_call.alloc (single_thread_env 12288 0) 64,
          traced_call.alloc (single_thread_env 12288 0) 64]).1
      = [traced_result.pointer (some 4096), traced_result.pointer (some 4104),
          traced_result.pointer (some 8192), traced_result.pointer (some 4252),
          traced_result.released true, traced_result.released true,
          traced_result.pointer (some 4252), traced_result.pointer (some 4096)]
    ∧ ((run_calls 2 scenario_pool_256
        [traced_call.alloc (single_thread_env 8192 0) 8,
          traced_call.alloc (single_thread_env 8192 0) 148,
          traced_call.alloc (contended_once_env 8192 0) 128]).2.free_lists.getD 3
        CONCURRENT_CHARPOOL_NULL_FREE_LIST).item = 4252
    ∧ read_next (run_calls 2 scenario_pool_256
        [traced_call.alloc (single_thread_env 8192 0) 8,
          traced_call.alloc (single_thread_env 8192 0) 148,
          traced_call.alloc (contended_once_env 8192 0) 128]).2.free_string_next 4252 = 4252
    ∧ ¬ runs_disjoint (4096, 64) (4104, 148) := by
  decide

end ConcurrentCharpool
